import Mathlib

/-!
GlideJson: parser and encoder state tables, ordered map

A shallow embedding of `src/src/glidejson/GlideJson.cpp` and
`src/include/glidejson/GlideJson.hpp`.

The C++ tables are flat `unsigned char` arrays indexed by
`byte + GLIDE_BYTE_SIZE * state`.  They are embedded as functions from the
flat index to the stored value; every assignment of the C++ initialiser is one
`store`, every `do { ... } while(++i <= hi)` loop one `doWhileUp`, in source
order.  Static storage starts zeroed.
-/

namespace GlideJson

/-- `GLIDE_BYTE_SIZE` of `GlideJson.hpp`. -/
def GLIDE_BYTE_SIZE : Nat := 256

/-- `GLIDE_JSON_ENCODER_STATES` of `GlideJson.hpp`. -/
def GLIDE_JSON_ENCODER_STATES : Nat := 23

/-- `GLIDE_JSON_PARSER_STATES` of `GlideJson.hpp`. -/
def GLIDE_JSON_PARSER_STATES : Nat := 69

/-- The assignment `table[idx] = v` on a statically allocated table, which
is embedded as the function from the flat index to the stored value. -/
def store {α : Type} (idx : Nat) (v : α) (m : Nat → α) : Nat → α :=
  fun j => if j = idx then v else m j

/-- The loop `i = lo; do { body } while(++i <= hi);` (the body runs for `lo`
first, then for every following `i` up to `hi`). -/
def doWhileUp {σ : Type} (lo hi : Nat) (body : Nat → σ → σ) (m : σ) : σ :=
  (List.range' (lo + 1) (hi - lo)).foldl (fun acc i => body i acc) (body lo m)

/-- The loop `i = hi; do { body } while(--i >= lo);` (the body runs for `hi`
first, then downwards to `lo`). -/
def doWhileDown {σ : Type} (hi lo : Nat) (body : Nat → σ → σ) (m : σ) : σ :=
  ((List.range' lo (hi - lo)).reverse).foldl (fun acc i => body i acc) (body hi m)

/-- A state table (`unsigned char stateMap[]`), zero-initialised. -/
abbrev Table := Nat → Nat

/-- Zero-initialised static storage (`= {0}`). -/
def zeroTable : Table := fun _ => 0

namespace Parser

/-- `Parser::copyTransitions(from, to)`: row `to` becomes a copy of row `from`
as it stands at the time of the call. -/
def copyTransitions (src dst : Nat) (m : Table) : Table :=
  doWhileUp 0 255
    (fun i acc => store (i + GLIDE_BYTE_SIZE * dst) (acc (i + GLIDE_BYTE_SIZE * src)) acc) m

/-- `Parser::setWhitespace(at, next)`: tab, line feed, carriage return, space. -/
def setWhitespace {σ : Type} (store : Nat → Nat → σ → σ) (at_ next : Nat) (m : σ) : σ :=
  m |> store (9 + GLIDE_BYTE_SIZE * at_) next
    |> store (10 + GLIDE_BYTE_SIZE * at_) next
    |> store (13 + GLIDE_BYTE_SIZE * at_) next
    |> store (32 + GLIDE_BYTE_SIZE * at_) next

/-- `Parser::incompleteMap` after `Parser::initialize()`: every state is first
marked incomplete, then the accepting states are cleared one by one (source
order of the `incompleteMap[...] = false` assignments). -/
def incompleteMap : Nat → Bool :=
  (fun _ => false)
  |> doWhileUp 0 (GLIDE_JSON_PARSER_STATES - 1) (fun i => store i true)
  |> store 5 false
  |> store 10 false
  |> store 14 false
  |> store 15 false
  |> store 16 false
  |> store 19 false
  |> store 18 false
  |> store 21 false
  |> store 23 false
  |> store 27 false
  |> store 58 false
  |> store 59 false
  |> store 62 false
  |> store 63 false
  |> store 67 false
  |> store 68 false

/-- `Parser::hexMap` after `Parser::initialize()`. -/
def hexMap : Nat → Nat :=
  zeroTable
  |> doWhileUp 48 57 (fun i => store i (i - 48))    -- '0'..'9'
  |> doWhileUp 65 70 (fun i => store i (i - 55))    -- 'A'..'F'
  |> doWhileUp 97 102 (fun i => store i (i - 87))   -- 'a'..'f'

/-- The seven stores of the three hex-digit loops of the `\uXXXX` subtree. -/
def hexStores {σ : Type} (store : Nat → Nat → σ → σ) (i : Nat) (m : σ) : σ :=
  m |> store (i + GLIDE_BYTE_SIZE * 37) 39
    |> store (i + GLIDE_BYTE_SIZE * 39) 40
    |> store (i + GLIDE_BYTE_SIZE * 40) 45
    |> store (i + GLIDE_BYTE_SIZE * 41) 43
    |> store (i + GLIDE_BYTE_SIZE * 43) 47
    |> store (i + GLIDE_BYTE_SIZE * 44) 46
    |> store (i + GLIDE_BYTE_SIZE * 45) 48

/-- The body of the closing loop of `Parser::initialize()`: every accepting
state gets the terminator transitions and, except 27 and 67, whitespace to 68. -/
def terminators {σ : Type} (store : Nat → Nat → σ → σ) (i : Nat) (m : σ) : σ :=
  if !incompleteMap i then
    let m1 := m |> store (93 + GLIDE_BYTE_SIZE * i) 59    -- ']'
                |> store (44 + GLIDE_BYTE_SIZE * i) 60    -- ','
                |> store (125 + GLIDE_BYTE_SIZE * i) 63   -- '}'
    if i ≠ 27 ∧ i ≠ 67 then setWhitespace store i 68 m1 else m1
  else m

/-- The assignments `Parser::initialize()` makes to `stateMap`, one by one in
source order, as a function of the zero-initialised array it starts from.  The
two ways the function touches the array are parameters: `store idx v` for
`stateMap[idx] = v` and `copyTransitions from to` for the call of that name. -/
def initStateMap {σ : Type} (store : Nat → Nat → σ → σ)
    (copyTransitions : Nat → Nat → σ → σ) (zero : σ) : σ :=
  zero
  -- Null:
  |> store (110 + GLIDE_BYTE_SIZE) 2             -- 'n'
  |> store (117 + GLIDE_BYTE_SIZE * 2) 3         -- 'u'
  |> store (108 + GLIDE_BYTE_SIZE * 3) 4         -- 'l'
  |> store (108 + GLIDE_BYTE_SIZE * 4) 5         -- 'l'
  -- False:
  |> store (102 + GLIDE_BYTE_SIZE) 6             -- 'f'
  |> store (97 + GLIDE_BYTE_SIZE * 6) 7          -- 'a'
  |> store (108 + GLIDE_BYTE_SIZE * 7) 8         -- 'l'
  |> store (115 + GLIDE_BYTE_SIZE * 8) 9         -- 's'
  |> store (101 + GLIDE_BYTE_SIZE * 9) 10        -- 'e'
  -- True:
  |> store (116 + GLIDE_BYTE_SIZE) 11            -- 't'
  |> store (114 + GLIDE_BYTE_SIZE * 11) 12       -- 'r'
  |> store (117 + GLIDE_BYTE_SIZE * 12) 13       -- 'u'
  |> store (101 + GLIDE_BYTE_SIZE * 13) 14       -- 'e'
  -- Zero:
  |> store (48 + GLIDE_BYTE_SIZE) 15             -- '0'
  -- Initial digit:
  |> doWhileUp 49 57 (fun i => store (i + GLIDE_BYTE_SIZE) 16)
  -- Negative:
  |> store (45 + GLIDE_BYTE_SIZE) 17             -- '-'
  -- Second digit:
  |> doWhileUp 48 57 (fun i => store (i + GLIDE_BYTE_SIZE * 16) 19)
  -- Remaining digits:
  |> doWhileUp 48 57 (fun i => store (i + GLIDE_BYTE_SIZE * 19) 19)
  -- Negative zero:
  |> store (48 + GLIDE_BYTE_SIZE * 17) 18
  -- Initial digit from negative:
  |> doWhileUp 49 57 (fun i => store (i + GLIDE_BYTE_SIZE * 17) 19)
  -- Decimal point:
  |> store (46 + GLIDE_BYTE_SIZE * 15) 20        -- '.'
  |> store (46 + GLIDE_BYTE_SIZE * 16) 20
  |> store (46 + GLIDE_BYTE_SIZE * 18) 20
  |> store (46 + GLIDE_BYTE_SIZE * 19) 20
  -- Initial digit from decimal point:
  |> doWhileUp 48 57 (fun i => store (i + GLIDE_BYTE_SIZE * 20) 21)
  -- Remaining digits from decimal point:
  |> doWhileUp 48 57 (fun i => store (i + GLIDE_BYTE_SIZE * 21) 21)
  -- Exponent:
  |> store (69 + GLIDE_BYTE_SIZE * 15) 22        -- 'E'
  |> store (101 + GLIDE_BYTE_SIZE * 15) 22       -- 'e'
  |> store (69 + GLIDE_BYTE_SIZE * 16) 22
  |> store (101 + GLIDE_BYTE_SIZE * 16) 22
  |> store (69 + GLIDE_BYTE_SIZE * 18) 22
  |> store (101 + GLIDE_BYTE_SIZE * 18) 22
  |> store (69 + GLIDE_BYTE_SIZE * 19) 22
  |> store (101 + GLIDE_BYTE_SIZE * 19) 22
  |> store (69 + GLIDE_BYTE_SIZE * 21) 22
  |> store (101 + GLIDE_BYTE_SIZE * 21) 22
  -- Initial digit from exponent:
  |> doWhileUp 48 57 (fun i => store (i + GLIDE_BYTE_SIZE * 22) 23)
  -- Exponent sign:
  |> store (43 + GLIDE_BYTE_SIZE * 22) 24        -- '+'
  |> store (45 + GLIDE_BYTE_SIZE * 22) 24        -- '-'
  -- Remaining digits from exponent:
  |> doWhileUp 48 57 (fun i => store (i + GLIDE_BYTE_SIZE * 23) 23)
  -- Initial digit from exponent sign:
  |> doWhileUp 48 57 (fun i => store (i + GLIDE_BYTE_SIZE * 24) 23)
  -- Start of a string:
  |> store (34 + GLIDE_BYTE_SIZE) 25             -- '"'
  -- End of the string:
  |> store (34 + GLIDE_BYTE_SIZE * 26) 27
  -- Escape sequence:
  |> store (92 + GLIDE_BYTE_SIZE * 26) 28        -- '\\'
  -- Every other ASCII character from codepoint 32 to 127:
  |> doWhileUp 32 127 (fun i m =>
       if i ≠ 34 ∧ i ≠ 92 then store (i + GLIDE_BYTE_SIZE * 26) 26 m else m)
  -- Escape-sequence characters:
  |> store (34 + GLIDE_BYTE_SIZE * 28) 29        -- '"'
  |> store (92 + GLIDE_BYTE_SIZE * 28) 30        -- '\\'
  |> store (47 + GLIDE_BYTE_SIZE * 28) 31        -- '/'
  |> store (98 + GLIDE_BYTE_SIZE * 28) 32        -- 'b'
  |> store (102 + GLIDE_BYTE_SIZE * 28) 33       -- 'f'
  |> store (110 + GLIDE_BYTE_SIZE * 28) 34       -- 'n'
  |> store (114 + GLIDE_BYTE_SIZE * 28) 35       -- 'r'
  |> store (116 + GLIDE_BYTE_SIZE * 28) 36       -- 't'
  |> store (117 + GLIDE_BYTE_SIZE * 28) 37       -- 'u'
  -- Any hex character (except 37 => 38, see below):
  |> doWhileUp 48 57 (hexStores store)
  |> doWhileUp 65 70 (hexStores store)
  |> doWhileUp 97 102 (hexStores store)
  -- At state 37, only '0' branches to state 38:
  |> store (48 + GLIDE_BYTE_SIZE * 37) 38
  -- Only 0-7 (hex):
  |> doWhileUp 48 55 (fun i m =>
       m |> store (i + GLIDE_BYTE_SIZE * 38) 41 |> store (i + GLIDE_BYTE_SIZE * 42) 44)
  -- At state 38, only '0' branches to state 42:
  |> store (48 + GLIDE_BYTE_SIZE * 38) 42
  -- Only 8-F (hex):
  |> store (56 + GLIDE_BYTE_SIZE * 38) 40        -- '8'
  |> store (56 + GLIDE_BYTE_SIZE * 42) 43
  |> store (57 + GLIDE_BYTE_SIZE * 38) 40        -- '9'
  |> store (57 + GLIDE_BYTE_SIZE * 42) 43
  |> doWhileUp 65 70 (fun i m =>
       m |> store (i + GLIDE_BYTE_SIZE * 38) 40 |> store (i + GLIDE_BYTE_SIZE * 42) 43)
  |> doWhileUp 97 102 (fun i m =>
       m |> store (i + GLIDE_BYTE_SIZE * 38) 40 |> store (i + GLIDE_BYTE_SIZE * 42) 43)
  -- UTF8-2      = %xC2-DF UTF8-tail
  |> doWhileUp 194 223 (fun i => store (i + GLIDE_BYTE_SIZE * 26) 49)
  |> doWhileUp 128 191 (fun i => store (i + GLIDE_BYTE_SIZE * 49) 52)
  -- UTF8-3
  |> store (224 + GLIDE_BYTE_SIZE * 26) 53
  |> doWhileUp 160 191 (fun i => store (i + GLIDE_BYTE_SIZE * 53) 49)
  |> doWhileUp 225 236 (fun i => store (i + GLIDE_BYTE_SIZE * 26) 50)
  |> store (238 + GLIDE_BYTE_SIZE * 26) 50
  |> store (239 + GLIDE_BYTE_SIZE * 26) 50
  |> doWhileUp 128 191 (fun i => store (i + GLIDE_BYTE_SIZE * 50) 49)
  |> store (237 + GLIDE_BYTE_SIZE * 26) 54
  |> doWhileUp 128 159 (fun i => store (i + GLIDE_BYTE_SIZE * 54) 49)
  -- UTF8-4
  |> store (240 + GLIDE_BYTE_SIZE * 26) 55
  |> doWhileUp 144 191 (fun i => store (i + GLIDE_BYTE_SIZE * 55) 50)
  |> store (241 + GLIDE_BYTE_SIZE * 26) 51
  |> store (242 + GLIDE_BYTE_SIZE * 26) 51
  |> store (243 + GLIDE_BYTE_SIZE * 26) 51
  |> doWhileUp 128 191 (fun i => store (i + GLIDE_BYTE_SIZE * 51) 50)
  |> store (244 + GLIDE_BYTE_SIZE * 26) 56
  |> doWhileUp 128 143 (fun i => store (i + GLIDE_BYTE_SIZE * 56) 50)
  -- States that continue a string exactly like state 26:
  |> copyTransitions 26 25
  |> copyTransitions 26 29
  |> copyTransitions 26 30
  |> copyTransitions 26 31
  |> copyTransitions 26 32
  |> copyTransitions 26 33
  |> copyTransitions 26 34
  |> copyTransitions 26 35
  |> copyTransitions 26 36
  |> copyTransitions 26 46
  |> copyTransitions 26 47
  |> copyTransitions 26 48
  |> copyTransitions 26 52
  -- Whitespace before any element:
  |> setWhitespace store 1 1
  -- Containers:
  |> store (91 + GLIDE_BYTE_SIZE) 57             -- '['
  |> store (123 + GLIDE_BYTE_SIZE) 61            -- '{'
  |> store (125 + GLIDE_BYTE_SIZE * 61) 62       -- '}'
  |> store (34 + GLIDE_BYTE_SIZE * 61) 25        -- '"'
  |> store (34 + GLIDE_BYTE_SIZE * 64) 25
  |> store (34 + GLIDE_BYTE_SIZE * 66) 25
  |> setWhitespace store 61 66
  |> setWhitespace store 64 66
  |> setWhitespace store 66 66
  |> store (58 + GLIDE_BYTE_SIZE * 27) 65        -- ':'
  |> store (58 + GLIDE_BYTE_SIZE * 67) 65
  |> setWhitespace store 27 67
  |> setWhitespace store 67 67
  |> copyTransitions 1 57
  |> store (93 + GLIDE_BYTE_SIZE * 57) 58        -- ']'
  |> copyTransitions 1 60
  |> copyTransitions 1 65
  |> doWhileUp 0 (GLIDE_JSON_PARSER_STATES - 1) (terminators store)

/-- `Parser::stateMap` after `Parser::initialize()`: the assignments of
`initStateMap` made to the zero-initialised static array. -/
def stateMap : Table := initStateMap store copyTransitions zeroTable

/-- One transition of the parser automaton: `stateMap[byte + GLIDE_BYTE_SIZE * state]`. -/
def step (state byte : Nat) : Nat := stateMap (byte + GLIDE_BYTE_SIZE * state)

/-- The run of the state table over a byte string, starting in `state`. -/
def run (state : Nat) (input : List Nat) : Nat := input.foldl step state

end Parser


namespace Encoder

/-- `Encoder::setEscapable(state)`: the control characters, then the characters
escaped with a backslash. -/
def setEscapable {σ : Type} (store : Nat → Nat → σ → σ) (state : Nat) (m : σ) : σ :=
  m |> doWhileUp 0 31 (fun i => store (i + GLIDE_BYTE_SIZE * state) 1)
    |> store (34 + GLIDE_BYTE_SIZE * state) 2    -- '"'
    |> store (92 + GLIDE_BYTE_SIZE * state) 3    -- '\\'
    |> store (8 + GLIDE_BYTE_SIZE * state) 4     -- '\b'
    |> store (12 + GLIDE_BYTE_SIZE * state) 5    -- '\f'
    |> store (10 + GLIDE_BYTE_SIZE * state) 6    -- '\n'
    |> store (13 + GLIDE_BYTE_SIZE * state) 7    -- '\r'
    |> store (9 + GLIDE_BYTE_SIZE * state) 8     -- '\t'

/-- `Encoder::copyTransitions(from, to)`. -/
def copyTransitions (src dst : Nat) (m : Table) : Table :=
  doWhileUp 0 255
    (fun i acc => store (i + GLIDE_BYTE_SIZE * dst) (acc (i + GLIDE_BYTE_SIZE * src)) acc) m

/-- `Encoder::hexMap` after `Encoder::initialize()`. -/
def hexMap : Nat → Nat :=
  zeroTable
  |> doWhileUp 0 9 (fun i => store i (i + 48))
  |> doWhileUp 10 15 (fun i => store i (i + 87))

/-- The six stores of the loop over the tail bytes `128..191`. -/
def tailStores {σ : Type} (store : Nat → Nat → σ → σ) (i : Nat) (m : σ) : σ :=
  m |> store (i + GLIDE_BYTE_SIZE * 10) 11
    |> store (i + GLIDE_BYTE_SIZE * 13) 15
    |> store (i + GLIDE_BYTE_SIZE * 15) 16
    |> store (i + GLIDE_BYTE_SIZE * 18) 20
    |> store (i + GLIDE_BYTE_SIZE * 20) 21
    |> store (i + GLIDE_BYTE_SIZE * 21) 22

/-- The six stores of the loop over the bytes `255..192` that cannot be a tail. -/
def invalidTailStores {σ : Type} (store : Nat → Nat → σ → σ) (i : Nat) (m : σ) : σ :=
  m |> store (i + GLIDE_BYTE_SIZE * 10) 9
    |> store (i + GLIDE_BYTE_SIZE * 13) 9
    |> store (i + GLIDE_BYTE_SIZE * 15) 9
    |> store (i + GLIDE_BYTE_SIZE * 18) 9
    |> store (i + GLIDE_BYTE_SIZE * 20) 9
    |> store (i + GLIDE_BYTE_SIZE * 21) 9

/-- The assignments `Encoder::initialize()` makes to `stateMap`, one by one in
source order (the hex and base64 maps are separate arrays), as a function of
the zero-initialised array it starts from. -/
def initStateMap {σ : Type} (store : Nat → Nat → σ → σ)
    (copyTransitions : Nat → Nat → σ → σ) (zero : σ) : σ :=
  zero
  -- Escapable at state 0:
  |> setEscapable store 0
  -- Non-ASCII characters:
  |> doWhileUp 128 193 (fun i => store i 9)
  |> doWhileDown 255 245 (fun i => store i 9)
  -- UTF-8 pair:
  |> doWhileUp 194 223 (fun i => store i 10)
  -- UTF-8 triple:
  |> store 224 12
  |> doWhileUp 160 191 (fun i => store (i + GLIDE_BYTE_SIZE * 12) 15)
  |> doWhileUp 225 236 (fun i => store i 13)
  |> store 238 13
  |> store 239 13
  |> store 237 14
  |> doWhileUp 128 159 (fun i => store (i + GLIDE_BYTE_SIZE * 14) 15)
  -- UTF-8 quad:
  |> store 240 17
  |> doWhileUp 144 191 (fun i => store (i + GLIDE_BYTE_SIZE * 17) 20)
  |> store 241 18
  |> store 242 18
  |> store 243 18
  |> store 244 19
  |> doWhileUp 128 143 (fun i => store (i + GLIDE_BYTE_SIZE * 19) 20)
  -- Trailing UTF-8 bytes:
  |> doWhileUp 128 191 (tailStores store)
  -- Invalid UTF-8 triple:
  |> setEscapable store 12
  |> doWhileUp 128 159 (fun i => store (i + GLIDE_BYTE_SIZE * 12) 9)
  |> doWhileDown 255 192 (fun i => store (i + GLIDE_BYTE_SIZE * 12) 9)
  |> setEscapable store 14
  |> doWhileDown 255 160 (fun i => store (i + GLIDE_BYTE_SIZE * 14) 9)
  -- Invalid UTF-8 quad:
  |> setEscapable store 17
  |> doWhileUp 128 143 (fun i => store (i + GLIDE_BYTE_SIZE * 17) 9)
  |> doWhileDown 255 192 (fun i => store (i + GLIDE_BYTE_SIZE * 17) 9)
  |> setEscapable store 19
  |> doWhileDown 255 144 (fun i => store (i + GLIDE_BYTE_SIZE * 19) 9)
  -- Invalid trailing UTF-8 bytes:
  |> setEscapable store 10
  |> setEscapable store 13
  |> setEscapable store 15
  |> setEscapable store 18
  |> setEscapable store 20
  |> setEscapable store 21
  |> doWhileDown 255 192 (invalidTailStores store)
  -- States that behave exactly like state 0:
  |> copyTransitions 0 1
  |> copyTransitions 0 2
  |> copyTransitions 0 3
  |> copyTransitions 0 4
  |> copyTransitions 0 5
  |> copyTransitions 0 6
  |> copyTransitions 0 7
  |> copyTransitions 0 8
  |> copyTransitions 0 9
  |> copyTransitions 0 11
  |> copyTransitions 0 16
  |> copyTransitions 0 22

/-- `Encoder::stateMap` after `Encoder::initialize()`. -/
def stateMap : Table := initStateMap store copyTransitions zeroTable

/-- One lookup of the encoder table: `stateMap[byte + GLIDE_BYTE_SIZE * state]`. -/
def step (state byte : Nat) : Nat := stateMap (byte + GLIDE_BYTE_SIZE * state)

end Encoder

/-! ### Evaluating an initialiser once

The flat array is packed into one natural number, cell `j` being bits
`8 * j .. 8 * j + 7`.  The initialiser, run on the packed array, is a few
hundred shifts; `Holds` ties the packed array to the array of the embedding. -/


/-- Digit `j` of `t`, digits being `w` bits wide. -/
def digit (w t j : Nat) : Nat := (t >>> (w * j)) % 2 ^ w

/-- The number `t` with digit `j` (of `w` bits) replaced by `v`. -/
def digitSet (w j v t : Nat) : Nat :=
  (t ^^^ (digit w t j <<< (w * j))) ||| (v <<< (w * j))

theorem testBit_digit (w t j i : Nat) :
    (digit w t j).testBit i = (decide (i < w) && t.testBit (w * j + i)) := by
  simp [digit]

theorem testBit_digitSet (w j v t p : Nat) (hv : v < 2 ^ w) :
    (digitSet w j v t).testBit p =
      if w * j ≤ p ∧ p < w * j + w then v.testBit (p - w * j) else t.testBit p := by
  unfold digitSet
  rw [Nat.testBit_or, Nat.testBit_xor, Nat.testBit_shiftLeft, Nat.testBit_shiftLeft,
    testBit_digit]
  by_cases h1 : w * j ≤ p
  · by_cases h2 : p < w * j + w
    · have h3 : p - w * j < w := by omega
      have h4 : w * j + (p - w * j) = p := by omega
      simp [h1, h2, h3, h4]
    · have h3 : ¬ (p - w * j < w) := by omega
      have h5 : v.testBit (p - w * j) = false := by
        apply Nat.testBit_lt_two_pow
        exact lt_of_lt_of_le hv (Nat.pow_le_pow_right (by decide) (by omega))
      simp [h1, h2, h3, h5]
  · have h1' : ¬ p ≥ w * j := by omega
    simp [h1, h1']

theorem digit_lt (w t j : Nat) : digit w t j < 2 ^ w :=
  Nat.mod_lt _ (Nat.two_pow_pos w)

theorem digit_digitSet (w j v t k : Nat) (hv : v < 2 ^ w) :
    digit w (digitSet w j v t) k = if k = j then v else digit w t k := by
  apply Nat.eq_of_testBit_eq
  intro i
  rw [testBit_digit, testBit_digitSet w j v t _ hv]
  by_cases hk : k = j
  · subst hk
    rw [if_pos rfl]
    by_cases hi : i < w
    · have h1 : w * k ≤ w * k + i ∧ w * k + i < w * k + w := by omega
      have h2 : w * k + i - w * k = i := by omega
      simp [hi, h1, h2]
    · have h5 : v.testBit i = false := by
        apply Nat.testBit_lt_two_pow
        exact lt_of_lt_of_le hv (Nat.pow_le_pow_right (by decide) (by omega))
      simp [hi, h5]
  · rw [if_neg hk, testBit_digit]
    by_cases hi : i < w
    · have h1 : ¬ (w * j ≤ w * k + i ∧ w * k + i < w * j + w) := by
        intro ⟨ha, hb⟩
        rcases Nat.lt_or_gt_of_ne hk with h | h
        · have : w * (k + 1) ≤ w * j := Nat.mul_le_mul_left w h
          rw [Nat.mul_add, Nat.mul_one] at this
          omega
        · have : w * (j + 1) ≤ w * k := Nat.mul_le_mul_left w h
          rw [Nat.mul_add, Nat.mul_one] at this
          omega
      simp [hi, h1]
    · simp [hi]

/-- The cell of a packed table at flat index `j`. -/
def Packed.cell (t j : Nat) : Nat := digit 8 t j

/-- The assignment `table[idx] = v` on a packed table. -/
def Packed.store (idx v t : Nat) : Nat := digitSet 8 idx v t

/-- Row `dst` becomes row `src`. -/
def Packed.copyRow (src dst t : Nat) : Nat :=
  digitSet 2048 dst (digit 2048 t src) t

theorem Packed.cell_store (idx v t j : Nat) (hv : v < 256) :
    Packed.cell (Packed.store idx v t) j = if j = idx then v else Packed.cell t j :=
  digit_digitSet 8 idx v t j hv

theorem Packed.cell_eq_row (t j : Nat) :
    Packed.cell t j = digit 8 (digit 2048 t (j / 256)) (j % 256) := by
  apply Nat.eq_of_testBit_eq
  intro i
  unfold Packed.cell
  rw [testBit_digit, testBit_digit, testBit_digit]
  by_cases hi : i < 8
  · have h1 : 8 * (j % 256) + i < 2048 := by omega
    have h2 : 2048 * (j / 256) + (8 * (j % 256) + i) = 8 * j + i := by omega
    simp [hi, h1, h2]
  · simp [hi]

theorem Packed.cell_copyRow (src dst t j : Nat) :
    Packed.cell (Packed.copyRow src dst t) j =
      if j / 256 = dst then Packed.cell t (j % 256 + 256 * src) else Packed.cell t j := by
  rw [Packed.cell_eq_row, Packed.copyRow, digit_digitSet _ _ _ _ _ (digit_lt _ _ _)]
  by_cases h : j / 256 = dst
  · rw [if_pos h, if_pos h, Packed.cell_eq_row t (j % 256 + 256 * src)]
    have h4 : (j % 256 + 256 * src) / 256 = src := by omega
    have h5 : (j % 256 + 256 * src) % 256 = j % 256 := by omega
    rw [h4, h5]
  · rw [if_neg h, if_neg h, ← Packed.cell_eq_row]


/-- Whether `p` holds of every number below `n`. -/
def allBelow : Nat → (Nat → Bool) → Bool
  | 0, _ => true
  | n + 1, p => p n && allBelow n p

/-- Rows `s, s+1, ...` of the packed table `t` agree, byte by byte, with the
row functions `fs`. -/
def allRowsMatch (t : Nat) : List (Nat → Nat) → Nat → Bool
  | [], _ => true
  | f :: fs, s =>
    allBelow 256 (fun b => Nat.beq (Packed.cell t (b + 256 * s)) (f b)) && allRowsMatch t fs (s + 1)

/-- The packed array `t` holds the table `m`. -/
def Holds (t : Nat) (m : Table) : Prop := ∀ j, m j = Packed.cell t j

namespace Parser

/-- `Parser::stateMap` after `Parser::initialize()`, packed into one number. -/
def packedTable : Nat := initStateMap Packed.store Packed.copyRow 0

/-- Rows 1, 60, 65 of the parser table: a JSON value is expected. -/
def valueRow (b : Nat) : Nat :=
  if 9 ≤ b ∧ b ≤ 10 then 1 else
  if b = 13 then 1 else
  if b = 32 then 1 else
  if b = 34 then 25 else
  if b = 45 then 17 else
  if b = 48 then 15 else
  if 49 ≤ b ∧ b ≤ 57 then 16 else
  if b = 91 then 57 else
  if b = 102 then 6 else
  if b = 110 then 2 else
  if b = 116 then 11 else
  if b = 123 then 61 else 0

/-- Rows 5, 10, 14, 58, 59, 62, 63, 68: after a complete value. -/
def terminatorRow (b : Nat) : Nat :=
  if 9 ≤ b ∧ b ≤ 10 then 68 else
  if b = 13 then 68 else
  if b = 32 then 68 else
  if b = 44 then 60 else
  if b = 93 then 59 else
  if b = 125 then 63 else 0

/-- Rows 15, 18: after `0` or `-0`. -/
def zeroRow (b : Nat) : Nat :=
  if 9 ≤ b ∧ b ≤ 10 then 68 else
  if b = 13 then 68 else
  if b = 32 then 68 else
  if b = 44 then 60 else
  if b = 46 then 20 else
  if b = 69 then 22 else
  if b = 93 then 59 else
  if b = 101 then 22 else
  if b = 125 then 63 else 0

/-- Rows 16, 19: after the integer digits. -/
def digitRow (b : Nat) : Nat :=
  if 9 ≤ b ∧ b ≤ 10 then 68 else
  if b = 13 then 68 else
  if b = 32 then 68 else
  if b = 44 then 60 else
  if b = 46 then 20 else
  if 48 ≤ b ∧ b ≤ 57 then 19 else
  if b = 69 then 22 else
  if b = 93 then 59 else
  if b = 101 then 22 else
  if b = 125 then 63 else 0

/-- Row 21: after the fraction digits. -/
def fractionRow (b : Nat) : Nat :=
  if 9 ≤ b ∧ b ≤ 10 then 68 else
  if b = 13 then 68 else
  if b = 32 then 68 else
  if b = 44 then 60 else
  if 48 ≤ b ∧ b ≤ 57 then 21 else
  if b = 69 then 22 else
  if b = 93 then 59 else
  if b = 101 then 22 else
  if b = 125 then 63 else 0

/-- Row 23: after the exponent digits. -/
def exponentRow (b : Nat) : Nat :=
  if 9 ≤ b ∧ b ≤ 10 then 68 else
  if b = 13 then 68 else
  if b = 32 then 68 else
  if b = 44 then 60 else
  if 48 ≤ b ∧ b ≤ 57 then 23 else
  if b = 93 then 59 else
  if b = 125 then 63 else 0

/-- Rows 25, 26, 29-36, 46-48, 52: inside a string, at a character boundary. -/
def stringRow (b : Nat) : Nat :=
  if 32 ≤ b ∧ b ≤ 33 then 26 else
  if b = 34 then 27 else
  if 35 ≤ b ∧ b ≤ 91 then 26 else
  if b = 92 then 28 else
  if 93 ≤ b ∧ b ≤ 127 then 26 else
  if 194 ≤ b ∧ b ≤ 223 then 49 else
  if b = 224 then 53 else
  if 225 ≤ b ∧ b ≤ 236 then 50 else
  if b = 237 then 54 else
  if 238 ≤ b ∧ b ≤ 239 then 50 else
  if b = 240 then 55 else
  if 241 ≤ b ∧ b ≤ 243 then 51 else
  if b = 244 then 56 else 0

/-- Rows 27, 67: after a closed string. -/
def stringEndRow (b : Nat) : Nat :=
  if 9 ≤ b ∧ b ≤ 10 then 67 else
  if b = 13 then 67 else
  if b = 32 then 67 else
  if b = 44 then 60 else
  if b = 58 then 65 else
  if b = 93 then 59 else
  if b = 125 then 63 else 0

/-- Row 28: after a backslash. -/
def escapeRow (b : Nat) : Nat :=
  if b = 34 then 29 else
  if b = 47 then 31 else
  if b = 92 then 30 else
  if b = 98 then 32 else
  if b = 102 then 33 else
  if b = 110 then 34 else
  if b = 114 then 35 else
  if b = 116 then 36 else
  if b = 117 then 37 else 0

/-- Row 57: after `[`. -/
def arrayRow (b : Nat) : Nat :=
  if 9 ≤ b ∧ b ≤ 10 then 1 else
  if b = 13 then 1 else
  if b = 32 then 1 else
  if b = 34 then 25 else
  if b = 45 then 17 else
  if b = 48 then 15 else
  if 49 ≤ b ∧ b ≤ 57 then 16 else
  if b = 91 then 57 else
  if b = 93 then 58 else
  if b = 102 then 6 else
  if b = 110 then 2 else
  if b = 116 then 11 else
  if b = 123 then 61 else 0

/-- Row 61: after `{`. -/
def objectRow (b : Nat) : Nat :=
  if 9 ≤ b ∧ b ≤ 10 then 66 else
  if b = 13 then 66 else
  if b = 32 then 66 else
  if b = 34 then 25 else
  if b = 125 then 62 else 0

/-- Rows 64, 66: an object key is expected. -/
def keyRow (b : Nat) : Nat :=
  if 9 ≤ b ∧ b ≤ 10 then 66 else
  if b = 13 then 66 else
  if b = 32 then 66 else
  if b = 34 then 25 else 0

/-- The parser table in closed form, one row per state (the state number is in the
comment): for each state the byte ranges that lead out of the failure state 0. -/
def rowTable : List (Nat → Nat) :=
  [
    fun _ => 0,  -- 0
    valueRow,  -- 1
    fun b => if b = 117 then 3 else 0,  -- 2
    fun b => if b = 108 then 4 else 0,  -- 3
    fun b => if b = 108 then 5 else 0,  -- 4
    terminatorRow,  -- 5
    fun b => if b = 97 then 7 else 0,  -- 6
    fun b => if b = 108 then 8 else 0,  -- 7
    fun b => if b = 115 then 9 else 0,  -- 8
    fun b => if b = 101 then 10 else 0,  -- 9
    terminatorRow,  -- 10
    fun b => if b = 114 then 12 else 0,  -- 11
    fun b => if b = 117 then 13 else 0,  -- 12
    fun b => if b = 101 then 14 else 0,  -- 13
    terminatorRow,  -- 14
    zeroRow,  -- 15
    digitRow,  -- 16
    fun b => if b = 48 then 18 else if 49 ≤ b ∧ b ≤ 57 then 19 else 0,  -- 17
    zeroRow,  -- 18
    digitRow,  -- 19
    fun b => if 48 ≤ b ∧ b ≤ 57 then 21 else 0,  -- 20
    fractionRow,  -- 21
    fun b => if b = 43 then 24 else if b = 45 then 24 else if 48 ≤ b ∧ b ≤ 57 then 23 else 0,  -- 22
    exponentRow,  -- 23
    fun b => if 48 ≤ b ∧ b ≤ 57 then 23 else 0,  -- 24
    stringRow,  -- 25
    stringRow,  -- 26
    stringEndRow,  -- 27
    escapeRow,  -- 28
    stringRow,  -- 29
    stringRow,  -- 30
    stringRow,  -- 31
    stringRow,  -- 32
    stringRow,  -- 33
    stringRow,  -- 34
    stringRow,  -- 35
    stringRow,  -- 36
    fun b => if b = 48 then 38 else if 49 ≤ b ∧ b ≤ 57 then 39 else if 65 ≤ b ∧ b ≤ 70 then 39 else if 97 ≤ b ∧ b ≤ 102 then 39 else 0,  -- 37
    fun b => if b = 48 then 42 else if 49 ≤ b ∧ b ≤ 55 then 41 else if 56 ≤ b ∧ b ≤ 57 then 40 else if 65 ≤ b ∧ b ≤ 70 then 40 else if 97 ≤ b ∧ b ≤ 102 then 40 else 0,  -- 38
    fun b => if 48 ≤ b ∧ b ≤ 57 then 40 else if 65 ≤ b ∧ b ≤ 70 then 40 else if 97 ≤ b ∧ b ≤ 102 then 40 else 0,  -- 39
    fun b => if 48 ≤ b ∧ b ≤ 57 then 45 else if 65 ≤ b ∧ b ≤ 70 then 45 else if 97 ≤ b ∧ b ≤ 102 then 45 else 0,  -- 40
    fun b => if 48 ≤ b ∧ b ≤ 57 then 43 else if 65 ≤ b ∧ b ≤ 70 then 43 else if 97 ≤ b ∧ b ≤ 102 then 43 else 0,  -- 41
    fun b => if 48 ≤ b ∧ b ≤ 55 then 44 else if 56 ≤ b ∧ b ≤ 57 then 43 else if 65 ≤ b ∧ b ≤ 70 then 43 else if 97 ≤ b ∧ b ≤ 102 then 43 else 0,  -- 42
    fun b => if 48 ≤ b ∧ b ≤ 57 then 47 else if 65 ≤ b ∧ b ≤ 70 then 47 else if 97 ≤ b ∧ b ≤ 102 then 47 else 0,  -- 43
    fun b => if 48 ≤ b ∧ b ≤ 57 then 46 else if 65 ≤ b ∧ b ≤ 70 then 46 else if 97 ≤ b ∧ b ≤ 102 then 46 else 0,  -- 44
    fun b => if 48 ≤ b ∧ b ≤ 57 then 48 else if 65 ≤ b ∧ b ≤ 70 then 48 else if 97 ≤ b ∧ b ≤ 102 then 48 else 0,  -- 45
    stringRow,  -- 46
    stringRow,  -- 47
    stringRow,  -- 48
    fun b => if 128 ≤ b ∧ b ≤ 191 then 52 else 0,  -- 49
    fun b => if 128 ≤ b ∧ b ≤ 191 then 49 else 0,  -- 50
    fun b => if 128 ≤ b ∧ b ≤ 191 then 50 else 0,  -- 51
    stringRow,  -- 52
    fun b => if 160 ≤ b ∧ b ≤ 191 then 49 else 0,  -- 53
    fun b => if 128 ≤ b ∧ b ≤ 159 then 49 else 0,  -- 54
    fun b => if 144 ≤ b ∧ b ≤ 191 then 50 else 0,  -- 55
    fun b => if 128 ≤ b ∧ b ≤ 143 then 50 else 0,  -- 56
    arrayRow,  -- 57
    terminatorRow,  -- 58
    terminatorRow,  -- 59
    valueRow,  -- 60
    objectRow,  -- 61
    terminatorRow,  -- 62
    terminatorRow,  -- 63
    keyRow,  -- 64
    valueRow,  -- 65
    keyRow,  -- 66
    stringEndRow,  -- 67
    terminatorRow  -- 68
  ]

/-- The transition the closed-form table gives.  `Parser.step_eq_tableStep` proves
that `Parser::initialize()` builds exactly this table. -/
def tableStep (state b : Nat) : Nat := (rowTable.getD state (fun _ => 0)) b


end Parser

namespace Encoder

/-- `Encoder::stateMap` after `Encoder::initialize()`, packed into one number. -/
def packedTable : Nat := initStateMap Packed.store Packed.copyRow 0

/-- The entries `setEscapable` gives the ASCII bytes: 2-8 for the characters
with a short escape, 1 for the other control characters, 0 (copy) otherwise. -/
def escapable (b : Nat) : Nat :=
  if b = 34 then 2 else
  if b = 92 then 3 else
  if b = 8 then 4 else
  if b = 12 then 5 else
  if b = 10 then 6 else
  if b = 13 then 7 else
  if b = 9 then 8 else
  if b ≤ 31 then 1 else 0

/-- Rows 0-9, 11, 16, 22 of the encoder table: at a character boundary. -/
def boundaryRow (b : Nat) : Nat :=
  if b < 128 then escapable b else
  if b ≤ 193 then 9 else
  if b ≤ 223 then 10 else
  if b = 224 then 12 else
  if b ≤ 236 then 13 else
  if b = 237 then 14 else
  if b ≤ 239 then 13 else
  if b = 240 then 17 else
  if b ≤ 243 then 18 else
  if b = 244 then 19 else 9

/-- A row inside a multi-byte sequence: the tail bytes `lo..hi` continue to
`next`, every other byte from 128 up is invalid (9), ASCII is as in `escapable`. -/
def midRow (lo hi next b : Nat) : Nat :=
  if b < 128 then escapable b else
  if lo ≤ b ∧ b ≤ hi then next else 9

/-- The encoder table in closed form, one row per state. -/
def rowTable : List (Nat → Nat) :=
  [
    boundaryRow,          -- 0
    boundaryRow,          -- 1
    boundaryRow,          -- 2
    boundaryRow,          -- 3
    boundaryRow,          -- 4
    boundaryRow,          -- 5
    boundaryRow,          -- 6
    boundaryRow,          -- 7
    boundaryRow,          -- 8
    boundaryRow,          -- 9
    midRow 128 191 11,    -- 10
    boundaryRow,          -- 11
    midRow 160 191 15,    -- 12
    midRow 128 191 15,    -- 13
    midRow 128 159 15,    -- 14
    midRow 128 191 16,    -- 15
    boundaryRow,          -- 16
    midRow 144 191 20,    -- 17
    midRow 128 191 20,    -- 18
    midRow 128 143 20,    -- 19
    midRow 128 191 21,    -- 20
    midRow 128 191 22,    -- 21
    boundaryRow           -- 22
  ]

/-- The entry the closed-form table gives.  `Encoder.encStep_eq_tableStep` proves
that `Encoder::initialize()` builds exactly this table. -/
def tableStep (state b : Nat) : Nat := (rowTable.getD state (fun _ => 0)) b

end Encoder

theorem allBelow_spec (n : Nat) (p : Nat → Bool) (h : allBelow n p = true) :
    ∀ k, k < n → p k = true := by
  induction n with
  | zero => intro k hk; omega
  | succ n ih =>
    intro k hk
    simp only [allBelow, Bool.and_eq_true] at h
    rcases Nat.lt_succ_iff_lt_or_eq.mp hk with h1 | h1
    · exact ih h.2 k h1
    · rw [h1]; exact h.1

theorem holds_zero : Holds 0 zeroTable := by
  intro j; simp [zeroTable, Packed.cell, digit]

theorem holds_store (idx v : Nat) (hv : v < 256) {t : Nat} {m : Table} (h : Holds t m) :
    Holds (Packed.store idx v t) (store idx v m) := by
  intro j; rw [Packed.cell_store _ _ _ _ hv]; unfold store; rw [h j]

theorem doWhileUp_rel {σ τ : Type} (R : σ → τ → Prop) (lo hi : Nat)
    (f : Nat → σ → σ) (g : Nat → τ → τ)
    (hfg : ∀ i a b, R a b → R (f i a) (g i b)) {a : σ} {b : τ} (h : R a b) :
    R (doWhileUp lo hi f a) (doWhileUp lo hi g b) := by
  unfold doWhileUp
  generalize List.range' (lo + 1) (hi - lo) = l
  have h0 : R (f lo a) (g lo b) := hfg lo a b h
  revert h0
  generalize f lo a = a0
  generalize g lo b = b0
  induction l generalizing a0 b0 with
  | nil => intro h0; simpa using h0
  | cons x xs ih => intro h0; simpa using ih _ _ (hfg x _ _ h0)

/-- The loop of `copyTransitions` after the iterations `0..k`. -/
theorem copy_loop (src dst : Nat) (m : Table) (k : Nat) (hk : k ≤ 255) :
    ∀ j, (List.range' 1 k).foldl
        (fun acc i => store (i + GLIDE_BYTE_SIZE * dst) (acc (i + GLIDE_BYTE_SIZE * src)) acc)
        (store (0 + GLIDE_BYTE_SIZE * dst) (m (0 + GLIDE_BYTE_SIZE * src)) m) j =
      if j / 256 = dst ∧ j % 256 ≤ k then m (j % 256 + 256 * src) else m j := by
  induction k with
  | zero =>
    intro j
    simp only [List.range'_zero, List.foldl_nil, store, GLIDE_BYTE_SIZE]
    by_cases h : j = 0 + 256 * dst
    · have h2 : j / 256 = dst ∧ j % 256 ≤ 0 := by omega
      have h3 : j % 256 = 0 := by omega
      rw [if_pos h, if_pos h2, h3]
    · have h2 : ¬ (j / 256 = dst ∧ j % 256 ≤ 0) := by omega
      rw [if_neg h, if_neg h2]
  | succ k ih =>
    intro j
    have ih := ih (by omega)
    rw [List.range'_concat, List.foldl_append]
    simp only [List.foldl_cons, List.foldl_nil, store, Nat.one_mul]
    rw [ih, ih]
    simp only [GLIDE_BYTE_SIZE]
    by_cases h : j = 1 + k + 256 * dst
    · have h1 : ¬ ((1 + k + 256 * src) / 256 = dst ∧ (1 + k + 256 * src) % 256 ≤ k) := by
        omega
      have h2 : j / 256 = dst ∧ j % 256 ≤ k + 1 := by omega
      have h3 : j % 256 = 1 + k := by omega
      rw [if_pos h, if_neg h1, if_pos h2, h3]
    · rw [if_neg h]
      by_cases h2 : j / 256 = dst ∧ j % 256 ≤ k
      · have h3 : j / 256 = dst ∧ j % 256 ≤ k + 1 := by omega
        rw [if_pos h2, if_pos h3]
      · have h3 : ¬ (j / 256 = dst ∧ j % 256 ≤ k + 1) := by omega
        rw [if_neg h2, if_neg h3]

theorem Parser.copyTransitions_apply (src dst : Nat) (m : Table) (j : Nat) :
    Parser.copyTransitions src dst m j =
      if j / 256 = dst then m (j % 256 + 256 * src) else m j := by
  have h2 : j % 256 ≤ 255 := by omega
  have h := copy_loop src dst m 255 (le_refl _) j
  have h3 : (j / 256 = dst ∧ j % 256 ≤ 255) ↔ j / 256 = dst := ⟨fun h => h.1, fun h => ⟨h, h2⟩⟩
  rw [if_congr h3 rfl rfl] at h
  exact h

theorem holds_copy (src dst : Nat) {t : Nat} {m : Table} (h : Holds t m) :
    Holds (Packed.copyRow src dst t) (Parser.copyTransitions src dst m) := by
  intro j
  rw [Parser.copyTransitions_apply src dst, Packed.cell_copyRow, h j, h]

theorem holds_setWhitespace (at_ next : Nat) (hv : next < 256) {t : Nat} {m : Table}
    (h : Holds t m) :
    Holds (Parser.setWhitespace Packed.store at_ next t)
      (Parser.setWhitespace store at_ next m) := by
  unfold Parser.setWhitespace
  exact holds_store _ _ hv (holds_store _ _ hv (holds_store _ _ hv (holds_store _ _ hv h)))

theorem holds_hexStores (i : Nat) {t : Nat} {m : Table} (h : Holds t m) :
    Holds (Parser.hexStores Packed.store i t) (Parser.hexStores store i m) := by
  unfold Parser.hexStores
  exact holds_store _ _ (by decide) (holds_store _ _ (by decide) (holds_store _ _ (by decide)
    (holds_store _ _ (by decide) (holds_store _ _ (by decide) (holds_store _ _ (by decide)
      (holds_store _ _ (by decide) h))))))

theorem holds_terminators (i : Nat) {t : Nat} {m : Table} (h : Holds t m) :
    Holds (Parser.terminators Packed.store i t) (Parser.terminators store i m) := by
  unfold Parser.terminators
  split
  · split
    · exact holds_setWhitespace _ _ (by decide) (holds_store _ _ (by decide)
        (holds_store _ _ (by decide) (holds_store _ _ (by decide) h)))
    · exact holds_store _ _ (by decide) (holds_store _ _ (by decide)
        (holds_store _ _ (by decide) h))
  · exact h

theorem holds_ite (c : Prop) [Decidable c] {t1 t2 : Nat} {m1 m2 : Table}
    (h1 : Holds t1 m1) (h2 : Holds t2 m2) :
    Holds (if c then t1 else t2) (if c then m1 else m2) := by
  split <;> assumption

set_option maxRecDepth 100000 in
theorem Parser.holds_packedTable : Holds Parser.packedTable Parser.stateMap := by
  unfold Parser.packedTable Parser.stateMap Parser.initStateMap
  repeat (first
    | with_reducible apply holds_store _ _ (by decide)
    | with_reducible apply holds_setWhitespace _ _ (by decide)
    | with_reducible apply holds_copy
    | (with_reducible apply doWhileUp_rel Holds; intro i a b hab; beta_reduce)
    | with_reducible apply holds_hexStores
    | with_reducible apply holds_terminators
    | with_reducible apply holds_ite
    | with_reducible exact hab
    | with_reducible exact holds_zero)

theorem Parser.step_eq_cell (s b : Nat) :
    Parser.step s b = Packed.cell Parser.packedTable (b + 256 * s) :=
  Parser.holds_packedTable _

/-- A property of every entry of the parser table, checked entry by entry. -/
theorem Parser.forall_step (p : Nat → Nat → Nat → Bool)
    (h : allBelow 69 (fun s => allBelow 256 (fun b =>
      p s b (Packed.cell Parser.packedTable (b + 256 * s)))) = true) :
    ∀ s, s < 69 → ∀ b, b < 256 → p s b (Parser.step s b) = true := by
  intro s hs b hb
  rw [Parser.step_eq_cell]
  exact allBelow_spec 256 _ (allBelow_spec 69 _ h s hs) b hb

/-- A property of every entry of one row of the parser table. -/
theorem Parser.forall_step_row (s : Nat) (p : Nat → Nat → Bool)
    (h : allBelow 256 (fun b => p b (Packed.cell Parser.packedTable (b + 256 * s))) = true) :
    ∀ b, b < 256 → p b (Parser.step s b) = true := by
  intro b hb
  rw [Parser.step_eq_cell]
  exact allBelow_spec 256 _ h b hb

theorem allRowsMatch_spec (t : Nat) (fs : List (Nat → Nat)) (s : Nat)
    (h : allRowsMatch t fs s = true) :
    ∀ k, k < fs.length → ∀ b, b < 256 →
      Packed.cell t (b + 256 * (s + k)) = (fs.getD k (fun _ => 0)) b := by
  induction fs generalizing s with
  | nil => intro k hk; simp at hk
  | cons f fs ih =>
    intro k hk b hb
    simp only [allRowsMatch, Bool.and_eq_true] at h
    cases k with
    | zero => simpa using Nat.eq_of_beq_eq_true (allBelow_spec 256 _ h.1 b hb)
    | succ k =>
      have := ih (s + 1) h.2 k (by simpa using hk) b hb
      simpa [Nat.add_assoc, Nat.add_comm 1 k] using this

set_option maxRecDepth 1000000 in
theorem Parser.rowTable_match : allRowsMatch Parser.packedTable Parser.rowTable 0 = true := by
  decide!

/-- The table that `Parser::initialize()` builds is `tableStep`. -/
theorem Parser.step_eq_tableStep (s : Nat) (hs : s < 69) (b : Nat) (hb : b < 256) :
    Parser.step s b = Parser.tableStep s b := by
  rw [Parser.step_eq_cell]
  have h := allRowsMatch_spec _ _ 0 Parser.rowTable_match s (by simpa [Parser.rowTable] using hs) b hb
  simpa [Parser.tableStep] using h

theorem doWhileDown_rel {σ τ : Type} (R : σ → τ → Prop) (hi lo : Nat)
    (f : Nat → σ → σ) (g : Nat → τ → τ)
    (hfg : ∀ i a b, R a b → R (f i a) (g i b)) {a : σ} {b : τ} (h : R a b) :
    R (doWhileDown hi lo f a) (doWhileDown hi lo g b) := by
  unfold doWhileDown
  generalize (List.range' lo (hi - lo)).reverse = l
  have h0 : R (f hi a) (g hi b) := hfg hi a b h
  revert h0
  generalize f hi a = a0
  generalize g hi b = b0
  induction l generalizing a0 b0 with
  | nil => intro h0; simpa using h0
  | cons x xs ih => intro h0; simpa using ih _ _ (hfg x _ _ h0)

theorem Encoder.encCopyTransitions_apply (src dst : Nat) (m : Table) (j : Nat) :
    Encoder.copyTransitions src dst m j =
      if j / 256 = dst then m (j % 256 + 256 * src) else m j :=
  Parser.copyTransitions_apply src dst m j

theorem holds_encoder_copy (src dst : Nat) {t : Nat} {m : Table} (h : Holds t m) :
    Holds (Packed.copyRow src dst t) (Encoder.copyTransitions src dst m) := by
  intro j
  rw [Encoder.encCopyTransitions_apply src dst, Packed.cell_copyRow, h j, h]

theorem holds_setEscapable (state : Nat) {t : Nat} {m : Table} (h : Holds t m) :
    Holds (Encoder.setEscapable Packed.store state t) (Encoder.setEscapable store state m) := by
  unfold Encoder.setEscapable
  refine holds_store _ _ (by decide) (holds_store _ _ (by decide) (holds_store _ _ (by decide)
    (holds_store _ _ (by decide) (holds_store _ _ (by decide) (holds_store _ _ (by decide)
      (holds_store _ _ (by decide) ?_))))))
  with_reducible apply doWhileUp_rel Holds
  · intro i a b hab
    with_reducible exact holds_store _ _ (by decide) hab
  · with_reducible exact h

theorem holds_tailStores (i : Nat) {t : Nat} {m : Table} (h : Holds t m) :
    Holds (Encoder.tailStores Packed.store i t) (Encoder.tailStores store i m) := by
  unfold Encoder.tailStores
  exact holds_store _ _ (by decide) (holds_store _ _ (by decide) (holds_store _ _ (by decide)
    (holds_store _ _ (by decide) (holds_store _ _ (by decide) (holds_store _ _ (by decide) h)))))

theorem holds_invalidTailStores (i : Nat) {t : Nat} {m : Table} (h : Holds t m) :
    Holds (Encoder.invalidTailStores Packed.store i t)
      (Encoder.invalidTailStores store i m) := by
  unfold Encoder.invalidTailStores
  exact holds_store _ _ (by decide) (holds_store _ _ (by decide) (holds_store _ _ (by decide)
    (holds_store _ _ (by decide) (holds_store _ _ (by decide) (holds_store _ _ (by decide) h)))))

set_option maxRecDepth 100000 in
theorem Encoder.holds_encPackedTable : Holds Encoder.packedTable Encoder.stateMap := by
  unfold Encoder.packedTable Encoder.stateMap Encoder.initStateMap
  repeat (first
    | with_reducible apply holds_store _ _ (by decide)
    | with_reducible apply holds_setEscapable
    | with_reducible apply holds_encoder_copy
    | (with_reducible apply doWhileUp_rel Holds; intro i a b hab; beta_reduce)
    | (with_reducible apply doWhileDown_rel Holds; intro i a b hab; beta_reduce)
    | with_reducible apply holds_tailStores
    | with_reducible apply holds_invalidTailStores
    | with_reducible exact hab
    | with_reducible exact holds_zero)

theorem Encoder.encStep_eq_cell (s b : Nat) :
    Encoder.step s b = Packed.cell Encoder.packedTable (b + 256 * s) :=
  Encoder.holds_encPackedTable _

set_option maxRecDepth 1000000 in
theorem Encoder.encRowTable_match :
    allRowsMatch Encoder.packedTable Encoder.rowTable 0 = true := by
  decide!

/-- The table that `Encoder::initialize()` builds is `tableStep`. -/
theorem Encoder.encStep_eq_tableStep (s : Nat) (hs : s < 23) (b : Nat) (hb : b < 256) :
    Encoder.step s b = Encoder.tableStep s b := by
  rw [Encoder.encStep_eq_cell]
  have h := allRowsMatch_spec _ _ 0 Encoder.encRowTable_match s
    (by simpa [Encoder.rowTable] using hs) b hb
  simpa [Encoder.tableStep] using h

end GlideJson

namespace GlideJson

/-! ### RFC 3629: well-formed UTF-8 -/

/-- `UTF8-tail = %x80-BF`. -/
def UTF8Tail (b : Nat) : Prop := 0x80 ≤ b ∧ b ≤ 0xBF

/-- `UTF8-octets = *( UTF8-char )` of RFC 3629, one constructor for the empty
string and one for each alternative of `UTF8-1` to `UTF8-4`. -/
inductive UTF8Octets : List Nat → Prop
  | nil : UTF8Octets []
  | utf8_1 {a : Nat} {r : List Nat} : a ≤ 0x7F → UTF8Octets r → UTF8Octets (a :: r)
  | utf8_2 {a b : Nat} {r : List Nat} : 0xC2 ≤ a → a ≤ 0xDF → UTF8Tail b →
      UTF8Octets r → UTF8Octets (a :: b :: r)
  | utf8_3_E0 {b c : Nat} {r : List Nat} : 0xA0 ≤ b → b ≤ 0xBF → UTF8Tail c →
      UTF8Octets r → UTF8Octets (0xE0 :: b :: c :: r)
  | utf8_3_E1_EC {a b c : Nat} {r : List Nat} : 0xE1 ≤ a → a ≤ 0xEC → UTF8Tail b →
      UTF8Tail c → UTF8Octets r → UTF8Octets (a :: b :: c :: r)
  | utf8_3_ED {b c : Nat} {r : List Nat} : 0x80 ≤ b → b ≤ 0x9F → UTF8Tail c →
      UTF8Octets r → UTF8Octets (0xED :: b :: c :: r)
  | utf8_3_EE_EF {a b c : Nat} {r : List Nat} : 0xEE ≤ a → a ≤ 0xEF → UTF8Tail b →
      UTF8Tail c → UTF8Octets r → UTF8Octets (a :: b :: c :: r)
  | utf8_4_F0 {b c d : Nat} {r : List Nat} : 0x90 ≤ b → b ≤ 0xBF → UTF8Tail c →
      UTF8Tail d → UTF8Octets r → UTF8Octets (0xF0 :: b :: c :: d :: r)
  | utf8_4_F1_F3 {a b c d : Nat} {r : List Nat} : 0xF1 ≤ a → a ≤ 0xF3 → UTF8Tail b →
      UTF8Tail c → UTF8Tail d → UTF8Octets r → UTF8Octets (a :: b :: c :: d :: r)
  | utf8_4_F4 {b c d : Nat} {r : List Nat} : 0x80 ≤ b → b ≤ 0x8F → UTF8Tail c →
      UTF8Tail d → UTF8Octets r → UTF8Octets (0xF4 :: b :: c :: d :: r)

/-- Every element of a byte string is a byte. -/
def Bytes (l : List Nat) : Prop := ∀ x ∈ l, x < 256

namespace Parser

/-- The states in the middle of a multi-byte UTF-8 sequence of a string. -/
def midUtf8 (s : Nat) : Prop := s = 49 ∨ s = 50 ∨ s = 51 ∨ s = 53 ∨ s = 54 ∨ s = 55 ∨ s = 56

instance (s : Nat) : Decidable (midUtf8 s) := by unfold midUtf8; infer_instance

/-- Which byte leads from a state at a character boundary to `next` (RFC 3629,
first byte of `UTF8-1` to `UTF8-4`). -/
def LeadEntry (b next : Nat) : Prop :=
  next = 0 ∨ (¬ midUtf8 next ∧ b ≤ 0x7F) ∨ (next = 49 ∧ 0xC2 ≤ b ∧ b ≤ 0xDF) ∨
    (next = 53 ∧ b = 0xE0) ∨ (next = 50 ∧ ((0xE1 ≤ b ∧ b ≤ 0xEC) ∨ (0xEE ≤ b ∧ b ≤ 0xEF))) ∨
    (next = 54 ∧ b = 0xED) ∨ (next = 55 ∧ b = 0xF0) ∨ (next = 51 ∧ 0xF1 ≤ b ∧ b ≤ 0xF3) ∨
    (next = 56 ∧ b = 0xF4)

/-- Only the bytes `lo..hi` lead on, and to `dest`. -/
def TailEntry (lo hi dest b next : Nat) : Prop :=
  next = 0 ∨ (next = dest ∧ lo ≤ b ∧ b ≤ hi)

/-- `midUtf8` as a test. -/
def midUtf8B (s : Nat) : Bool :=
  Nat.beq s 49 || Nat.beq s 50 || Nat.beq s 51 || Nat.beq s 53 || Nat.beq s 54 ||
    Nat.beq s 55 || Nat.beq s 56

/-- `lo ≤ b ≤ hi` as a test. -/
def inRange (lo hi b : Nat) : Bool := Nat.ble lo b && Nat.ble b hi

/-- `LeadEntry` as a test. -/
def leadB (b next : Nat) : Bool :=
  Nat.beq next 0 || (!midUtf8B next && Nat.ble b 0x7F) ||
    (Nat.beq next 49 && inRange 0xC2 0xDF b) || (Nat.beq next 53 && Nat.beq b 0xE0) ||
    (Nat.beq next 50 && (inRange 0xE1 0xEC b || inRange 0xEE 0xEF b)) ||
    (Nat.beq next 54 && Nat.beq b 0xED) || (Nat.beq next 55 && Nat.beq b 0xF0) ||
    (Nat.beq next 51 && inRange 0xF1 0xF3 b) || (Nat.beq next 56 && Nat.beq b 0xF4)

/-- `TailEntry` as a test. -/
def tailB (lo hi dest b next : Nat) : Bool :=
  Nat.beq next 0 || (Nat.beq next dest && inRange lo hi b)

/-- How one table entry `next = stateMap[b + 256 * s]` relates to RFC 3629, as
a test: the entry is the failure state 0, or it is a state, the row is not
that of state 0, and: in the seven states inside a multi-byte sequence the byte
is a tail byte the grammar allows there; in every other state a multi-byte
sequence starts only with a lead byte. -/
def utf8EntryB (s b next : Nat) : Bool :=
  Nat.beq next 0 ||
  (Nat.blt next 69 && !Nat.beq s 0 &&
   (bif Nat.beq s 49 then tailB 0x80 0xBF 52 b next
    else bif Nat.beq s 50 then tailB 0x80 0xBF 49 b next
    else bif Nat.beq s 51 then tailB 0x80 0xBF 50 b next
    else bif Nat.beq s 53 then tailB 0xA0 0xBF 49 b next
    else bif Nat.beq s 54 then tailB 0x80 0x9F 49 b next
    else bif Nat.beq s 55 then tailB 0x90 0xBF 50 b next
    else bif Nat.beq s 56 then tailB 0x80 0x8F 50 b next
    else leadB b next))

end Parser

theorem Parser.midUtf8B_iff (s : Nat) : Parser.midUtf8B s = true ↔ Parser.midUtf8 s := by
  simp [Parser.midUtf8B, Parser.midUtf8, Nat.beq_eq, or_assoc]

theorem Parser.midUtf8B_false_iff (s : Nat) :
    Parser.midUtf8B s = false ↔ ¬ Parser.midUtf8 s := by
  rw [← Parser.midUtf8B_iff]; simp

theorem Parser.inRange_iff (lo hi b : Nat) : Parser.inRange lo hi b = true ↔ lo ≤ b ∧ b ≤ hi := by
  simp [Parser.inRange]

theorem Parser.leadEntry_of_test (b next : Nat) (h : Parser.leadB b next = true) :
    Parser.LeadEntry b next := by
  simp only [Parser.leadB, Bool.or_eq_true, Bool.and_eq_true, Parser.inRange_iff,
    Nat.beq_eq, Nat.ble_eq, Bool.not_eq_true', Parser.midUtf8B_false_iff] at h
  unfold Parser.LeadEntry
  simpa only [or_assoc] using h

theorem Parser.tailEntry_of_test (lo hi dest b next : Nat)
    (h : Parser.tailB lo hi dest b next = true) : Parser.TailEntry lo hi dest b next := by
  simpa [Parser.tailB, Parser.TailEntry, Parser.inRange_iff, Nat.beq_eq] using h

set_option maxRecDepth 1000000 in
theorem Parser.utf8Entry_all : ∀ s, s < 69 → ∀ b, b < 256 →
    Parser.utf8EntryB s b (Parser.step s b) = true :=
  Parser.forall_step Parser.utf8EntryB (by decide!)

theorem Parser.step_lt (s : Nat) (hs : s < 69) (b : Nat) (hb : b < 256) :
    Parser.step s b < 69 := by
  have h := Parser.utf8Entry_all s hs b hb
  simp only [Parser.utf8EntryB, Bool.or_eq_true, Bool.and_eq_true, Nat.beq_eq, Nat.blt_eq] at h
  rcases h with h | h
  · omega
  · exact h.1.1

theorem Parser.step_zero (b : Nat) (hb : b < 256) : Parser.step 0 b = 0 := by
  have h := Parser.utf8Entry_all 0 (by decide) b hb
  simpa [Parser.utf8EntryB] using h

theorem Parser.step_lead (s : Nat) (hs : s < 69) (hm : ¬ Parser.midUtf8 s) (b : Nat)
    (hb : b < 256) : Parser.LeadEntry b (Parser.step s b) := by
  have h := Parser.utf8Entry_all s hs b hb
  simp only [Parser.utf8EntryB, Bool.or_eq_true, Bool.and_eq_true, Nat.beq_eq, Nat.blt_eq] at h
  rcases h with h | h
  · exact Or.inl h
  · simp only [Parser.midUtf8, not_or] at hm
    obtain ⟨h49, h50, h51, h53, h54, h55, h56⟩ := hm
    have e49 : Nat.beq s 49 = false := by simpa [← Bool.not_eq_true, Nat.beq_eq] using h49
    have e50 : Nat.beq s 50 = false := by simpa [← Bool.not_eq_true, Nat.beq_eq] using h50
    have e51 : Nat.beq s 51 = false := by simpa [← Bool.not_eq_true, Nat.beq_eq] using h51
    have e53 : Nat.beq s 53 = false := by simpa [← Bool.not_eq_true, Nat.beq_eq] using h53
    have e54 : Nat.beq s 54 = false := by simpa [← Bool.not_eq_true, Nat.beq_eq] using h54
    have e55 : Nat.beq s 55 = false := by simpa [← Bool.not_eq_true, Nat.beq_eq] using h55
    have e56 : Nat.beq s 56 = false := by simpa [← Bool.not_eq_true, Nat.beq_eq] using h56
    have h2 := h.2
    rw [e49, e50, e51, e53, e54, e55, e56] at h2
    exact Parser.leadEntry_of_test b _ h2

/-- The rows of the states inside a multi-byte sequence. -/
theorem Parser.step_tail (b : Nat) (hb : b < 256) :
    Parser.TailEntry 0x80 0xBF 52 b (Parser.step 49 b) ∧
    Parser.TailEntry 0x80 0xBF 49 b (Parser.step 50 b) ∧
    Parser.TailEntry 0x80 0xBF 50 b (Parser.step 51 b) ∧
    Parser.TailEntry 0xA0 0xBF 49 b (Parser.step 53 b) ∧
    Parser.TailEntry 0x80 0x9F 49 b (Parser.step 54 b) ∧
    Parser.TailEntry 0x90 0xBF 50 b (Parser.step 55 b) ∧
    Parser.TailEntry 0x80 0x8F 50 b (Parser.step 56 b) := by
  have key : ∀ s lo hi dest, s < 69 →
      (Parser.utf8EntryB s b (Parser.step s b) = true →
        Parser.step s b = 0 ∨ Parser.tailB lo hi dest b (Parser.step s b) = true) →
      Parser.TailEntry lo hi dest b (Parser.step s b) := by
    intro s lo hi dest hs h
    rcases h (Parser.utf8Entry_all s hs b hb) with h | h
    · exact Or.inl h
    · exact Parser.tailEntry_of_test _ _ _ _ _ h
  refine ⟨key 49 _ _ _ (by decide) ?_, key 50 _ _ _ (by decide) ?_,
    key 51 _ _ _ (by decide) ?_, key 53 _ _ _ (by decide) ?_, key 54 _ _ _ (by decide) ?_,
    key 55 _ _ _ (by decide) ?_, key 56 _ _ _ (by decide) ?_⟩ <;>
  · intro h
    simp only [Parser.utf8EntryB, Bool.or_eq_true, Bool.and_eq_true, Nat.beq_eq] at h
    rcases h with h | h
    · exact Or.inl h
    · exact Or.inr (by simpa using h.2)

theorem Parser.run_nil (s : Nat) : Parser.run s [] = s := rfl

theorem Parser.run_cons (s a : Nat) (l : List Nat) :
    Parser.run s (a :: l) = Parser.run (Parser.step s a) l := rfl

theorem Parser.run_append (s : Nat) (l1 l2 : List Nat) :
    Parser.run s (l1 ++ l2) = Parser.run (Parser.run s l1) l2 := by
  simp [Parser.run, List.foldl_append]

/-- The failure state is never left. -/
theorem Parser.run_zero (l : List Nat) (hl : Bytes l) : Parser.run 0 l = 0 := by
  induction l with
  | nil => rfl
  | cons a r ih =>
    rw [Parser.run_cons, Parser.step_zero a (hl a (List.mem_cons_self _ _))]
    exact ih (fun x hx => hl x (List.mem_cons_of_mem _ hx))

theorem Parser.run_lt (s : Nat) (hs : s < 69) (l : List Nat) (hl : Bytes l) :
    Parser.run s l < 69 := by
  induction l generalizing s with
  | nil => exact hs
  | cons a r ih =>
    rw [Parser.run_cons]
    exact ih _ (Parser.step_lt s hs a (hl a (List.mem_cons_self _ _)))
      (fun x hx => hl x (List.mem_cons_of_mem _ hx))

theorem Parser.not_mid_zero : ¬ Parser.midUtf8 0 := by decide

/-- From state 49 a run that ends outside the failure and middle states reads
one tail byte and goes on from state 52. -/
theorem Parser.run_49 (l : List Nat) (hl : Bytes l) (t : Nat)
    (ht : Parser.run 49 l = t) (h0 : t ≠ 0) (hm : ¬ Parser.midUtf8 t) :
    ∃ c r, l = c :: r ∧ UTF8Tail c ∧ Parser.run 52 r = t := by
  cases l with
  | nil => exact absurd (by rw [← ht]; exact Or.inl rfl) hm
  | cons c r =>
    have hc := hl c (List.mem_cons_self _ _)
    have hr : Bytes r := fun x hx => hl x (List.mem_cons_of_mem _ hx)
    rw [Parser.run_cons] at ht
    rcases (Parser.step_tail c hc).1 with h | ⟨h, h1, h2⟩
    · rw [h, Parser.run_zero r hr] at ht; exact absurd ht.symm h0
    · exact ⟨c, r, rfl, ⟨h1, h2⟩, by rw [← ht, h]⟩

/-- From state 50: two tail bytes. -/
theorem Parser.run_50 (l : List Nat) (hl : Bytes l) (t : Nat)
    (ht : Parser.run 50 l = t) (h0 : t ≠ 0) (hm : ¬ Parser.midUtf8 t) :
    ∃ b c r, l = b :: c :: r ∧ UTF8Tail b ∧ UTF8Tail c ∧ Parser.run 52 r = t := by
  cases l with
  | nil => exact absurd (by rw [← ht]; exact Or.inr (Or.inl rfl)) hm
  | cons b r =>
    have hb := hl b (List.mem_cons_self _ _)
    have hr : Bytes r := fun x hx => hl x (List.mem_cons_of_mem _ hx)
    rw [Parser.run_cons] at ht
    rcases (Parser.step_tail b hb).2.1 with h | ⟨h, h1, h2⟩
    · rw [h, Parser.run_zero r hr] at ht; exact absurd ht.symm h0
    · rw [h] at ht
      obtain ⟨c, r2, e, hc, hrun⟩ := Parser.run_49 r hr t ht h0 hm
      exact ⟨b, c, r2, by rw [e], ⟨h1, h2⟩, hc, hrun⟩

/-- From a middle state whose row leads to state 49: the byte in `lo..hi`, then
one tail byte. -/
theorem Parser.run_to_49 (s lo hi : Nat) (l : List Nat) (hl : Bytes l) (t : Nat)
    (hs : ∀ b, b < 256 → Parser.TailEntry lo hi 49 b (Parser.step s b))
    (hmid : Parser.midUtf8 s)
    (ht : Parser.run s l = t) (h0 : t ≠ 0) (hm : ¬ Parser.midUtf8 t) :
    ∃ b c r, l = b :: c :: r ∧ lo ≤ b ∧ b ≤ hi ∧ UTF8Tail c ∧ Parser.run 52 r = t := by
  cases l with
  | nil => exact absurd (by rw [← ht]; exact hmid) hm
  | cons b r =>
    have hb := hl b (List.mem_cons_self _ _)
    have hr : Bytes r := fun x hx => hl x (List.mem_cons_of_mem _ hx)
    rw [Parser.run_cons] at ht
    rcases hs b hb with h | ⟨h, h1, h2⟩
    · rw [h, Parser.run_zero r hr] at ht; exact absurd ht.symm h0
    · rw [h] at ht
      obtain ⟨c, r2, e, hc, hrun⟩ := Parser.run_49 r hr t ht h0 hm
      exact ⟨b, c, r2, by rw [e], h1, h2, hc, hrun⟩

/-- From a middle state whose row leads to state 50: the byte in `lo..hi`, then
two tail bytes. -/
theorem Parser.run_to_50 (s lo hi : Nat) (l : List Nat) (hl : Bytes l) (t : Nat)
    (hs : ∀ b, b < 256 → Parser.TailEntry lo hi 50 b (Parser.step s b))
    (hmid : Parser.midUtf8 s)
    (ht : Parser.run s l = t) (h0 : t ≠ 0) (hm : ¬ Parser.midUtf8 t) :
    ∃ b c d r, l = b :: c :: d :: r ∧ lo ≤ b ∧ b ≤ hi ∧ UTF8Tail c ∧ UTF8Tail d ∧
      Parser.run 52 r = t := by
  cases l with
  | nil => exact absurd (by rw [← ht]; exact hmid) hm
  | cons b r =>
    have hb := hl b (List.mem_cons_self _ _)
    have hr : Bytes r := fun x hx => hl x (List.mem_cons_of_mem _ hx)
    rw [Parser.run_cons] at ht
    rcases hs b hb with h | ⟨h, h1, h2⟩
    · rw [h, Parser.run_zero r hr] at ht; exact absurd ht.symm h0
    · rw [h] at ht
      obtain ⟨c, d, r2, e, hc, hd, hrun⟩ := Parser.run_50 r hr t ht h0 hm
      exact ⟨b, c, d, r2, by rw [e], h1, h2, hc, hd, hrun⟩

/-- A run of the parser table that starts outside the middle of a UTF-8
sequence and ends outside the failure state and outside the middle of a
sequence has read well-formed UTF-8. -/
theorem Parser.utf8_of_run (n : Nat) : ∀ (l : List Nat), l.length ≤ n → Bytes l →
    ∀ s, s < 69 → ¬ Parser.midUtf8 s → Parser.run s l ≠ 0 →
      ¬ Parser.midUtf8 (Parser.run s l) → UTF8Octets l := by
  induction n with
  | zero =>
    intro l hlen _ s _ _ _ _
    have : l = [] := List.length_eq_zero.mp (Nat.le_zero.mp hlen)
    rw [this]; exact UTF8Octets.nil
  | succ n ih =>
    intro l hlen hl s hs hms h0 hm
    cases l with
    | nil => exact UTF8Octets.nil
    | cons a r =>
      have ha := hl a (List.mem_cons_self _ _)
      have hr : Bytes r := fun x hx => hl x (List.mem_cons_of_mem _ hx)
      have hlen1 : r.length ≤ n := by simpa using hlen
      rw [Parser.run_cons] at h0 hm
      have hlt := Parser.step_lt s hs a ha
      have not52 : ¬ Parser.midUtf8 52 := by decide
      rcases Parser.step_lead s hs hms a ha with h | ⟨h1, h2⟩ | ⟨h, h1, h2⟩ | ⟨h, h1⟩ |
          ⟨h, h1⟩ | ⟨h, h1⟩ | ⟨h, h1⟩ | ⟨h, h1, h2⟩ | ⟨h, h1⟩
      · rw [h, Parser.run_zero r hr] at h0; exact absurd rfl h0
      · exact UTF8Octets.utf8_1 h2 (ih r hlen1 hr _ hlt h1 h0 hm)
      · rw [h] at h0 hm
        obtain ⟨c, r2, e, hc, hrun⟩ := Parser.run_49 r hr _ rfl h0 hm
        subst e
        rw [← hrun] at h0 hm
        exact UTF8Octets.utf8_2 h1 h2 hc (ih r2 (by simp at hlen1; omega)
          (fun x hx => hr x (List.mem_cons_of_mem _ hx)) 52 (by decide) not52 h0 hm)
      · rw [h] at h0 hm
        obtain ⟨b, c, r2, e, hb1, hb2, hc, hrun⟩ := Parser.run_to_49 53 _ _ r hr _
          (fun b hb => (Parser.step_tail b hb).2.2.2.1) (by decide) rfl h0 hm
        subst e; subst h1
        rw [← hrun] at h0 hm
        exact UTF8Octets.utf8_3_E0 hb1 hb2 hc (ih r2 (by simp at hlen1; omega)
          (fun x hx => hr x (List.mem_cons_of_mem _ (List.mem_cons_of_mem _ hx)))
          52 (by decide) not52 h0 hm)
      · rw [h] at h0 hm
        obtain ⟨b, c, r2, e, hb, hc, hrun⟩ := Parser.run_50 r hr _ rfl h0 hm
        subst e
        rw [← hrun] at h0 hm
        have hrest := ih r2 (by simp at hlen1; omega)
          (fun x hx => hr x (List.mem_cons_of_mem _ (List.mem_cons_of_mem _ hx)))
          52 (by decide) not52 h0 hm
        rcases h1 with ⟨h1, h2⟩ | ⟨h1, h2⟩
        · exact UTF8Octets.utf8_3_E1_EC h1 h2 hb hc hrest
        · exact UTF8Octets.utf8_3_EE_EF h1 h2 hb hc hrest
      · rw [h] at h0 hm
        obtain ⟨b, c, r2, e, hb1, hb2, hc, hrun⟩ := Parser.run_to_49 54 _ _ r hr _
          (fun b hb => (Parser.step_tail b hb).2.2.2.2.1) (by decide) rfl h0 hm
        subst e; subst h1
        rw [← hrun] at h0 hm
        exact UTF8Octets.utf8_3_ED hb1 hb2 hc (ih r2 (by simp at hlen1; omega)
          (fun x hx => hr x (List.mem_cons_of_mem _ (List.mem_cons_of_mem _ hx)))
          52 (by decide) not52 h0 hm)
      · rw [h] at h0 hm
        obtain ⟨b, c, d, r2, e, hb1, hb2, hc, hd, hrun⟩ := Parser.run_to_50 55 _ _ r hr _
          (fun b hb => (Parser.step_tail b hb).2.2.2.2.2.1) (by decide) rfl h0 hm
        subst e; subst h1
        rw [← hrun] at h0 hm
        exact UTF8Octets.utf8_4_F0 hb1 hb2 hc hd (ih r2 (by simp at hlen1; omega)
          (fun x hx => hr x (List.mem_cons_of_mem _ (List.mem_cons_of_mem _
            (List.mem_cons_of_mem _ hx))))
          52 (by decide) not52 h0 hm)
      · rw [h] at h0 hm
        obtain ⟨b, c, d, r2, e, hb1, hb2, hc, hd, hrun⟩ := Parser.run_to_50 51 _ _ r hr _
          (fun b hb => (Parser.step_tail b hb).2.2.1) (by decide) rfl h0 hm
        subst e
        rw [← hrun] at h0 hm
        exact UTF8Octets.utf8_4_F1_F3 h1 h2 ⟨hb1, hb2⟩ hc hd (ih r2 (by simp at hlen1; omega)
          (fun x hx => hr x (List.mem_cons_of_mem _ (List.mem_cons_of_mem _
            (List.mem_cons_of_mem _ hx))))
          52 (by decide) not52 h0 hm)
      · rw [h] at h0 hm
        obtain ⟨b, c, d, r2, e, hb1, hb2, hc, hd, hrun⟩ := Parser.run_to_50 56 _ _ r hr _
          (fun b hb => (Parser.step_tail b hb).2.2.2.2.2.2) (by decide) rfl h0 hm
        subst e; subst h1
        rw [← hrun] at h0 hm
        exact UTF8Octets.utf8_4_F4 hb1 hb2 hc hd (ih r2 (by simp at hlen1; omega)
          (fun x hx => hr x (List.mem_cons_of_mem _ (List.mem_cons_of_mem _
            (List.mem_cons_of_mem _ hx))))
          52 (by decide) not52 h0 hm)

theorem Parser.step_one_quote : Parser.step 1 0x22 = 25 := by
  rw [Parser.step_eq_tableStep 1 (by decide) _ (by decide)]; rfl

/-- In the middle of a UTF-8 sequence a quote leads to the failure state. -/
theorem Parser.step_mid_quote (s : Nat) (hm : Parser.midUtf8 s) : Parser.step s 0x22 = 0 := by
  have h := Parser.step_tail 0x22 (by decide)
  unfold Parser.TailEntry at h
  rcases hm with e | e | e | e | e | e | e <;> subst e <;> omega

theorem not_utf8_ff : ¬ UTF8Octets [0xFF] := by
  intro h
  cases h with
  | utf8_1 h1 _ => omega

/-- C1. For every byte sequence `b` that is not well-formed UTF-8 (RFC 3629),
the run of the parser state table from the entry state 1 over quote, `b`, quote
reaches the failure state 0 or ends in a state whose `incompleteMap` bit is
true (it ends in state 0, in fact). -/
theorem parser_rejects_malformed_utf8 (b : List Nat) (hb : Bytes b) (h : ¬ UTF8Octets b) :
    Parser.run 1 (0x22 :: (b ++ [0x22])) = 0 ∨
      Parser.incompleteMap (Parser.run 1 (0x22 :: (b ++ [0x22]))) = true := by
  left
  rw [Parser.run_cons, Parser.step_one_quote, Parser.run_append, Parser.run_cons,
    Parser.run_nil]
  by_cases h0 : Parser.run 25 b = 0
  · rw [h0]; exact Parser.step_zero _ (by decide)
  · by_cases hm : Parser.midUtf8 (Parser.run 25 b)
    · exact Parser.step_mid_quote _ hm
    · exact absurd (Parser.utf8_of_run b.length b (le_refl _) hb 25 (by decide) (by decide)
        h0 hm) h

/-- C1 at the bytes `22 FF 22` of the specification's scenario E5. -/
theorem parser_rejects_malformed_utf8_witness :
    Bytes [0xFF] ∧ ¬ UTF8Octets [0xFF] ∧
      (Parser.run 1 (0x22 :: ([0xFF] ++ [0x22])) = 0 ∨
        Parser.incompleteMap (Parser.run 1 (0x22 :: ([0xFF] ++ [0x22]))) = true) :=
  ⟨by intro x hx; simp at hx; omega, not_utf8_ff,
    parser_rejects_malformed_utf8 [0xFF] (by intro x hx; simp at hx; omega) not_utf8_ff⟩

end GlideJson

namespace GlideJson

/-! ### The number grammar of RFC 8259 and the number states of the parser table -/

/-- An ASCII digit `0`-`9`. -/
def IsDigit (x : Nat) : Prop := 48 ≤ x ∧ x ≤ 57

/-- `[0-9]*`. -/
def Digits (l : List Nat) : Prop := ∀ x ∈ l, IsDigit x

/-- `[0-9]+`. -/
def Digits1 (l : List Nat) : Prop := l ≠ [] ∧ Digits l

/-- `0|[1-9][0-9]*`. -/
def IsInt (l : List Nat) : Prop :=
  l = [48] ∨ ∃ d ds, l = d :: ds ∧ (49 ≤ d ∧ d ≤ 57) ∧ Digits ds

/-- `(\.[0-9]+)?`. -/
def IsFrac (l : List Nat) : Prop := l = [] ∨ ∃ ds, l = 46 :: ds ∧ Digits1 ds

/-- `[+-]?`. -/
def IsSign (l : List Nat) : Prop := l = [] ∨ l = [43] ∨ l = [45]

/-- `([eE][+-]?[0-9]+)?`. -/
def IsExp (l : List Nat) : Prop :=
  l = [] ∨ ∃ e sg ds, l = e :: (sg ++ ds) ∧ (e = 101 ∨ e = 69) ∧ IsSign sg ∧ Digits1 ds

/-- The number grammar `-?(0|[1-9][0-9]*)(\.[0-9]+)?([eE][+-]?[0-9]+)?`. -/
def IsJsonNumber (s : List Nat) : Prop :=
  ∃ sign int frac exp, s = sign ++ (int ++ (frac ++ exp)) ∧ (sign = [] ∨ sign = [45]) ∧
    IsInt int ∧ IsFrac frac ∧ IsExp exp

/-- The bytes `0`-`9`, `-`, `+`, `.`, `e`, `E`. -/
def NumberByte (x : Nat) : Prop := IsDigit x ∨ x = 45 ∨ x = 43 ∨ x = 46 ∨ x = 101 ∨ x = 69

/-- The accepting number states of the parser table. -/
def Parser.numberAccepting (s : Nat) : Prop :=
  s = 15 ∨ s = 16 ∨ s = 18 ∨ s = 19 ∨ s = 21 ∨ s = 23

/-- The states in which the integer part is complete. -/
def Parser.intDone (s : Nat) : Prop := s = 15 ∨ s = 16 ∨ s = 18 ∨ s = 19

theorem numberByte_lt {x : Nat} (h : NumberByte x) : x < 256 := by
  unfold NumberByte IsDigit at h; omega

theorem numberBytes_bytes {l : List Nat} (h : ∀ x ∈ l, NumberByte x) : Bytes l :=
  fun x hx => numberByte_lt (h x hx)

theorem Parser.not_numberAccepting_zero : ¬ Parser.numberAccepting 0 := by
  unfold Parser.numberAccepting; omega

/-! The rows of the number states, restricted to the number bytes. -/

theorem Parser.step1_number (x : Nat) (hx : NumberByte x) :
    Parser.step 1 x =
      if x = 45 then 17 else if x = 48 then 15 else if 49 ≤ x ∧ x ≤ 57 then 16 else 0 := by
  rw [Parser.step_eq_tableStep 1 (by decide) x (numberByte_lt hx)]
  show Parser.valueRow x = _
  unfold NumberByte IsDigit at hx
  rcases hx with ⟨h1, h2⟩ | rfl | rfl | rfl | rfl | rfl
  · interval_cases x <;> rfl
  all_goals rfl

theorem Parser.step17_number (x : Nat) (hx : NumberByte x) :
    Parser.step 17 x = if x = 48 then 18 else if 49 ≤ x ∧ x ≤ 57 then 19 else 0 := by
  rw [Parser.step_eq_tableStep 17 (by decide) x (numberByte_lt hx)]
  rfl

theorem Parser.step_zeroRow_number (x : Nat) (hx : NumberByte x) :
    Parser.zeroRow x = if x = 46 then 20 else if x = 101 ∨ x = 69 then 22 else 0 := by
  unfold NumberByte IsDigit at hx
  rcases hx with ⟨h1, h2⟩ | rfl | rfl | rfl | rfl | rfl
  · interval_cases x <;> rfl
  all_goals rfl

theorem Parser.step_digitRow_number (x : Nat) (hx : NumberByte x) :
    Parser.digitRow x =
      if 48 ≤ x ∧ x ≤ 57 then 19 else if x = 46 then 20 else
        if x = 101 ∨ x = 69 then 22 else 0 := by
  unfold NumberByte IsDigit at hx
  rcases hx with ⟨h1, h2⟩ | rfl | rfl | rfl | rfl | rfl
  · interval_cases x <;> rfl
  all_goals rfl

theorem Parser.step15_number (x : Nat) (hx : NumberByte x) :
    Parser.step 15 x = if x = 46 then 20 else if x = 101 ∨ x = 69 then 22 else 0 := by
  rw [Parser.step_eq_tableStep 15 (by decide) x (numberByte_lt hx)]
  exact Parser.step_zeroRow_number x hx

theorem Parser.step18_number (x : Nat) (hx : NumberByte x) :
    Parser.step 18 x = if x = 46 then 20 else if x = 101 ∨ x = 69 then 22 else 0 := by
  rw [Parser.step_eq_tableStep 18 (by decide) x (numberByte_lt hx)]
  exact Parser.step_zeroRow_number x hx

theorem Parser.step16_number (x : Nat) (hx : NumberByte x) :
    Parser.step 16 x =
      if 48 ≤ x ∧ x ≤ 57 then 19 else if x = 46 then 20 else
        if x = 101 ∨ x = 69 then 22 else 0 := by
  rw [Parser.step_eq_tableStep 16 (by decide) x (numberByte_lt hx)]
  exact Parser.step_digitRow_number x hx

theorem Parser.step19_number (x : Nat) (hx : NumberByte x) :
    Parser.step 19 x =
      if 48 ≤ x ∧ x ≤ 57 then 19 else if x = 46 then 20 else
        if x = 101 ∨ x = 69 then 22 else 0 := by
  rw [Parser.step_eq_tableStep 19 (by decide) x (numberByte_lt hx)]
  exact Parser.step_digitRow_number x hx

theorem Parser.step20_number (x : Nat) (hx : NumberByte x) :
    Parser.step 20 x = if 48 ≤ x ∧ x ≤ 57 then 21 else 0 := by
  rw [Parser.step_eq_tableStep 20 (by decide) x (numberByte_lt hx)]
  rfl

theorem Parser.step21_number (x : Nat) (hx : NumberByte x) :
    Parser.step 21 x =
      if 48 ≤ x ∧ x ≤ 57 then 21 else if x = 101 ∨ x = 69 then 22 else 0 := by
  rw [Parser.step_eq_tableStep 21 (by decide) x (numberByte_lt hx)]
  show Parser.fractionRow x = _
  unfold NumberByte IsDigit at hx
  rcases hx with ⟨h1, h2⟩ | rfl | rfl | rfl | rfl | rfl
  · interval_cases x <;> rfl
  all_goals rfl

theorem Parser.step22_number (x : Nat) (hx : NumberByte x) :
    Parser.step 22 x =
      if x = 43 ∨ x = 45 then 24 else if 48 ≤ x ∧ x ≤ 57 then 23 else 0 := by
  rw [Parser.step_eq_tableStep 22 (by decide) x (numberByte_lt hx)]
  show (if x = 43 then 24 else if x = 45 then 24 else if 48 ≤ x ∧ x ≤ 57 then 23 else 0) = _
  unfold NumberByte IsDigit at hx
  rcases hx with ⟨h1, h2⟩ | rfl | rfl | rfl | rfl | rfl
  · interval_cases x <;> rfl
  all_goals rfl

theorem Parser.step23_number (x : Nat) (hx : NumberByte x) :
    Parser.step 23 x = if 48 ≤ x ∧ x ≤ 57 then 23 else 0 := by
  rw [Parser.step_eq_tableStep 23 (by decide) x (numberByte_lt hx)]
  show Parser.exponentRow x = _
  unfold NumberByte IsDigit at hx
  rcases hx with ⟨h1, h2⟩ | rfl | rfl | rfl | rfl | rfl
  · interval_cases x <;> rfl
  all_goals rfl

theorem Parser.step24_number (x : Nat) (hx : NumberByte x) :
    Parser.step 24 x = if 48 ≤ x ∧ x ≤ 57 then 23 else 0 := by
  rw [Parser.step_eq_tableStep 24 (by decide) x (numberByte_lt hx)]
  rfl

/-! From an accepting run to the grammar: the language of each number state. -/

theorem digits_nil : Digits [] := fun x hx => by cases hx

theorem digits_cons {x : Nat} {r : List Nat} (hx : 48 ≤ x ∧ x ≤ 57) (hr : Digits r) :
    Digits (x :: r) := by
  intro y hy
  rcases List.mem_cons.1 hy with rfl | h
  · exact hx
  · exact hr y h

theorem digits_head {x : Nat} {r : List Nat} (h : Digits (x :: r)) : 48 ≤ x ∧ x ≤ 57 :=
  h x (List.mem_cons_self _ _)

theorem digits_tail {x : Nat} {r : List Nat} (h : Digits (x :: r)) : Digits r :=
  fun y hy => h y (List.mem_cons_of_mem _ hy)

theorem digit_numberByte {x : Nat} (h : 48 ≤ x ∧ x ≤ 57) : NumberByte x := Or.inl h

theorem numberBytes_tail {x : Nat} {r : List Nat} (h : ∀ y ∈ x :: r, NumberByte y) :
    ∀ y ∈ r, NumberByte y :=
  fun y hy => h y (List.mem_cons_of_mem _ hy)

theorem Parser.run_zero_number {l : List Nat} (hl : ∀ x ∈ l, NumberByte x) :
    ¬ Parser.numberAccepting (Parser.run 0 l) := by
  rw [Parser.run_zero l (numberBytes_bytes hl)]
  exact Parser.not_numberAccepting_zero

theorem Parser.lang23 : ∀ (l : List Nat), (∀ x ∈ l, NumberByte x) →
    Parser.numberAccepting (Parser.run 23 l) → Digits l := by
  intro l
  induction l with
  | nil => intro _ _; exact digits_nil
  | cons x r ih =>
    intro hl h
    rw [Parser.run_cons, Parser.step23_number x (hl x (List.mem_cons_self _ _))] at h
    split_ifs at h with hd
    · exact digits_cons hd (ih (numberBytes_tail hl) h)
    · exact absurd h (Parser.run_zero_number (numberBytes_tail hl))

theorem Parser.lang24 (l : List Nat) (hl : ∀ x ∈ l, NumberByte x)
    (h : Parser.numberAccepting (Parser.run 24 l)) : Digits1 l := by
  cases l with
  | nil => rw [Parser.run_nil] at h; unfold Parser.numberAccepting at h; omega
  | cons x r =>
    rw [Parser.run_cons, Parser.step24_number x (hl x (List.mem_cons_self _ _))] at h
    split_ifs at h with hd
    · exact ⟨List.cons_ne_nil _ _, digits_cons hd (Parser.lang23 r (numberBytes_tail hl) h)⟩
    · exact absurd h (Parser.run_zero_number (numberBytes_tail hl))

theorem Parser.lang22 (l : List Nat) (hl : ∀ x ∈ l, NumberByte x)
    (h : Parser.numberAccepting (Parser.run 22 l)) :
    ∃ sg ds, l = sg ++ ds ∧ IsSign sg ∧ Digits1 ds := by
  cases l with
  | nil => rw [Parser.run_nil] at h; unfold Parser.numberAccepting at h; omega
  | cons x r =>
    rw [Parser.run_cons, Parser.step22_number x (hl x (List.mem_cons_self _ _))] at h
    split_ifs at h with hs hd
    · refine ⟨[x], r, rfl, ?_, Parser.lang24 r (numberBytes_tail hl) h⟩
      rcases hs with rfl | rfl
      · exact Or.inr (Or.inl rfl)
      · exact Or.inr (Or.inr rfl)
    · exact ⟨[], x :: r, rfl, Or.inl rfl, List.cons_ne_nil _ _,
        digits_cons hd (Parser.lang23 r (numberBytes_tail hl) h)⟩
    · exact absurd h (Parser.run_zero_number (numberBytes_tail hl))

theorem Parser.exp_of_run22 (x : Nat) (r : List Nat) (hr : ∀ y ∈ r, NumberByte y)
    (he : x = 101 ∨ x = 69) (h : Parser.numberAccepting (Parser.run 22 r)) :
    IsExp (x :: r) := by
  obtain ⟨sg, ds, e, hsg, hds⟩ := Parser.lang22 r hr h
  exact Or.inr ⟨x, sg, ds, by rw [e], he, hsg, hds⟩

theorem Parser.lang21 : ∀ (l : List Nat), (∀ x ∈ l, NumberByte x) →
    Parser.numberAccepting (Parser.run 21 l) →
    ∃ ds ex, l = ds ++ ex ∧ Digits ds ∧ IsExp ex := by
  intro l
  induction l with
  | nil => intro _ _; exact ⟨[], [], rfl, digits_nil, Or.inl rfl⟩
  | cons x r ih =>
    intro hl h
    rw [Parser.run_cons, Parser.step21_number x (hl x (List.mem_cons_self _ _))] at h
    split_ifs at h with hd he
    · obtain ⟨ds, ex, e, hds, hex⟩ := ih (numberBytes_tail hl) h
      exact ⟨x :: ds, ex, by rw [e]; rfl, digits_cons hd hds, hex⟩
    · exact ⟨[], x :: r, rfl, digits_nil, Parser.exp_of_run22 x r (numberBytes_tail hl) he h⟩
    · exact absurd h (Parser.run_zero_number (numberBytes_tail hl))

theorem Parser.lang20 (l : List Nat) (hl : ∀ x ∈ l, NumberByte x)
    (h : Parser.numberAccepting (Parser.run 20 l)) :
    ∃ ds ex, l = ds ++ ex ∧ Digits1 ds ∧ IsExp ex := by
  cases l with
  | nil => rw [Parser.run_nil] at h; unfold Parser.numberAccepting at h; omega
  | cons x r =>
    rw [Parser.run_cons, Parser.step20_number x (hl x (List.mem_cons_self _ _))] at h
    split_ifs at h with hd
    · obtain ⟨ds, ex, e, hds, hex⟩ := Parser.lang21 r (numberBytes_tail hl) h
      exact ⟨x :: ds, ex, by rw [e]; rfl, ⟨List.cons_ne_nil _ _, digits_cons hd hds⟩, hex⟩
    · exact absurd h (Parser.run_zero_number (numberBytes_tail hl))

/-- After the integer part: a fraction and an exponent, both optional. -/
def FracExp (l : List Nat) : Prop := ∃ fr ex, l = fr ++ ex ∧ IsFrac fr ∧ IsExp ex

theorem Parser.fracExp_dot (r : List Nat) (hr : ∀ y ∈ r, NumberByte y)
    (h : Parser.numberAccepting (Parser.run 20 r)) : FracExp (46 :: r) := by
  obtain ⟨ds, ex, e, hds, hex⟩ := Parser.lang20 r hr h
  exact ⟨46 :: ds, ex, by rw [e]; rfl, Or.inr ⟨ds, rfl, hds⟩, hex⟩

theorem Parser.fracExp_exp (x : Nat) (r : List Nat) (hr : ∀ y ∈ r, NumberByte y)
    (he : x = 101 ∨ x = 69) (h : Parser.numberAccepting (Parser.run 22 r)) :
    FracExp (x :: r) :=
  ⟨[], x :: r, rfl, Or.inl rfl, Parser.exp_of_run22 x r hr he h⟩

theorem Parser.lang_zero (s : Nat)
    (hstep : ∀ x, NumberByte x →
      Parser.step s x = if x = 46 then 20 else if x = 101 ∨ x = 69 then 22 else 0)
    (l : List Nat) (hl : ∀ x ∈ l, NumberByte x)
    (h : Parser.numberAccepting (Parser.run s l)) : FracExp l := by
  cases l with
  | nil => exact ⟨[], [], rfl, Or.inl rfl, Or.inl rfl⟩
  | cons x r =>
    rw [Parser.run_cons, hstep x (hl x (List.mem_cons_self _ _))] at h
    split_ifs at h with hd he
    · subst hd; exact Parser.fracExp_dot r (numberBytes_tail hl) h
    · exact Parser.fracExp_exp x r (numberBytes_tail hl) he h
    · exact absurd h (Parser.run_zero_number (numberBytes_tail hl))

theorem Parser.lang19 : ∀ (l : List Nat), (∀ x ∈ l, NumberByte x) →
    Parser.numberAccepting (Parser.run 19 l) →
    ∃ ds fe, l = ds ++ fe ∧ Digits ds ∧ FracExp fe := by
  intro l
  induction l with
  | nil => intro _ _; exact ⟨[], [], rfl, digits_nil, [], [], rfl, Or.inl rfl, Or.inl rfl⟩
  | cons x r ih =>
    intro hl h
    rw [Parser.run_cons, Parser.step19_number x (hl x (List.mem_cons_self _ _))] at h
    split_ifs at h with hd hdot he
    · obtain ⟨ds, fe, e, hds, hfe⟩ := ih (numberBytes_tail hl) h
      exact ⟨x :: ds, fe, by rw [e]; rfl, digits_cons hd hds, hfe⟩
    · subst hdot
      exact ⟨[], 46 :: r, rfl, digits_nil, Parser.fracExp_dot r (numberBytes_tail hl) h⟩
    · exact ⟨[], x :: r, rfl, digits_nil, Parser.fracExp_exp x r (numberBytes_tail hl) he h⟩
    · exact absurd h (Parser.run_zero_number (numberBytes_tail hl))

theorem Parser.lang16 (l : List Nat) (hl : ∀ x ∈ l, NumberByte x)
    (h : Parser.numberAccepting (Parser.run 16 l)) :
    ∃ ds fe, l = ds ++ fe ∧ Digits ds ∧ FracExp fe := by
  cases l with
  | nil => exact ⟨[], [], rfl, digits_nil, [], [], rfl, Or.inl rfl, Or.inl rfl⟩
  | cons x r =>
    rw [Parser.run_cons, Parser.step16_number x (hl x (List.mem_cons_self _ _))] at h
    split_ifs at h with hd hdot he
    · obtain ⟨ds, fe, e, hds, hfe⟩ := Parser.lang19 r (numberBytes_tail hl) h
      exact ⟨x :: ds, fe, by rw [e]; rfl, digits_cons hd hds, hfe⟩
    · subst hdot
      exact ⟨[], 46 :: r, rfl, digits_nil, Parser.fracExp_dot r (numberBytes_tail hl) h⟩
    · exact ⟨[], x :: r, rfl, digits_nil, Parser.fracExp_exp x r (numberBytes_tail hl) he h⟩
    · exact absurd h (Parser.run_zero_number (numberBytes_tail hl))

theorem Parser.lang17 (l : List Nat) (hl : ∀ x ∈ l, NumberByte x)
    (h : Parser.numberAccepting (Parser.run 17 l)) :
    ∃ int fe, l = int ++ fe ∧ IsInt int ∧ FracExp fe := by
  cases l with
  | nil => rw [Parser.run_nil] at h; unfold Parser.numberAccepting at h; omega
  | cons x r =>
    rw [Parser.run_cons, Parser.step17_number x (hl x (List.mem_cons_self _ _))] at h
    split_ifs at h with hz hd
    · subst hz
      exact ⟨[48], r, rfl, Or.inl rfl,
        Parser.lang_zero 18 Parser.step18_number r (numberBytes_tail hl) h⟩
    · obtain ⟨ds, fe, e, hds, hfe⟩ := Parser.lang19 r (numberBytes_tail hl) h
      exact ⟨x :: ds, fe, by rw [e]; rfl, Or.inr ⟨x, ds, rfl, hd, hds⟩, hfe⟩
    · exact absurd h (Parser.run_zero_number (numberBytes_tail hl))

theorem isJsonNumber_of (sign int fe : List Nat) (hs : sign = [] ∨ sign = [45])
    (hi : IsInt int) (hfe : FracExp fe) : IsJsonNumber (sign ++ (int ++ fe)) := by
  obtain ⟨fr, ex, e, hfr, hex⟩ := hfe
  exact ⟨sign, int, fr, ex, by rw [e], hs, hi, hfr, hex⟩

theorem Parser.lang1 (l : List Nat) (hl : ∀ x ∈ l, NumberByte x)
    (h : Parser.numberAccepting (Parser.run 1 l)) : IsJsonNumber l := by
  cases l with
  | nil => rw [Parser.run_nil] at h; unfold Parser.numberAccepting at h; omega
  | cons x r =>
    rw [Parser.run_cons, Parser.step1_number x (hl x (List.mem_cons_self _ _))] at h
    split_ifs at h with hm hz hd
    · subst hm
      obtain ⟨int, fe, e, hint, hfe⟩ := Parser.lang17 r (numberBytes_tail hl) h
      rw [e]
      exact isJsonNumber_of [45] int fe (Or.inr rfl) hint hfe
    · subst hz
      exact isJsonNumber_of [] [48] r (Or.inl rfl) (Or.inl rfl)
        (Parser.lang_zero 15 Parser.step15_number r (numberBytes_tail hl) h)
    · obtain ⟨ds, fe, e, hds, hfe⟩ := Parser.lang16 r (numberBytes_tail hl) h
      rw [e]
      exact isJsonNumber_of [] (x :: ds) fe (Or.inl rfl)
        (Or.inr ⟨x, ds, rfl, hd, hds⟩) hfe
    · exact absurd h (Parser.run_zero_number (numberBytes_tail hl))

/-! From the grammar to an accepting run. -/

theorem Parser.run_digits (s : Nat)
    (hstep : ∀ x, (48 ≤ x ∧ x ≤ 57) → Parser.step s x = s) :
    ∀ ds, Digits ds → Parser.run s ds = s := by
  intro ds
  induction ds with
  | nil => intro _; rfl
  | cons x r ih =>
    intro h
    rw [Parser.run_cons, hstep x (digits_head h)]
    exact ih (digits_tail h)

theorem Parser.step19_digit (x : Nat) (hd : 48 ≤ x ∧ x ≤ 57) : Parser.step 19 x = 19 := by
  rw [Parser.step19_number x (digit_numberByte hd)]; exact if_pos hd

theorem Parser.step21_digit (x : Nat) (hd : 48 ≤ x ∧ x ≤ 57) : Parser.step 21 x = 21 := by
  rw [Parser.step21_number x (digit_numberByte hd)]; exact if_pos hd

theorem Parser.step23_digit (x : Nat) (hd : 48 ≤ x ∧ x ≤ 57) : Parser.step 23 x = 23 := by
  rw [Parser.step23_number x (digit_numberByte hd)]; exact if_pos hd

theorem Parser.run_digits1 (s t : Nat)
    (hst : ∀ x, (48 ≤ x ∧ x ≤ 57) → Parser.step s x = t)
    (htt : ∀ x, (48 ≤ x ∧ x ≤ 57) → Parser.step t x = t)
    (ds : List Nat) (h : Digits1 ds) : Parser.run s ds = t := by
  cases ds with
  | nil => exact absurd rfl h.1
  | cons x r =>
    rw [Parser.run_cons, hst x (digits_head h.2)]
    exact Parser.run_digits t htt r (digits_tail h.2)

theorem Parser.run24_digits1 (ds : List Nat) (h : Digits1 ds) : Parser.run 24 ds = 23 :=
  Parser.run_digits1 24 23
    (fun x hd => by rw [Parser.step24_number x (digit_numberByte hd)]; exact if_pos hd)
    Parser.step23_digit ds h

theorem Parser.run22_signed (sg ds : List Nat) (hsg : IsSign sg) (h : Digits1 ds) :
    Parser.run 22 (sg ++ ds) = 23 := by
  rcases hsg with rfl | rfl | rfl
  · exact Parser.run_digits1 22 23
      (fun x hd => by
        rw [Parser.step22_number x (digit_numberByte hd), if_neg (by omega)]; exact if_pos hd)
      Parser.step23_digit ds h
  · rw [List.singleton_append, Parser.run_cons, Parser.step22_number 43 (by unfold NumberByte; omega)]
    exact Parser.run24_digits1 ds h
  · rw [List.singleton_append, Parser.run_cons, Parser.step22_number 45 (by unfold NumberByte; omega)]
    exact Parser.run24_digits1 ds h

theorem Parser.step_exp (s : Nat) (hs : Parser.intDone s ∨ s = 21) (e : Nat)
    (he : e = 101 ∨ e = 69) : Parser.step s e = 22 := by
  rcases hs with (rfl | rfl | rfl | rfl) | rfl <;> rcases he with rfl | rfl <;>
    (rw [Parser.step_eq_tableStep _ (by decide) _ (by decide)]; rfl)

theorem Parser.step_dot (s : Nat) (hs : Parser.intDone s) : Parser.step s 46 = 20 := by
  rcases hs with rfl | rfl | rfl | rfl <;>
    (rw [Parser.step_eq_tableStep _ (by decide) _ (by decide)]; rfl)

theorem Parser.run_exp (s : Nat) (hs : Parser.intDone s ∨ s = 21) (ex : List Nat)
    (h : IsExp ex) : Parser.numberAccepting (Parser.run s ex) := by
  rcases h with rfl | ⟨e, sg, ds, rfl, he, hsg, hds⟩
  · rw [Parser.run_nil]; unfold Parser.numberAccepting; unfold Parser.intDone at hs; omega
  · rw [Parser.run_cons, Parser.step_exp s hs e he, Parser.run22_signed sg ds hsg hds]
    unfold Parser.numberAccepting; omega

theorem Parser.run_fracExp (s : Nat) (hs : Parser.intDone s) (fe : List Nat)
    (h : FracExp fe) : Parser.numberAccepting (Parser.run s fe) := by
  obtain ⟨fr, ex, rfl, hfr, hex⟩ := h
  rw [Parser.run_append]
  rcases hfr with rfl | ⟨ds, rfl, hds⟩
  · exact Parser.run_exp s (Or.inl hs) ex hex
  · rw [Parser.run_cons, Parser.step_dot s hs, Parser.run_digits1 20 21
      (fun x hd => by rw [Parser.step20_number x (digit_numberByte hd)]; exact if_pos hd)
      Parser.step21_digit ds hds]
    exact Parser.run_exp 21 (Or.inr rfl) ex hex

theorem Parser.run1_int (int : List Nat) (h : IsInt int) :
    Parser.intDone (Parser.run 1 int) := by
  rcases h with rfl | ⟨d, ds, rfl, hd, hds⟩
  · rw [Parser.run_cons, Parser.run_nil, Parser.step_eq_tableStep _ (by decide) _ (by decide)]
    exact Or.inl rfl
  · rw [Parser.run_cons, Parser.step1_number d (digit_numberByte (by omega)),
      if_neg (by omega), if_neg (by omega), if_pos hd]
    cases ds with
    | nil => exact Or.inr (Or.inl rfl)
    | cons x r =>
      rw [Parser.run_cons, Parser.step16_number x (digit_numberByte (digits_head hds)),
        if_pos (digits_head hds), Parser.run_digits 19 Parser.step19_digit r (digits_tail hds)]
      exact Or.inr (Or.inr (Or.inr rfl))

theorem Parser.run17_int (int : List Nat) (h : IsInt int) :
    Parser.intDone (Parser.run 17 int) := by
  rcases h with rfl | ⟨d, ds, rfl, hd, hds⟩
  · rw [Parser.run_cons, Parser.run_nil, Parser.step_eq_tableStep _ (by decide) _ (by decide)]
    exact Or.inr (Or.inr (Or.inl rfl))
  · rw [Parser.run_cons, Parser.step17_number d (digit_numberByte (by omega)),
      if_neg (by omega), if_pos hd, Parser.run_digits 19 Parser.step19_digit ds hds]
    exact Or.inr (Or.inr (Or.inr rfl))

theorem Parser.run1_number (s : List Nat) (h : IsJsonNumber s) :
    Parser.numberAccepting (Parser.run 1 s) := by
  obtain ⟨sign, int, frac, exp, rfl, hsign, hint, hfrac, hexp⟩ := h
  rcases hsign with rfl | rfl
  · rw [List.nil_append, Parser.run_append]
    exact Parser.run_fracExp _ (Parser.run1_int int hint) _ ⟨frac, exp, rfl, hfrac, hexp⟩
  · have e2 : Parser.step 1 45 = 17 := by
      rw [Parser.step_eq_tableStep _ (by decide) _ (by decide)]; rfl
    rw [List.singleton_append, Parser.run_cons, e2, Parser.run_append]
    exact Parser.run_fracExp _ (Parser.run17_int int hint) _ ⟨frac, exp, rfl, hfrac, hexp⟩

theorem Parser.run1_leading_zero (d : Nat) (r : List Nat) (hd : 48 ≤ d ∧ d ≤ 57)
    (hr : Bytes r) : Parser.run 1 (48 :: d :: r) = 0 ∧ Parser.run 1 (45 :: 48 :: d :: r) = 0 := by
  have h15 : Parser.step 15 d = 0 := by
    rw [Parser.step15_number d (digit_numberByte hd), if_neg (by omega), if_neg (by omega)]
  have h18 : Parser.step 18 d = 0 := by
    rw [Parser.step18_number d (digit_numberByte hd), if_neg (by omega), if_neg (by omega)]
  have e1 : Parser.step 1 48 = 15 := by
    rw [Parser.step_eq_tableStep _ (by decide) _ (by decide)]; rfl
  have e2 : Parser.step 1 45 = 17 := by
    rw [Parser.step_eq_tableStep _ (by decide) _ (by decide)]; rfl
  have e3 : Parser.step 17 48 = 18 := by
    rw [Parser.step_eq_tableStep _ (by decide) _ (by decide)]; rfl
  constructor
  · rw [Parser.run_cons, Parser.run_cons, e1, h15, Parser.run_zero r hr]
  · rw [Parser.run_cons, Parser.run_cons, Parser.run_cons, e2, e3, h18, Parser.run_zero r hr]

/-- C2. For every byte string `s` over the bytes `0`-`9`, `-`, `+`, `.`, `e`, `E`, the
run of the parser state table from state 1 over `s` ends in one of the accepting
number states 15, 16, 18, 19, 21, 23 exactly when `s` matches the RFC 8259 number
grammar; and when `s` starts with a zero, or with a minus sign and a zero, followed
by a digit, the run ends in the failure state 0. -/
theorem number_states_accept_grammar (s : List Nat) (hs : ∀ x ∈ s, NumberByte x) :
    (Parser.numberAccepting (Parser.run 1 s) ↔ IsJsonNumber s) ∧
      (∀ d r, (48 ≤ d ∧ d ≤ 57) → (s = 48 :: d :: r ∨ s = 45 :: 48 :: d :: r) →
        Parser.run 1 s = 0) := by
  refine ⟨⟨Parser.lang1 s hs, Parser.run1_number s⟩, ?_⟩
  intro d r hd h
  have hb := numberBytes_bytes hs
  rcases h with rfl | rfl
  · exact (Parser.run1_leading_zero d r hd
      (fun x hx => hb x (List.mem_cons_of_mem _ (List.mem_cons_of_mem _ hx)))).1
  · exact (Parser.run1_leading_zero d r hd
      (fun x hx => hb x (List.mem_cons_of_mem _ (List.mem_cons_of_mem _
        (List.mem_cons_of_mem _ hx))))).2

theorem numberBytes_example1 : ∀ x ∈ [45, 48, 46, 53, 101, 43, 50], NumberByte x := by
  intro x hx
  simp only [List.mem_cons, List.mem_singleton, List.not_mem_nil, or_false] at hx
  unfold NumberByte IsDigit; omega

theorem numberBytes_example2 : ∀ x ∈ [48, 49], NumberByte x := by
  intro x hx
  simp only [List.mem_cons, List.mem_singleton, List.not_mem_nil, or_false] at hx
  unfold NumberByte IsDigit; omega

/-- C2 at the inputs `-0.5e+2` and `01` (scenario E7 of the specification). -/
theorem number_states_accept_grammar_witness :
    ((∀ x ∈ [45, 48, 46, 53, 101, 43, 50], NumberByte x) ∧
      (Parser.numberAccepting (Parser.run 1 [45, 48, 46, 53, 101, 43, 50]) ↔
        IsJsonNumber [45, 48, 46, 53, 101, 43, 50])) ∧
    ((∀ x ∈ [48, 49], NumberByte x) ∧ Parser.run 1 [48, 49] = 0) :=
  ⟨⟨numberBytes_example1,
      (number_states_accept_grammar [45, 48, 46, 53, 101, 43, 50] numberBytes_example1).1⟩,
    ⟨numberBytes_example2,
      (number_states_accept_grammar [48, 49] numberBytes_example2).2 49 [] (by omega)
        (Or.inl rfl)⟩⟩

end GlideJson

namespace GlideJson

/-! ### Whitespace and separators in the parser table -/

/-- The JSON whitespace bytes: tab, line feed, carriage return, space. -/
def IsWhitespace (b : Nat) : Prop := b = 9 ∨ b = 10 ∨ b = 13 ∨ b = 32

/-- The states in which `Parser::incompleteMap` is false. -/
def Parser.accepting (s : Nat) : Prop :=
  s = 5 ∨ s = 10 ∨ s = 14 ∨ s = 15 ∨ s = 16 ∨ s = 18 ∨ s = 19 ∨ s = 21 ∨ s = 23 ∨ s = 27 ∨
    s = 58 ∨ s = 59 ∨ s = 62 ∨ s = 63 ∨ s = 67 ∨ s = 68

theorem Parser.step_eval (s b t : Nat) (hs : s < 69) (hb : b < 256)
    (h : Parser.tableStep s b = t) : Parser.step s b = t := by
  rw [Parser.step_eq_tableStep s hs b hb]; exact h

theorem isWhitespace_lt {b : Nat} (h : IsWhitespace b) : b < 256 := by
  unfold IsWhitespace at h; omega

theorem Parser.incompleteMap_false_iff (s : Nat) (hs : s < 69) :
    Parser.incompleteMap s = false ↔ Parser.accepting s := by
  unfold Parser.accepting
  interval_cases s <;> simp <;> rfl

/-- C3 (fails on the code). The table accepts the empty array `[]` and the empty
object `{}` (the runs from state 1 end in the accepting states 58 and 62), but with
one space after the opening bracket, `[ ]` and `{ }`, both runs end in the failure
state 0: state 57 sends the space to state 1 and state 61 sends it to state 66, and
neither state 1 nor state 66 has a transition for the closing bracket. -/
theorem whitespace_in_empty_container_fails :
    (Parser.run 1 [91, 93] = 58 ∧ Parser.incompleteMap 58 = false ∧
      Parser.run 1 [91, 32, 93] = 0) ∧
    (Parser.run 1 [123, 125] = 62 ∧ Parser.incompleteMap 62 = false ∧
      Parser.run 1 [123, 32, 125] = 0) := by
  have a1 : Parser.step 1 91 = 57 := Parser.step_eval _ _ _ (by decide) (by decide) rfl
  have a2 : Parser.step 57 93 = 58 := Parser.step_eval _ _ _ (by decide) (by decide) rfl
  have a3 : Parser.step 57 32 = 1 := Parser.step_eval _ _ _ (by decide) (by decide) rfl
  have a4 : Parser.step 1 93 = 0 := Parser.step_eval _ _ _ (by decide) (by decide) rfl
  have b1 : Parser.step 1 123 = 61 := Parser.step_eval _ _ _ (by decide) (by decide) rfl
  have b2 : Parser.step 61 125 = 62 := Parser.step_eval _ _ _ (by decide) (by decide) rfl
  have b3 : Parser.step 61 32 = 66 := Parser.step_eval _ _ _ (by decide) (by decide) rfl
  have b4 : Parser.step 66 125 = 0 := Parser.step_eval _ _ _ (by decide) (by decide) rfl
  refine ⟨⟨?_, ?_, ?_⟩, ⟨?_, ?_, ?_⟩⟩
  · rw [Parser.run_cons, Parser.run_cons, Parser.run_nil, a1, a2]
  · exact (Parser.incompleteMap_false_iff 58 (by decide)).2 (by unfold Parser.accepting; omega)
  · rw [Parser.run_cons, Parser.run_cons, Parser.run_cons, Parser.run_nil, a1, a3, a4]
  · rw [Parser.run_cons, Parser.run_cons, Parser.run_nil, b1, b2]
  · exact (Parser.incompleteMap_false_iff 62 (by decide)).2 (by unfold Parser.accepting; omega)
  · rw [Parser.run_cons, Parser.run_cons, Parser.run_cons, Parser.run_nil, b1, b3, b4]

end GlideJson

namespace GlideJson

/-! ### The `\uXXXX` states of the parser table -/

/-- A hexadecimal digit: `0`-`9`, `A`-`F` or `a`-`f`. -/
def IsHexDigit (b : Nat) : Prop :=
  (48 ≤ b ∧ b ≤ 57) ∨ (65 ≤ b ∧ b ≤ 70) ∨ (97 ≤ b ∧ b ≤ 102)

/-- The code point `0xh1h2h3h4` of four hex digits, read through `Parser::hexMap`. -/
def Parser.codePoint (h1 h2 h3 h4 : Nat) : Nat :=
  ((Parser.hexMap h1 * 16 + Parser.hexMap h2) * 16 + Parser.hexMap h3) * 16 + Parser.hexMap h4

/-- The number of bytes of the UTF-8 encoding of a code point below `0x10000`
(RFC 3629). -/
def utf8Length (c : Nat) : Nat := if c < 0x80 then 1 else if c < 0x800 then 2 else 3

theorem isHexDigit_lt {b : Nat} (h : IsHexDigit b) : b < 256 := by
  unfold IsHexDigit at h; omega

theorem Parser.hexMap_lt (b : Nat) (h : IsHexDigit b) : Parser.hexMap b < 16 := by
  unfold IsHexDigit at h
  rcases h with ⟨h1, h2⟩ | ⟨h1, h2⟩ | ⟨h1, h2⟩ <;> interval_cases b <;> decide

theorem Parser.step37_hex (b : Nat) (h : IsHexDigit b) :
    Parser.step 37 b = if Parser.hexMap b = 0 then 38 else 39 := by
  rw [Parser.step_eq_tableStep 37 (by decide) b (isHexDigit_lt h)]
  unfold IsHexDigit at h
  rcases h with ⟨h1, h2⟩ | ⟨h1, h2⟩ | ⟨h1, h2⟩ <;> interval_cases b <;> rfl

theorem Parser.step38_hex (b : Nat) (h : IsHexDigit b) :
    Parser.step 38 b =
      if Parser.hexMap b = 0 then 42 else if Parser.hexMap b ≤ 7 then 41 else 40 := by
  rw [Parser.step_eq_tableStep 38 (by decide) b (isHexDigit_lt h)]
  unfold IsHexDigit at h
  rcases h with ⟨h1, h2⟩ | ⟨h1, h2⟩ | ⟨h1, h2⟩ <;> interval_cases b <;> rfl

theorem Parser.step42_hex (b : Nat) (h : IsHexDigit b) :
    Parser.step 42 b = if Parser.hexMap b ≤ 7 then 44 else 43 := by
  rw [Parser.step_eq_tableStep 42 (by decide) b (isHexDigit_lt h)]
  unfold IsHexDigit at h
  rcases h with ⟨h1, h2⟩ | ⟨h1, h2⟩ | ⟨h1, h2⟩ <;> interval_cases b <;> rfl

/-- The states 39, 40, 41, 43, 44, 45 send every hex digit to one state. -/
theorem Parser.step_hex_fixed (b : Nat) (h : IsHexDigit b) :
    Parser.step 39 b = 40 ∧ Parser.step 40 b = 45 ∧ Parser.step 41 b = 43 ∧
      Parser.step 43 b = 47 ∧ Parser.step 44 b = 46 ∧ Parser.step 45 b = 48 := by
  rw [Parser.step_eq_tableStep 39 (by decide) b (isHexDigit_lt h),
    Parser.step_eq_tableStep 40 (by decide) b (isHexDigit_lt h),
    Parser.step_eq_tableStep 41 (by decide) b (isHexDigit_lt h),
    Parser.step_eq_tableStep 43 (by decide) b (isHexDigit_lt h),
    Parser.step_eq_tableStep 44 (by decide) b (isHexDigit_lt h),
    Parser.step_eq_tableStep 45 (by decide) b (isHexDigit_lt h)]
  unfold IsHexDigit at h
  rcases h with ⟨h1, h2⟩ | ⟨h1, h2⟩ | ⟨h1, h2⟩ <;> interval_cases b <;> decide

theorem Parser.run26_escape_u (l : List Nat) :
    Parser.run 26 (92 :: 117 :: l) = Parser.run 37 l := by
  rw [Parser.run_cons, Parser.run_cons,
    Parser.step_eval 26 92 28 (by decide) (by decide) rfl,
    Parser.step_eval 28 117 37 (by decide) (by decide) rfl]

/-- C20. For every four hex digits `h1 h2 h3 h4` with code point `c = 0xh1h2h3h4`, the
run of the parser table from the string-body state 26 over backslash, `u`, `h1`, `h2`,
`h3`, `h4` ends in state 46 if `c < 0x80`, in state 47 if `0x80 ≤ c < 0x800` and in
state 48 if `c ≥ 0x800`: the final state is 45 plus the number of bytes of the UTF-8
encoding of `c`. -/
theorem unicode_escape_final_state (h1 h2 h3 h4 : Nat)
    (x1 : IsHexDigit h1) (x2 : IsHexDigit h2) (x3 : IsHexDigit h3) (x4 : IsHexDigit h4) :
    Parser.run 26 [92, 117, h1, h2, h3, h4] =
        (if Parser.codePoint h1 h2 h3 h4 < 0x80 then 46
          else if Parser.codePoint h1 h2 h3 h4 < 0x800 then 47 else 48) ∧
      Parser.run 26 [92, 117, h1, h2, h3, h4] = 45 + utf8Length (Parser.codePoint h1 h2 h3 h4) := by
  have v1 := Parser.hexMap_lt h1 x1
  have v2 := Parser.hexMap_lt h2 x2
  have v3 := Parser.hexMap_lt h3 x3
  have v4 := Parser.hexMap_lt h4 x4
  have key : Parser.run 26 [92, 117, h1, h2, h3, h4] =
      (if Parser.codePoint h1 h2 h3 h4 < 0x80 then 46
        else if Parser.codePoint h1 h2 h3 h4 < 0x800 then 47 else 48) := by
    rw [Parser.run26_escape_u, Parser.run_cons, Parser.run_cons, Parser.run_cons,
      Parser.run_cons, Parser.run_nil, Parser.step37_hex h1 x1]
    unfold Parser.codePoint
    by_cases e1 : Parser.hexMap h1 = 0
    · rw [if_pos e1, Parser.step38_hex h2 x2]
      by_cases e2 : Parser.hexMap h2 = 0
      · rw [if_pos e2, Parser.step42_hex h3 x3]
        by_cases e3 : Parser.hexMap h3 ≤ 7
        · rw [if_pos e3, (Parser.step_hex_fixed h4 x4).2.2.2.2.1, if_pos (by omega)]
        · rw [if_neg e3, (Parser.step_hex_fixed h4 x4).2.2.2.1, if_neg (by omega),
            if_pos (by omega)]
      · rw [if_neg e2]
        by_cases e3 : Parser.hexMap h2 ≤ 7
        · rw [if_pos e3, (Parser.step_hex_fixed h3 x3).2.2.1,
            (Parser.step_hex_fixed h4 x4).2.2.2.1, if_neg (by omega), if_pos (by omega)]
        · rw [if_neg e3, (Parser.step_hex_fixed h3 x3).2.1,
            (Parser.step_hex_fixed h4 x4).2.2.2.2.2, if_neg (by omega), if_neg (by omega)]
    · rw [if_neg e1, (Parser.step_hex_fixed h2 x2).1, (Parser.step_hex_fixed h3 x3).2.1,
        (Parser.step_hex_fixed h4 x4).2.2.2.2.2, if_neg (by omega), if_neg (by omega)]
  refine ⟨key, ?_⟩
  rw [key]; unfold utf8Length
  split_ifs <;> rfl

/-- C20 at the escape `é` (scenario E3 of the specification): two bytes. -/
theorem unicode_escape_final_state_witness :
    (IsHexDigit 48 ∧ IsHexDigit 101 ∧ IsHexDigit 57) ∧
      Parser.run 26 [92, 117, 48, 48, 101, 57] = 45 + utf8Length (Parser.codePoint 48 48 101 57) :=
  ⟨⟨by unfold IsHexDigit; omega, by unfold IsHexDigit; omega, by unfold IsHexDigit; omega⟩,
    (unicode_escape_final_state 48 48 101 57 (by unfold IsHexDigit; omega)
      (by unfold IsHexDigit; omega) (by unfold IsHexDigit; omega)
      (by unfold IsHexDigit; omega)).2⟩

end GlideJson

namespace GlideJson

/-! ### `GlideMap`: the ordered map of the header

`std::map` is embedded as an association list kept in ascending key order.  A
`GlideItem<T2>` is a reference-counted pointer to a heap object: it is embedded as the
address of the object in a heap of values (reference counts only decide when an object
is freed and are not embedded; addresses are never reused).  Keys are never written
through, so a `GlideSortItem<T1>` is embedded as the key itself. -/

/-- The number of values of `size_t` (64 bits). -/
def SIZE_MODULUS : Nat := 2 ^ 64

/-- The heap of the `T2` objects that the `GlideItem<T2>` handles point to. -/
abbrev Heap (V : Type) := List V

namespace Heap

/-- `GlideItem::value()` read: the object at address `h`. -/
def read {V : Type} [Inhabited V] (heap : Heap V) (h : Nat) : V := heap.getD h default

/-- A write through the reference that `GlideItem::value()` returns. -/
def write {V : Type} (heap : Heap V) (h : Nat) (v : V) : Heap V := heap.set h v

end Heap

namespace StdMap

variable {κ : Type} {α : Type} [LinearOrder κ]

/-- `std::map::find` / `at` / `count`: the mapped value of `k`, if any. -/
def find (k : κ) : List (κ × α) → Option α
  | [] => none
  | (k', x) :: r => if k = k' then some x else find k r

/-- The effect of `m[k] = x` on a `std::map`: insert in key order, or overwrite. -/
def insert (k : κ) (x : α) : List (κ × α) → List (κ × α)
  | [] => [(k, x)]
  | (k', x') :: r =>
    if k < k' then (k, x) :: (k', x') :: r
    else if k' < k then (k', x') :: insert k x r
    else (k, x) :: r

/-- `std::map::erase(key)`. -/
def erase (k : κ) : List (κ × α) → List (κ × α)
  | [] => []
  | (k', x') :: r => if k = k' then erase k r else (k', x') :: erase k r

/-- The keys in iteration order. -/
def keys (m : List (κ × α)) : List κ := m.map Prod.fst

/-- The representation invariant of `std::map`: strictly ascending keys. -/
def Ordered (m : List (κ × α)) : Prop := (keys m).Pairwise (· < ·)

end StdMap

/-- The state of a `GlideMap<T1, T2>`: `keyMap` maps a key to its position id and the
address of its value, `positionMap` maps a position id to the key and the same
address. -/
structure GlideMap (K : Type) where
  keyMap : List (K × (Nat × Nat))
  positionMap : List (Nat × (K × Nat))
  counter : Nat
deriving DecidableEq

namespace GlideMap

variable {K : Type} [LinearOrder K]

/-- `GlideMap::GlideMap()`. -/
def empty : GlideMap K := { keyMap := [], positionMap := [], counter := 0 }

/-- `GlideMap::size()`. -/
def size (m : GlideMap K) : Nat := m.keyMap.length

/-- `GlideMap::count(key)`. -/
def count (m : GlideMap K) (key : K) : Nat :=
  match StdMap.find key m.keyMap with
  | some _ => 1
  | none => 0

/-- `GlideMap::empty()`. -/
def isEmpty (m : GlideMap K) : Bool := m.keyMap.isEmpty

/-- `GlideMap::at(key)`: the address of the value (the reference returned), or `none`
when `std::map::at` throws. -/
def atRef (m : GlideMap K) (key : K) : Option Nat :=
  (StdMap.find key m.keyMap).map (fun pair => pair.2)

/-- The value that `at(key)` refers to in the heap. -/
def atValue {V : Type} [Inhabited V] (m : GlideMap K) (heap : Heap V) (key : K) : Option V :=
  (m.atRef key).map heap.read

/-- `GlideMap::operator[](key)`.  `keyMap[newItemKey]` inserts a value-initialised pair
(position id 0 and a `GlideItem` holding a new default `T2`) when the key is absent;
a pair with position id 0 then gets `++counter` and an entry in `positionMap`, any
other pair has its `GlideItem` stored again at its position.  The result is the new
map, the new heap and the address that the returned reference points to. -/
def operatorIndex {V : Type} [Inhabited V] [Inhabited K] (m : GlideMap K) (heap : Heap V)
    (key : K) : GlideMap K × Heap V × Nat :=
  let found := StdMap.find key m.keyMap
  let pair : Nat × Nat := found.getD (0, heap.length)
  let keyMap1 := if found.isSome then m.keyMap else StdMap.insert key pair m.keyMap
  let heap1 := if found.isSome then heap else heap ++ [default]
  if pair.1 = 0 then
    let c := (m.counter + 1) % SIZE_MODULUS
    ({ keyMap := StdMap.insert key (c, pair.2) keyMap1,
       positionMap := StdMap.insert c (key, pair.2) m.positionMap,
       counter := c }, heap1, pair.2)
  else
    let k1 : K := ((StdMap.find pair.1 m.positionMap).map (fun e => e.1)).getD default
    ({ keyMap := keyMap1,
       positionMap := StdMap.insert pair.1 (k1, pair.2) m.positionMap,
       counter := m.counter }, heap1, pair.2)

/-- `GlideMap::erase(key)`: the new map and the returned count. -/
def erase (m : GlideMap K) (key : K) : GlideMap K × Nat :=
  match StdMap.find key m.keyMap with
  | some pair =>
    ({ keyMap := StdMap.erase key m.keyMap,
       positionMap := StdMap.erase pair.1 m.positionMap,
       counter := m.counter }, 1)
  | none => (m, 0)

/-- `GlideMap::clear()`. -/
def clear (_m : GlideMap K) : GlideMap K := { keyMap := [], positionMap := [], counter := 0 }

/-- The loop of `sort()` and `rsort()` over the entries of `keyMap` in the order given:
`positionMap[++counter] = (key, item)` and the entry gets the new position id.  The
result is the list of rewritten entries with the final `positionMap` and `counter`. -/
def sortLoop : List (K × (Nat × Nat)) → List (Nat × (K × Nat)) → Nat →
    List (K × (Nat × Nat)) × List (Nat × (K × Nat)) × Nat
  | [], pm, c => ([], pm, c)
  | (k, (_, h)) :: r, pm, c =>
    let c1 := (c + 1) % SIZE_MODULUS
    let rest := sortLoop r (StdMap.insert c1 (k, h) pm) c1
    ((k, (c1, h)) :: rest.1, rest.2.1, rest.2.2)

/-- `GlideMap::sort()`. -/
def sort (m : GlideMap K) : GlideMap K :=
  let out := sortLoop m.keyMap [] 0
  { keyMap := out.1, positionMap := out.2.1, counter := out.2.2 }

/-- `GlideMap::rsort()`: the same loop from `keyMap.rbegin()` to `keyMap.rend()`; the
entries are rewritten in place, so `keyMap` keeps its key order. -/
def rsort (m : GlideMap K) : GlideMap K :=
  let out := sortLoop m.keyMap.reverse [] 0
  { keyMap := out.1.reverse, positionMap := out.2.1, counter := out.2.2 }

/-- Forward iteration `begin()` to `end()`: `index()`, `key()` and the address of
`value()` of each entry of `positionMap`. -/
def iterate (m : GlideMap K) : List (Nat × (K × Nat)) := m.positionMap

/-- Reverse iteration `rbegin()` to `rend()`. -/
def riterate (m : GlideMap K) : List (Nat × (K × Nat)) := m.positionMap.reverse

/-- The keys met by forward iteration. -/
def keysInOrder (m : GlideMap K) : List K := m.iterate.map (fun e => e.2.1)

/-- The position ids met by forward iteration. -/
def indices (m : GlideMap K) : List Nat := m.iterate.map (fun e => e.1)

/-- `GlideMap::find(key)`: `none` when `keyMap.at` throws, otherwise the entry the
iterator `positionMap.find(...)` stands at (`none` inside for `end()`). -/
def find (m : GlideMap K) (key : K) : Option (Option (Nat × (K × Nat))) :=
  (StdMap.find key m.keyMap).map (fun pair =>
    (StdMap.find pair.1 m.positionMap).map (fun e => (pair.1, e)))

/-- The map after `operator[]` has been applied to each key of a list in turn. -/
def insertAll {V : Type} [Inhabited V] [Inhabited K] :
    List K → GlideMap K × Heap V → GlideMap K × Heap V
  | [], s => s
  | k :: r, s =>
    let out := operatorIndex s.1 s.2 k
    insertAll r (out.1, out.2.1)

end GlideMap

end GlideJson

namespace GlideJson

namespace StdMap

variable {κ : Type} {α : Type} [LinearOrder κ]

theorem find_nil (k : κ) : find k ([] : List (κ × α)) = none := rfl

theorem find_cons (k k' : κ) (x : α) (r : List (κ × α)) :
    find k ((k', x) :: r) = if k = k' then some x else find k r := rfl

theorem find_insert (k k' : κ) (x : α) (m : List (κ × α)) :
    find k' (insert k x m) = if k' = k then some x else find k' m := by
  induction m with
  | nil => simp [insert, find]
  | cons e r ih =>
    obtain ⟨k0, x0⟩ := e
    unfold insert
    by_cases h1 : k < k0
    · simp only [if_pos h1, find_cons]
    · simp only [if_neg h1]
      by_cases h2 : k0 < k
      · simp only [if_pos h2, find_cons, ih]
        by_cases e1 : k' = k0
        · have : k' ≠ k := by rw [e1]; exact ne_of_lt h2
          simp [e1, ne_of_lt h2]
        · simp [e1]
      · have e0 : k = k0 := le_antisymm (not_lt.1 h2) (not_lt.1 h1)
        simp only [if_neg h2, find_cons]
        subst e0
        by_cases e1 : k' = k <;> simp [e1]

theorem find_erase (k k' : κ) (m : List (κ × α)) :
    find k' (erase k m) = if k' = k then none else find k' m := by
  induction m with
  | nil => simp [erase, find]
  | cons e r ih =>
    obtain ⟨k0, x0⟩ := e
    unfold erase
    by_cases h : k = k0
    · subst h
      simp only [if_true, ih, find_cons]
      by_cases e1 : k' = k <;> simp [e1]
    · simp only [if_neg h, find_cons, ih]
      by_cases e1 : k' = k0
      · have : k0 ≠ k := fun e => h e.symm
        simp [e1, this]
      · simp [e1]

theorem find_eq_none_iff (k : κ) (m : List (κ × α)) : find k m = none ↔ k ∉ keys m := by
  induction m with
  | nil => simp [find, keys]
  | cons e r ih =>
    obtain ⟨k0, x0⟩ := e
    rw [find_cons]
    by_cases h : k = k0
    · simp [h, keys]
    · simp only [if_neg h, ih, keys, List.map_cons, List.mem_cons, not_or]
      exact ⟨fun h2 => ⟨h, h2⟩, fun h2 => h2.2⟩

theorem mem_of_find {k : κ} {x : α} {m : List (κ × α)} (h : find k m = some x) :
    (k, x) ∈ m := by
  induction m with
  | nil => simp [find] at h
  | cons e r ih =>
    obtain ⟨k0, x0⟩ := e
    rw [find_cons] at h
    by_cases e0 : k = k0
    · rw [if_pos e0] at h
      cases h; subst e0; exact List.mem_cons_self _ _
    · rw [if_neg e0] at h
      exact List.mem_cons_of_mem _ (ih h)

theorem mem_keys_of_find {k : κ} {x : α} {m : List (κ × α)} (h : find k m = some x) :
    k ∈ keys m :=
  List.mem_map.2 ⟨(k, x), mem_of_find h, rfl⟩

theorem ordered_nil : Ordered ([] : List (κ × α)) := List.Pairwise.nil

theorem ordered_cons {e : κ × α} {r : List (κ × α)} :
    Ordered (e :: r) ↔ (∀ a ∈ keys r, e.1 < a) ∧ Ordered r := by
  unfold Ordered keys
  rw [List.map_cons, List.pairwise_cons]

theorem find_of_mem {k : κ} {x : α} {m : List (κ × α)} (ho : Ordered m) (h : (k, x) ∈ m) :
    find k m = some x := by
  induction m with
  | nil => cases h
  | cons e r ih =>
    obtain ⟨k0, x0⟩ := e
    rw [ordered_cons] at ho
    rw [find_cons]
    rcases List.mem_cons.1 h with e1 | h1
    · cases e1; simp
    · have hk : k ∈ keys r := List.mem_map.2 ⟨(k, x), h1, rfl⟩
      have : k ≠ k0 := fun e => (lt_irrefl k0) (by simpa [e] using ho.1 k hk)
      rw [if_neg this]
      exact ih ho.2 h1

theorem find_eq_some_iff {k : κ} {x : α} {m : List (κ × α)} (ho : Ordered m) :
    find k m = some x ↔ (k, x) ∈ m :=
  ⟨mem_of_find, find_of_mem ho⟩

theorem mem_keys_insert (a k : κ) (x : α) (m : List (κ × α)) :
    a ∈ keys (insert k x m) ↔ a = k ∨ a ∈ keys m := by
  constructor
  · intro h
    by_cases e : a = k
    · exact Or.inl e
    · right
      by_contra hn
      have h1 := (find_eq_none_iff a m).2 hn
      have h2 : find a (insert k x m) = none := by rw [find_insert, if_neg e, h1]
      exact (find_eq_none_iff a _).1 h2 h
  · intro h
    by_contra hn
    have h2 := (find_eq_none_iff a _).2 hn
    rw [find_insert] at h2
    by_cases e : a = k
    · rw [if_pos e] at h2; cases h2
    · rw [if_neg e] at h2
      rcases h with h | h
      · exact e h
      · exact (find_eq_none_iff a m).1 h2 h

theorem ordered_insert (k : κ) (x : α) {m : List (κ × α)} (ho : Ordered m) :
    Ordered (insert k x m) := by
  induction m with
  | nil => simp [insert, Ordered, keys]
  | cons e r ih =>
    obtain ⟨k0, x0⟩ := e
    have ho2 := ordered_cons.1 ho
    unfold insert
    by_cases h1 : k < k0
    · rw [if_pos h1, ordered_cons]
      refine ⟨?_, ho⟩
      intro a ha
      rcases List.mem_cons.1 ha with e1 | h2
      · rw [e1]; exact h1
      · exact lt_trans h1 (ho2.1 a h2)
    · rw [if_neg h1]
      by_cases h2 : k0 < k
      · rw [if_pos h2, ordered_cons]
        refine ⟨?_, ih ho2.2⟩
        intro a ha
        rcases (mem_keys_insert a k x r).1 ha with e1 | h3
        · rw [e1]; exact h2
        · exact ho2.1 a h3
      · have e0 : k = k0 := le_antisymm (not_lt.1 h2) (not_lt.1 h1)
        rw [if_neg h2, ordered_cons]
        subst e0
        exact ⟨ho2.1, ho2.2⟩

theorem erase_eq_filter (k : κ) (m : List (κ × α)) :
    erase k m = m.filter (fun e => decide (e.1 ≠ k)) := by
  induction m with
  | nil => rfl
  | cons e r ih =>
    obtain ⟨k0, x0⟩ := e
    unfold erase
    by_cases h : k = k0
    · subst h; simp [ih]
    · have : k0 ≠ k := fun e => h e.symm
      simp [h, this, ih]

theorem ordered_erase (k : κ) {m : List (κ × α)} (ho : Ordered m) : Ordered (erase k m) := by
  unfold Ordered keys at *
  rw [erase_eq_filter]
  exact List.Pairwise.sublist (List.Sublist.map _ (List.filter_sublist _)) ho

theorem insert_of_all_lt (k : κ) (x : α) (m : List (κ × α)) (h : ∀ a ∈ keys m, a < k) :
    insert k x m = m ++ [(k, x)] := by
  induction m with
  | nil => rfl
  | cons e r ih =>
    obtain ⟨k0, x0⟩ := e
    have h0 : k0 < k := h k0 (by simp [keys])
    unfold insert
    rw [if_neg (not_lt_of_lt h0), if_pos h0, ih (fun a ha => h a (by
      simp only [keys, List.map_cons, List.mem_cons]; exact Or.inr ha))]
    rfl

theorem insert_of_all_gt (k : κ) (x : α) (m : List (κ × α)) (h : ∀ a ∈ keys m, k < a) :
    insert k x m = (k, x) :: m := by
  cases m with
  | nil => rfl
  | cons e r =>
    obtain ⟨k0, x0⟩ := e
    have h0 : k < k0 := h k0 (by simp [keys])
    unfold insert
    rw [if_pos h0]

theorem insert_of_find (k : κ) (x : α) {m : List (κ × α)} (ho : Ordered m)
    (h : find k m = some x) : insert k x m = m := by
  induction m with
  | nil => simp [find] at h
  | cons e r ih =>
    obtain ⟨k0, x0⟩ := e
    have ho2 := ordered_cons.1 ho
    rw [find_cons] at h
    unfold insert
    by_cases e0 : k = k0
    · subst e0
      rw [if_pos rfl] at h
      cases h
      rw [if_neg (lt_irrefl _), if_neg (lt_irrefl _)]
    · rw [if_neg e0] at h
      have hk : k0 < k := ho2.1 k (mem_keys_of_find h)
      rw [if_neg (not_lt_of_lt hk), if_pos hk, ih ho2.2 h]

theorem insert_insert (k : κ) (x y : α) (m : List (κ × α)) :
    insert k x (insert k y m) = insert k x m := by
  induction m with
  | nil => simp [insert]
  | cons e r ih =>
    obtain ⟨k0, x0⟩ := e
    by_cases h1 : k < k0
    · simp [insert, h1]
    · by_cases h2 : k0 < k
      · simp [insert, h1, h2, ih]
      · simp [insert, h1, h2]

theorem erase_of_not_mem (k : κ) (m : List (κ × α)) (h : k ∉ keys m) : erase k m = m := by
  rw [erase_eq_filter, List.filter_eq_self]
  intro e he
  have : e.1 ≠ k := fun e1 => h (List.mem_map.2 ⟨e, he, e1⟩)
  simpa using this

theorem not_mem_keys_erase (k : κ) (m : List (κ × α)) : k ∉ keys (erase k m) := by
  rw [← find_eq_none_iff, find_erase, if_pos rfl]

theorem length_insert_of_not_mem (k : κ) (x : α) (m : List (κ × α)) (h : k ∉ keys m) :
    (insert k x m).length = m.length + 1 := by
  induction m with
  | nil => rfl
  | cons e r ih =>
    obtain ⟨k0, x0⟩ := e
    have hne : k ≠ k0 := fun e => h (by simp [keys, e])
    have hr : k ∉ keys r := fun hm => h (by
      simp only [keys, List.map_cons, List.mem_cons]; exact Or.inr hm)
    unfold insert
    by_cases h1 : k < k0
    · rw [if_pos h1]; rfl
    · rw [if_neg h1]
      have h2 : k0 < k := lt_of_le_of_ne (not_lt.1 h1) (fun e => hne e.symm)
      rw [if_pos h2, List.length_cons, ih hr]
      rfl

theorem length_erase_of_find {k : κ} {x : α} {m : List (κ × α)} (ho : Ordered m)
    (h : find k m = some x) : (erase k m).length + 1 = m.length := by
  induction m with
  | nil => simp [find] at h
  | cons e r ih =>
    obtain ⟨k0, x0⟩ := e
    have ho2 := ordered_cons.1 ho
    rw [find_cons] at h
    unfold erase
    by_cases e0 : k = k0
    · subst e0
      rw [if_pos rfl, erase_of_not_mem k r (fun hm => lt_irrefl k (ho2.1 k hm))]
      rfl
    · rw [if_neg e0] at h
      rw [if_neg e0, List.length_cons, ih ho2.2 h]
      rfl

end StdMap

end GlideJson

namespace GlideJson

namespace GlideMap

variable {K : Type} [LinearOrder K]

/-- The representation invariant of a `GlideMap` whose values live in a heap of `n`
objects: both maps are ordered, they are coupled entry by entry, the position ids lie
between 1 and the counter, and distinct keys hold distinct addresses below `n`. -/
structure WF (m : GlideMap K) (n : Nat) : Prop where
  keyOrdered : StdMap.Ordered m.keyMap
  posOrdered : StdMap.Ordered m.positionMap
  coupled : ∀ k p h, StdMap.find k m.keyMap = some (p, h) ↔
    StdMap.find p m.positionMap = some (k, h)
  idRange : ∀ p ∈ StdMap.keys m.positionMap, 1 ≤ p ∧ p ≤ m.counter
  counterLt : m.counter < SIZE_MODULUS
  handleLt : ∀ k p h, StdMap.find k m.keyMap = some (p, h) → h < n
  handleInj : ∀ k k' p p' h, StdMap.find k m.keyMap = some (p, h) →
    StdMap.find k' m.keyMap = some (p', h) → k = k'

theorem wf_empty (n : Nat) : WF (empty : GlideMap K) n where
  keyOrdered := StdMap.ordered_nil
  posOrdered := StdMap.ordered_nil
  coupled := by intro k p h; simp [empty, StdMap.find]
  idRange := by intro p hp; simp [empty, StdMap.keys] at hp
  counterLt := by simp [empty, SIZE_MODULUS]
  handleLt := by intro k p h hf; simp [empty, StdMap.find] at hf
  handleInj := by intro k k' p p' h hf; simp [empty, StdMap.find] at hf

theorem wf_mono {m : GlideMap K} {n n' : Nat} (h : WF m n) (hn : n ≤ n') : WF m n' :=
  { h with handleLt := fun k p a hf => lt_of_lt_of_le (h.handleLt k p a hf) hn }

theorem WF.id_pos {m : GlideMap K} {n : Nat} (hw : WF m n) {k : K} {p h : Nat}
    (hf : StdMap.find k m.keyMap = some (p, h)) : 1 ≤ p ∧ p ≤ m.counter :=
  hw.idRange p (StdMap.mem_keys_of_find ((hw.coupled k p h).1 hf))

/-- `operator[]` on a key that is present changes nothing and returns the address the
key holds. -/
theorem operatorIndex_present {V : Type} [Inhabited V] [Inhabited K] {m : GlideMap K}
    (heap : Heap V) {n : Nat} (hw : WF m n) {key : K} {p h : Nat}
    (hf : StdMap.find key m.keyMap = some (p, h)) :
    operatorIndex m heap key = (m, heap, h) := by
  have hp := hw.id_pos hf
  have hpos := (hw.coupled key p h).1 hf
  have hne : ¬ p = 0 := by omega
  unfold operatorIndex
  simp only [hf, Option.getD_some, Option.isSome_some, if_true, if_neg hne, hpos,
    Option.map_some']
  rw [StdMap.insert_of_find p (key, h) hw.posOrdered hpos]

/-- `operator[]` on a key that is absent: a new default object, the next counter value
as position id, and one new entry in each map. -/
theorem operatorIndex_absent {V : Type} [Inhabited V] [Inhabited K] (m : GlideMap K)
    (heap : Heap V) {key : K} (hf : StdMap.find key m.keyMap = none) :
    operatorIndex m heap key =
      ({ keyMap := StdMap.insert key ((m.counter + 1) % SIZE_MODULUS, heap.length) m.keyMap,
         positionMap := StdMap.insert ((m.counter + 1) % SIZE_MODULUS) (key, heap.length)
           m.positionMap,
         counter := (m.counter + 1) % SIZE_MODULUS }, heap ++ [default], heap.length) := by
  unfold operatorIndex
  simp [hf, StdMap.insert_insert]

theorem wf_insert_new {m : GlideMap K} {n : Nat} (hw : WF m n) {key : K}
    (hf : StdMap.find key m.keyMap = none) (hc : m.counter + 1 < SIZE_MODULUS) :
    WF ({ keyMap := StdMap.insert key (m.counter + 1, n) m.keyMap,
          positionMap := StdMap.insert (m.counter + 1) (key, n) m.positionMap,
          counter := m.counter + 1 } : GlideMap K) (n + 1) where
  keyOrdered := StdMap.ordered_insert _ _ hw.keyOrdered
  posOrdered := StdMap.ordered_insert _ _ hw.posOrdered
  coupled := by
    intro k p h
    have hfresh : StdMap.find (m.counter + 1) m.positionMap = none := by
      rw [StdMap.find_eq_none_iff]
      intro hm
      have := hw.idRange _ hm
      omega
    simp only [StdMap.find_insert]
    by_cases e1 : k = key
    · subst e1
      by_cases e2 : p = m.counter + 1
      · subst e2; simp
      · rw [if_pos rfl, if_neg e2]
        constructor
        · intro h1; cases h1; exact absurd rfl e2
        · intro h1
          have := (hw.coupled k p h).2 h1
          rw [hf] at this; cases this
    · rw [if_neg e1]
      by_cases e2 : p = m.counter + 1
      · subst e2
        rw [if_pos rfl]
        constructor
        · intro h1
          have := (hw.coupled k _ h).1 h1
          rw [hfresh] at this; cases this
        · intro h1; cases h1; exact absurd rfl e1
      · rw [if_neg e2]; exact hw.coupled k p h
  idRange := by
    intro p hp
    rcases (StdMap.mem_keys_insert p _ _ _).1 hp with e | h1
    · simp only [e]; omega
    · have := hw.idRange p h1
      simp only; omega
  counterLt := hc
  handleLt := by
    intro k p h h1
    rw [StdMap.find_insert] at h1
    by_cases e1 : k = key
    · rw [if_pos e1] at h1; cases h1; omega
    · rw [if_neg e1] at h1
      have := hw.handleLt k p h h1; omega
  handleInj := by
    intro k k' p p' h h1 h2
    simp only [StdMap.find_insert] at h1 h2
    by_cases e1 : k = key
    · by_cases e2 : k' = key
      · rw [e1, e2]
      · rw [if_pos e1] at h1; rw [if_neg e2] at h2
        cases h1
        have := hw.handleLt k' p' _ h2; omega
    · rw [if_neg e1] at h1
      by_cases e2 : k' = key
      · rw [if_pos e2] at h2; cases h2
        have := hw.handleLt k p _ h1; omega
      · rw [if_neg e2] at h2
        exact hw.handleInj k k' p p' h h1 h2

/-- `operator[]` keeps the invariant as long as the counter does not wrap around. -/
theorem wf_operatorIndex {V : Type} [Inhabited V] [Inhabited K] {m : GlideMap K}
    (heap : Heap V) (hw : WF m heap.length) (key : K)
    (hc : m.counter + 1 < SIZE_MODULUS) :
    WF (operatorIndex m heap key).1 (operatorIndex m heap key).2.1.length := by
  cases hf : StdMap.find key m.keyMap with
  | some pair =>
    obtain ⟨p, h⟩ := pair
    rw [operatorIndex_present heap hw hf]
    exact hw
  | none =>
    rw [operatorIndex_absent m heap hf, Nat.mod_eq_of_lt hc]
    simp only [List.length_append, List.length_singleton]
    exact wf_insert_new hw hf hc

theorem erase_present {m : GlideMap K} {key : K} {p h : Nat}
    (hf : StdMap.find key m.keyMap = some (p, h)) :
    m.erase key = ({ keyMap := StdMap.erase key m.keyMap,
                     positionMap := StdMap.erase p m.positionMap,
                     counter := m.counter }, 1) := by
  unfold erase; rw [hf]

theorem erase_absent {m : GlideMap K} {key : K} (hf : StdMap.find key m.keyMap = none) :
    m.erase key = (m, 0) := by
  unfold erase; rw [hf]

theorem wf_erase {m : GlideMap K} {n : Nat} (hw : WF m n) (key : K) :
    WF (m.erase key).1 n := by
  cases hf : StdMap.find key m.keyMap with
  | none => rw [erase_absent hf]; exact hw
  | some pair =>
    obtain ⟨p0, h0⟩ := pair
    rw [erase_present hf]
    have hpos0 := (hw.coupled key p0 h0).1 hf
    exact {
      keyOrdered := StdMap.ordered_erase _ hw.keyOrdered
      posOrdered := StdMap.ordered_erase _ hw.posOrdered
      coupled := by
        intro k p h
        simp only [StdMap.find_erase]
        by_cases e1 : k = key
        · subst e1
          rw [if_pos rfl]
          by_cases e2 : p = p0
          · rw [if_pos e2]; simp
          · rw [if_neg e2]
            constructor
            · intro h1; cases h1
            · intro h1
              have := (hw.coupled k p h).2 h1
              rw [hf] at this; cases this; exact absurd rfl e2
        · rw [if_neg e1]
          by_cases e2 : p = p0
          · subst e2
            rw [if_pos rfl]
            constructor
            · intro h1
              have := (hw.coupled k p h).1 h1
              rw [hpos0] at this; cases this; exact absurd rfl e1
            · intro h1; cases h1
          · rw [if_neg e2]; exact hw.coupled k p h
      idRange := by
        intro p hp
        apply hw.idRange p
        have hp1 : p ∈ StdMap.keys (StdMap.erase p0 m.positionMap) := hp
        rw [StdMap.erase_eq_filter] at hp1
        obtain ⟨e, he, rfl⟩ := List.mem_map.1 hp1
        exact List.mem_map.2 ⟨e, (List.mem_filter.1 he).1, rfl⟩
      counterLt := hw.counterLt
      handleLt := by
        intro k p h h1
        rw [StdMap.find_erase] at h1
        by_cases e1 : k = key
        · rw [if_pos e1] at h1; cases h1
        · rw [if_neg e1] at h1; exact hw.handleLt k p h h1
      handleInj := by
        intro k k' p p' h h1 h2
        rw [StdMap.find_erase] at h1 h2
        by_cases e1 : k = key
        · rw [if_pos e1] at h1; cases h1
        · by_cases e2 : k' = key
          · rw [if_pos e2] at h2; cases h2
          · rw [if_neg e1] at h1; rw [if_neg e2] at h2
            exact hw.handleInj k k' p p' h h1 h2 }

theorem wf_clear (m : GlideMap K) (n : Nat) : WF m.clear n := wf_empty n

end GlideMap

end GlideJson

namespace GlideJson

set_option linter.unusedSectionVars false

namespace GlideMap

variable {K : Type} [LinearOrder K]

/-- The entries of `keyMap` after the loop of `sort()` has given them the position ids
`c + 1`, `c + 2`, ... in the order of the list. -/
def renumber : List (K × (Nat × Nat)) → Nat → List (K × (Nat × Nat))
  | [], _ => []
  | (k, (_, h)) :: r, c => (k, (c + 1, h)) :: renumber r (c + 1)

/-- The entries that the loop of `sort()` adds to `positionMap`. -/
def positions : List (K × (Nat × Nat)) → Nat → List (Nat × (K × Nat))
  | [], _ => []
  | (k, (_, h)) :: r, c => (c + 1, (k, h)) :: positions r (c + 1)

theorem sortLoop_eq : ∀ (l : List (K × (Nat × Nat))) (pm : List (Nat × (K × Nat))) (c : Nat),
    (∀ p ∈ StdMap.keys pm, p ≤ c) → c + l.length < SIZE_MODULUS →
    sortLoop l pm c = (renumber l c, pm ++ positions l c, c + l.length) := by
  intro l
  induction l with
  | nil => intro pm c _ _; simp [sortLoop, renumber, positions]
  | cons e r ih =>
    intro pm c hpm hc
    obtain ⟨k, p0, h⟩ := e
    have hc1 : (c + 1) % SIZE_MODULUS = c + 1 :=
      Nat.mod_eq_of_lt (by simp only [List.length_cons] at hc; omega)
    have hins : StdMap.insert (c + 1) (k, h) pm = pm ++ [(c + 1, (k, h))] :=
      StdMap.insert_of_all_lt _ _ _ (fun a ha => Nat.lt_succ_of_le (hpm a ha))
    have hkeys : ∀ p ∈ StdMap.keys (pm ++ [(c + 1, (k, h))]), p ≤ c + 1 := by
      intro p hp
      simp only [StdMap.keys, List.map_append, List.mem_append, List.map_cons, List.map_nil,
        List.mem_singleton] at hp
      rcases hp with hp | hp
      · exact Nat.le_succ_of_le (hpm p hp)
      · omega
    have hlen : c + 1 + r.length < SIZE_MODULUS := by
      simp only [List.length_cons] at hc; omega
    unfold sortLoop
    simp only [hc1, hins, ih _ _ hkeys hlen, renumber, positions, List.length_cons,
      List.append_assoc, List.singleton_append]
    refine Prod.ext rfl (Prod.ext rfl ?_)
    simp only; omega

theorem keys_renumber (l : List (K × (Nat × Nat))) (c : Nat) :
    StdMap.keys (renumber l c) = StdMap.keys l := by
  induction l generalizing c with
  | nil => rfl
  | cons e r ih =>
    obtain ⟨k, p0, h⟩ := e
    simp only [renumber, StdMap.keys, List.map_cons] at *
    rw [ih]

theorem length_renumber (l : List (K × (Nat × Nat))) (c : Nat) :
    (renumber l c).length = l.length := by
  induction l generalizing c with
  | nil => rfl
  | cons e r ih =>
    obtain ⟨k, p0, h⟩ := e
    simp only [renumber, List.length_cons, ih]

theorem handles_renumber (l : List (K × (Nat × Nat))) (c : Nat) :
    (renumber l c).map (fun e => (e.1, e.2.2)) = l.map (fun e => (e.1, e.2.2)) := by
  induction l generalizing c with
  | nil => rfl
  | cons e r ih =>
    obtain ⟨k, p0, h⟩ := e
    simp only [renumber, List.map_cons, ih]

theorem keys_positions (l : List (K × (Nat × Nat))) (c : Nat) :
    StdMap.keys (positions l c) = List.range' (c + 1) l.length := by
  induction l generalizing c with
  | nil => rfl
  | cons e r ih =>
    obtain ⟨k, p0, h⟩ := e
    simp only [positions, StdMap.keys, List.map_cons, List.length_cons, List.range'_succ] at *
    rw [ih]

theorem entryKeys_positions (l : List (K × (Nat × Nat))) (c : Nat) :
    (positions l c).map (fun e => e.2.1) = StdMap.keys l := by
  induction l generalizing c with
  | nil => rfl
  | cons e r ih =>
    obtain ⟨k, p0, h⟩ := e
    simp only [positions, StdMap.keys, List.map_cons] at *
    rw [ih]

theorem mem_renumber_iff (l : List (K × (Nat × Nat))) (c : Nat) (k : K) (p h : Nat) :
    (k, (p, h)) ∈ renumber l c ↔ (p, (k, h)) ∈ positions l c := by
  induction l generalizing c with
  | nil => simp [renumber, positions]
  | cons e r ih =>
    obtain ⟨k0, p0, h0⟩ := e
    simp only [renumber, positions, List.mem_cons, ih, Prod.mk.injEq]
    constructor
    · rintro (⟨a, b, d⟩ | h1)
      · exact Or.inl ⟨b, a, d⟩
      · exact Or.inr h1
    · rintro (⟨a, b, d⟩ | h1)
      · exact Or.inl ⟨b, a, d⟩
      · exact Or.inr h1

theorem mem_of_mem_renumber (l : List (K × (Nat × Nat))) (c : Nat) (k : K) (p h : Nat)
    (hm : (k, (p, h)) ∈ renumber l c) : ∃ p0, (k, (p0, h)) ∈ l := by
  have h1 : (k, h) ∈ (renumber l c).map (fun e => (e.1, e.2.2)) :=
    List.mem_map.2 ⟨(k, (p, h)), hm, rfl⟩
  rw [handles_renumber] at h1
  obtain ⟨e, he, heq⟩ := List.mem_map.1 h1
  obtain ⟨k1, p1, h1⟩ := e
  simp only [Prod.mk.injEq] at heq
  obtain ⟨rfl, rfl⟩ := heq
  exact ⟨p1, he⟩

theorem ordered_positions (l : List (K × (Nat × Nat))) (c : Nat) :
    StdMap.Ordered (positions l c) := by
  unfold StdMap.Ordered
  rw [keys_positions]
  exact List.pairwise_lt_range' _ _

/-- The number of entries of a well-formed map is at most its counter. -/
theorem WF.length_positionMap_le {m : GlideMap K} {n : Nat} (hw : WF m n) :
    m.positionMap.length ≤ m.counter := by
  have hnd : (StdMap.keys m.positionMap).Nodup := List.Pairwise.nodup hw.posOrdered
  have hsub : (StdMap.keys m.positionMap).toFinset ⊆ Finset.Icc 1 m.counter := by
    intro p hp
    rw [List.mem_toFinset] at hp
    exact Finset.mem_Icc.2 (hw.idRange p hp)
  have hcard := Finset.card_le_card hsub
  rw [List.toFinset_card_of_nodup hnd, Nat.card_Icc] at hcard
  simpa [StdMap.keys] using hcard

/-- In a well-formed map `keyMap` and `positionMap` have the same number of entries. -/
theorem WF.length_eq {m : GlideMap K} {n : Nat} (hw : WF m n) :
    m.keyMap.length = m.positionMap.length := by
  have hkn : (StdMap.keys m.keyMap).Nodup := List.Pairwise.nodup hw.keyOrdered
  have hpn : (StdMap.keys m.positionMap).Nodup := List.Pairwise.nodup hw.posOrdered
  have h1 : (m.keyMap.map (fun e => (e.2.1, (e.1, e.2.2)))).Nodup := by
    apply List.Nodup.map _ (List.Nodup.of_map _ hkn)
    intro a b hab
    obtain ⟨a1, a2, a3⟩ := a
    obtain ⟨b1, b2, b3⟩ := b
    simp only [Prod.mk.injEq] at hab
    obtain ⟨e1, e2, e3⟩ := hab
    rw [e1, e2, e3]
  have h2 : m.positionMap.Nodup := List.Nodup.of_map _ hpn
  have hperm : (m.keyMap.map (fun e => (e.2.1, (e.1, e.2.2)))).Perm m.positionMap := by
    rw [List.perm_ext_iff_of_nodup h1 h2]
    intro a
    obtain ⟨p, k, h⟩ := a
    rw [← StdMap.find_eq_some_iff hw.posOrdered, ← hw.coupled k p h,
      StdMap.find_eq_some_iff hw.keyOrdered]
    constructor
    · intro hm
      obtain ⟨e, he, heq⟩ := List.mem_map.1 hm
      obtain ⟨k1, p1, h1⟩ := e
      simp only [Prod.mk.injEq] at heq
      obtain ⟨rfl, rfl, rfl⟩ := heq
      exact he
    · intro hm
      exact List.mem_map.2 ⟨(k, (p, h)), hm, rfl⟩
  have := hperm.length_eq
  simpa using this

theorem WF.size_lt {m : GlideMap K} {n : Nat} (hw : WF m n) : m.size < SIZE_MODULUS := by
  unfold size
  rw [hw.length_eq]
  exact lt_of_le_of_lt hw.length_positionMap_le hw.counterLt

/-- What `sort()` computes when the size fits `size_t`. -/
theorem sort_eq (m : GlideMap K) (hn : m.size < SIZE_MODULUS) :
    m.sort = { keyMap := renumber m.keyMap 0, positionMap := positions m.keyMap 0,
               counter := m.size } := by
  unfold sort
  rw [sortLoop_eq m.keyMap [] 0 (by intro p hp; simp [StdMap.keys] at hp)
    (by unfold size at hn; omega)]
  simp [size]

/-- What `rsort()` computes when the size fits `size_t`. -/
theorem rsort_eq (m : GlideMap K) (hn : m.size < SIZE_MODULUS) :
    m.rsort = { keyMap := (renumber m.keyMap.reverse 0).reverse,
                positionMap := positions m.keyMap.reverse 0,
                counter := m.size } := by
  unfold rsort
  rw [sortLoop_eq m.keyMap.reverse [] 0 (by intro p hp; simp [StdMap.keys] at hp)
    (by unfold size at hn; simp only [List.length_reverse]; omega)]
  simp [size]

end GlideMap

end GlideJson

namespace GlideJson

set_option linter.unusedSectionVars false

namespace GlideMap

variable {K : Type} [LinearOrder K]

/-- The invariant after renumbering: shared by `sort()` and `rsort()`. -/
theorem wf_renumbered {m : GlideMap K} {n : Nat} (hw : WF m n)
    (l : List (K × (Nat × Nat))) (km : List (K × (Nat × Nat)))
    (hkeys : StdMap.keys km = StdMap.keys m.keyMap)
    (hmem : ∀ e, e ∈ km ↔ e ∈ renumber l 0)
    (hl : ∀ e, e ∈ l ↔ e ∈ m.keyMap) (hlen : l.length = m.keyMap.length) :
    WF ({ keyMap := km, positionMap := positions l 0, counter := m.size } : GlideMap K) n := by
  have hko : StdMap.Ordered km := by unfold StdMap.Ordered; rw [hkeys]; exact hw.keyOrdered
  have hold : ∀ k p h, StdMap.find k km = some (p, h) →
      ∃ p0, StdMap.find k m.keyMap = some (p0, h) := by
    intro k p h hf
    have h1 := (hmem _).1 (StdMap.mem_of_find hf)
    obtain ⟨p0, h2⟩ := mem_of_mem_renumber l 0 k p h h1
    exact ⟨p0, StdMap.find_of_mem hw.keyOrdered ((hl _).1 h2)⟩
  exact {
    keyOrdered := hko
    posOrdered := ordered_positions l 0
    coupled := by
      intro k p h
      rw [StdMap.find_eq_some_iff hko, StdMap.find_eq_some_iff (ordered_positions l 0), hmem,
        mem_renumber_iff]
    idRange := by
      intro p hp
      have hp1 : p ∈ StdMap.keys (positions l 0) := hp
      rw [keys_positions, List.mem_range'_1] at hp1
      simp only [size]
      omega
    counterLt := hw.size_lt
    handleLt := by
      intro k p h hf
      obtain ⟨p0, h1⟩ := hold k p h hf
      exact hw.handleLt k p0 h h1
    handleInj := by
      intro k k' p p' h h1 h2
      obtain ⟨p0, h3⟩ := hold k p h h1
      obtain ⟨p1, h4⟩ := hold k' p' h h2
      exact hw.handleInj k k' p0 p1 h h3 h4 }

theorem wf_sort {m : GlideMap K} {n : Nat} (hw : WF m n) : WF m.sort n := by
  rw [sort_eq m hw.size_lt]
  exact wf_renumbered hw m.keyMap _ (keys_renumber _ _) (fun _ => Iff.rfl) (fun _ => Iff.rfl) rfl

theorem wf_rsort {m : GlideMap K} {n : Nat} (hw : WF m n) : WF m.rsort n := by
  rw [rsort_eq m hw.size_lt]
  refine wf_renumbered hw m.keyMap.reverse _ ?_ (fun _ => List.mem_reverse)
    (fun _ => List.mem_reverse) (List.length_reverse _)
  unfold StdMap.keys
  rw [List.map_reverse]
  have := keys_renumber m.keyMap.reverse 0
  unfold StdMap.keys at this
  rw [this, List.map_reverse, List.reverse_reverse]

/-- The states a program can bring a `GlideMap` and its heap into without wrapping the
counter around, starting from the empty map, together with the position ids handed
out since the last `clear()`, `sort()` or `rsort()` (newest first).  The steps are
`operator[]`, a write through a reference, `erase`, `clear`, `sort` and `rsort`. -/
inductive Reach {V : Type} [Inhabited V] [Inhabited K] :
    GlideMap K → Heap V → List Nat → Prop
  | start (heap : Heap V) : Reach empty heap []
  | index {m : GlideMap K} {heap : Heap V} {ids : List Nat} (key : K) :
      Reach m heap ids → m.counter + 1 < SIZE_MODULUS →
      Reach (operatorIndex m heap key).1 (operatorIndex m heap key).2.1
        (if m.count key = 0 then (operatorIndex m heap key).1.counter :: ids else ids)
  | write {m : GlideMap K} {heap : Heap V} {ids : List Nat} (h : Nat) (v : V) :
      Reach m heap ids → Reach m (heap.write h v) ids
  | erase {m : GlideMap K} {heap : Heap V} {ids : List Nat} (key : K) :
      Reach m heap ids → Reach (m.erase key).1 heap ids
  | clear {m : GlideMap K} {heap : Heap V} {ids : List Nat} :
      Reach m heap ids → Reach m.clear heap []
  | sort {m : GlideMap K} {heap : Heap V} {ids : List Nat} :
      Reach m heap ids → Reach m.sort heap m.sort.indices
  | rsort {m : GlideMap K} {heap : Heap V} {ids : List Nat} :
      Reach m heap ids → Reach m.rsort heap m.rsort.indices

theorem count_eq_zero_iff (m : GlideMap K) (key : K) :
    m.count key = 0 ↔ StdMap.find key m.keyMap = none := by
  unfold count
  cases StdMap.find key m.keyMap <;> simp

theorem count_eq_one_iff (m : GlideMap K) (key : K) :
    m.count key = 1 ↔ ∃ pair, StdMap.find key m.keyMap = some pair := by
  unfold count
  cases StdMap.find key m.keyMap <;> simp

/-- Every reachable state is well formed, and no id handed out since the last reset
exceeds the counter. -/
theorem Reach.wf {V : Type} [Inhabited V] [Inhabited K] {m : GlideMap K} {heap : Heap V}
    {ids : List Nat} (hr : Reach m heap ids) :
    WF m heap.length ∧ ∀ i ∈ ids, 1 ≤ i ∧ i ≤ m.counter := by
  induction hr with
  | start heap => exact ⟨wf_empty _, fun i hi => by cases hi⟩
  | @index m heap ids key _ hc ih =>
    refine ⟨wf_operatorIndex heap ih.1 key hc, ?_⟩
    cases hf : StdMap.find key m.keyMap with
    | some pair =>
      obtain ⟨p, h⟩ := pair
      have hcnt : ¬ m.count key = 0 := by rw [count_eq_zero_iff, hf]; simp
      rw [if_neg hcnt, operatorIndex_present heap ih.1 hf]
      exact ih.2
    | none =>
      have hcnt : m.count key = 0 := (count_eq_zero_iff m key).2 hf
      rw [if_pos hcnt, operatorIndex_absent m heap hf, Nat.mod_eq_of_lt hc]
      intro i hi
      rcases List.mem_cons.1 hi with e | h1
      · simp only [e]; omega
      · have := ih.2 i h1
        simp only; omega
  | write h v _ ih =>
    refine ⟨?_, ih.2⟩
    simpa [Heap.write] using ih.1
  | @erase m heap ids key _ ih =>
    refine ⟨wf_erase ih.1 key, ?_⟩
    cases hf : StdMap.find key m.keyMap with
    | some pair => rw [erase_present hf]; exact ih.2
    | none => rw [erase_absent hf]; exact ih.2
  | clear _ _ => exact ⟨wf_clear _ _, fun i hi => by cases hi⟩
  | sort _ ih =>
    exact ⟨wf_sort ih.1, fun i hi => (wf_sort ih.1).idRange i (by
      simpa [indices, iterate, StdMap.keys] using hi)⟩
  | rsort _ ih =>
    exact ⟨wf_rsort ih.1, fun i hi => (wf_rsort ih.1).idRange i (by
      simpa [indices, iterate, StdMap.keys] using hi)⟩

end GlideMap

end GlideJson

namespace GlideJson

set_option linter.unusedSectionVars false

namespace Heap

variable {V : Type} [Inhabited V]

theorem length_write (heap : Heap V) (h : Nat) (v : V) : (heap.write h v).length = heap.length := by
  simp [write]

theorem read_write_same (heap : Heap V) (h : Nat) (v : V) (hh : h < heap.length) :
    (heap.write h v).read h = v := by
  simp [read, write, List.getD_eq_getElem?_getD, List.getElem?_set, hh]

theorem read_write_other (heap : Heap V) (h h' : Nat) (v : V) (hne : h ≠ h') :
    (heap.write h v).read h' = heap.read h' := by
  simp [read, write, List.getD_eq_getElem?_getD, List.getElem?_set, hne]

theorem read_append (heap l : Heap V) (h : Nat) (hh : h < heap.length) :
    (heap ++ l).read h = heap.read h := by
  simp [read, List.getD_eq_getElem?_getD, List.getElem?_append_left hh]

end Heap

namespace GlideMap

variable {K : Type} [LinearOrder K]

theorem atRef_eq_some_iff (m : GlideMap K) (k : K) (h : Nat) :
    m.atRef k = some h ↔ ∃ p, StdMap.find k m.keyMap = some (p, h) := by
  unfold atRef
  cases hf : StdMap.find k m.keyMap with
  | none => simp
  | some pair =>
    obtain ⟨p, h'⟩ := pair
    simp

/-- A write through the reference of one key does not change what `at` returns for
another key. -/
theorem atValue_write_other {V : Type} [Inhabited V] {m : GlideMap K} (heap : Heap V)
    (hw : WF m heap.length) {k k' : K} {h : Nat} (hk : m.atRef k = some h) (hne : k' ≠ k)
    (v : V) : m.atValue (heap.write h v) k' = m.atValue heap k' := by
  unfold atValue
  cases hk' : m.atRef k' with
  | none => rfl
  | some h' =>
    obtain ⟨p, hf⟩ := (atRef_eq_some_iff m k h).1 hk
    obtain ⟨p', hf'⟩ := (atRef_eq_some_iff m k' h').1 hk'
    have hh : h ≠ h' := by
      intro e
      subst e
      exact hne (hw.handleInj k' k p' p h hf' hf)
    simp only [Option.map_some', Heap.read_write_other heap h h' v hh]

end GlideMap

/-- C11 (amended). For a map `m` reachable from the empty map by `operator[]`,
writes through references, `erase`, `clear`, `sort` and `rsort` without wrapping the
counter around, and a key `k` that is present: `m[k]` changes neither the map (size,
position ids, keys, addresses) nor the heap and returns the reference that `at(k)`
returns; after writing `v` through it `at(k)` yields `v`, and `at` of every other key
yields what it did before. -/
theorem reassign_keeps_position {K V : Type} [LinearOrder K] [Inhabited K] [Inhabited V]
    (m : GlideMap K) (heap : Heap V) (ids : List Nat) (k : K) (v : V)
    (hr : GlideMap.Reach m heap ids) (hk : m.count k = 1) :
    (GlideMap.operatorIndex m heap k).1 = m ∧
      (GlideMap.operatorIndex m heap k).2.1 = heap ∧
      m.atRef k = some (GlideMap.operatorIndex m heap k).2.2 ∧
      m.atValue (heap.write (GlideMap.operatorIndex m heap k).2.2 v) k = some v ∧
      ∀ k', k' ≠ k →
        m.atValue (heap.write (GlideMap.operatorIndex m heap k).2.2 v) k' =
          m.atValue heap k' := by
  have hw : GlideMap.WF m heap.length := hr.wf.1
  obtain ⟨pair, hf⟩ := (GlideMap.count_eq_one_iff m k).1 hk
  obtain ⟨p, h⟩ := pair
  have hat : m.atRef k = some h := (GlideMap.atRef_eq_some_iff m k h).2 ⟨p, hf⟩
  rw [GlideMap.operatorIndex_present heap hw hf]
  refine ⟨rfl, rfl, hat, ?_, ?_⟩
  · unfold GlideMap.atValue
    rw [hat]
    simp only [Option.map_some', Heap.read_write_same heap h v (hw.handleLt k p h hf)]
  · intro k' hne
    exact GlideMap.atValue_write_other heap hw hat hne v

/-- The map of scenario E6 after `{"a":1,"a":2}` has been read up to the second key:
one key (here the number 7) at position 1 whose value is at address 0. -/
def exampleMap : GlideMap Nat :=
  { keyMap := [(7, (1, 0))], positionMap := [(1, (7, 0))], counter := 1 }

/-- The map `exampleMap` with the value 1 is reached by `m[7] = 1` on the empty map. -/
theorem exampleMap_reach : GlideMap.Reach exampleMap ([1] : Heap Nat) [1] :=
  GlideMap.Reach.write 0 1
    (GlideMap.Reach.index 7 (GlideMap.Reach.start ([] : Heap Nat)) (by decide))

/-- The amended C11 on the map with the one key 7 whose value 1 is overwritten by 2. -/
theorem reassign_keeps_position_witness :
    (GlideMap.Reach exampleMap ([1] : Heap Nat) [1] ∧ exampleMap.count 7 = 1) ∧
      ((GlideMap.operatorIndex exampleMap ([1] : Heap Nat) 7).1 = exampleMap ∧
        exampleMap.atValue
          (Heap.write [1] (GlideMap.operatorIndex exampleMap ([1] : Heap Nat) 7).2.2 2) 7
          = some 2) :=
  ⟨⟨exampleMap_reach, by decide⟩,
    ⟨(reassign_keeps_position exampleMap [1] [1] 7 2 exampleMap_reach (by decide)).1,
      (reassign_keeps_position exampleMap [1] [1] 7 2 exampleMap_reach (by decide)).2.2.2.1⟩⟩

end GlideJson

namespace GlideJson

set_option linter.unusedSectionVars false

namespace GlideMap

variable {K : Type} [LinearOrder K]

theorem keysInOrder_sort (m : GlideMap K) (hn : m.size < SIZE_MODULUS) :
    m.sort.keysInOrder = StdMap.keys m.keyMap := by
  rw [sort_eq m hn]
  exact entryKeys_positions m.keyMap 0

theorem keysInOrder_rsort (m : GlideMap K) (hn : m.size < SIZE_MODULUS) :
    m.rsort.keysInOrder = (StdMap.keys m.keyMap).reverse := by
  rw [rsort_eq m hn]
  show (positions m.keyMap.reverse 0).map (fun e => e.2.1) = _
  rw [entryKeys_positions]
  unfold StdMap.keys
  rw [List.map_reverse]

theorem indices_sort (m : GlideMap K) (hn : m.size < SIZE_MODULUS) :
    m.sort.indices = List.range' 1 m.size := by
  rw [sort_eq m hn]
  exact keys_positions m.keyMap 0

theorem indices_rsort (m : GlideMap K) (hn : m.size < SIZE_MODULUS) :
    m.rsort.indices = List.range' 1 m.size := by
  rw [rsort_eq m hn]
  show StdMap.keys (positions m.keyMap.reverse 0) = _
  rw [keys_positions, List.length_reverse]
  rfl

/-- The loop of `sort()` keeps the keys and the addresses of the entries it rewrites,
whatever the counter does. -/
theorem handles_sortLoop (l : List (K × (Nat × Nat))) (pm : List (Nat × (K × Nat))) (c : Nat) :
    (sortLoop l pm c).1.map (fun e => (e.1, e.2.2)) = l.map (fun e => (e.1, e.2.2)) := by
  induction l generalizing pm c with
  | nil => rfl
  | cons e r ih =>
    obtain ⟨k, p0, h⟩ := e
    simp only [sortLoop, List.map_cons, ih]

theorem handles_sort (m : GlideMap K) :
    m.sort.keyMap.map (fun e => (e.1, e.2.2)) = m.keyMap.map (fun e => (e.1, e.2.2)) :=
  handles_sortLoop m.keyMap [] 0

theorem handles_rsort (m : GlideMap K) :
    m.rsort.keyMap.map (fun e => (e.1, e.2.2)) = m.keyMap.map (fun e => (e.1, e.2.2)) := by
  show ((sortLoop m.keyMap.reverse [] 0).1.reverse).map (fun e => (e.1, e.2.2)) = _
  rw [List.map_reverse, handles_sortLoop, List.map_reverse, List.reverse_reverse]

theorem find_handles (k : K) (l : List (K × (Nat × Nat))) :
    (StdMap.find k l).map (fun pair => pair.2) =
      StdMap.find k (l.map (fun e => (e.1, e.2.2))) := by
  induction l with
  | nil => rfl
  | cons e r ih =>
    obtain ⟨k0, p0, h0⟩ := e
    simp only [List.map_cons, StdMap.find_cons]
    by_cases e1 : k = k0
    · simp [e1]
    · simp [e1, ih]

/-- `size()`, `count(k)` and `at(k)` only depend on the keys and the addresses. -/
theorem observers_of_handles (m m' : GlideMap K)
    (h : m'.keyMap.map (fun e => (e.1, e.2.2)) = m.keyMap.map (fun e => (e.1, e.2.2)))
    (k : K) : m'.size = m.size ∧ m'.count k = m.count k ∧ m'.atRef k = m.atRef k := by
  have hat : m'.atRef k = m.atRef k := by
    unfold atRef
    rw [find_handles, find_handles, h]
  refine ⟨?_, ?_, hat⟩
  · have := congrArg List.length h
    simpa [size] using this
  · unfold atRef at hat
    unfold count
    cases h1 : StdMap.find k m'.keyMap <;> cases h2 : StdMap.find k m.keyMap <;>
      simp [h1, h2] at hat ⊢

end GlideMap

/-- C12. For a map with `n` entries (`keyMap` in key order as `std::map` keeps it, and
`n` a value of `size_t`): after `sort()` forward iteration meets the keys of the map in
strictly ascending order, after `rsort()` in strictly descending order, and in both
cases the position ids met are 1, 2, ..., `n` and the counter is `n`. -/
theorem sort_orders_by_key {K : Type} [LinearOrder K] (m : GlideMap K)
    (ho : StdMap.Ordered m.keyMap) (hn : m.size < SIZE_MODULUS) :
    (m.sort.keysInOrder.Pairwise (fun a b => a < b) ∧
      m.sort.keysInOrder = StdMap.keys m.keyMap ∧
      m.sort.indices = List.range' 1 m.size ∧ m.sort.counter = m.size) ∧
    (m.rsort.keysInOrder.Pairwise (fun a b => b < a) ∧
      m.rsort.keysInOrder = (StdMap.keys m.keyMap).reverse ∧
      m.rsort.indices = List.range' 1 m.size ∧ m.rsort.counter = m.size) := by
  refine ⟨⟨?_, GlideMap.keysInOrder_sort m hn, GlideMap.indices_sort m hn, ?_⟩,
    ⟨?_, GlideMap.keysInOrder_rsort m hn, GlideMap.indices_rsort m hn, ?_⟩⟩
  · rw [GlideMap.keysInOrder_sort m hn]; exact ho
  · rw [GlideMap.sort_eq m hn]
  · rw [GlideMap.keysInOrder_rsort m hn, List.pairwise_reverse]; exact ho
  · rw [GlideMap.rsort_eq m hn]

/-- A map with the keys 3, 1, 2 inserted in this order. -/
def exampleMap3 : GlideMap Nat :=
  { keyMap := [(1, (2, 1)), (2, (3, 2)), (3, (1, 0))],
    positionMap := [(1, (3, 0)), (2, (1, 1)), (3, (2, 2))], counter := 3 }

theorem exampleMap3_ordered : StdMap.Ordered exampleMap3.keyMap := by
  unfold StdMap.Ordered StdMap.keys exampleMap3
  decide

/-- C12 on the map with the keys 3, 1, 2. -/
theorem sort_orders_by_key_witness :
    (StdMap.Ordered exampleMap3.keyMap ∧ exampleMap3.size < SIZE_MODULUS) ∧
      exampleMap3.sort.keysInOrder = [1, 2, 3] ∧ exampleMap3.rsort.keysInOrder = [3, 2, 1] ∧
      exampleMap3.rsort.indices = [1, 2, 3] :=
  ⟨⟨exampleMap3_ordered, by decide⟩,
    (sort_orders_by_key exampleMap3 exampleMap3_ordered (by decide)).1.2.1,
    (sort_orders_by_key exampleMap3 exampleMap3_ordered (by decide)).2.2.1,
    (sort_orders_by_key exampleMap3 exampleMap3_ordered (by decide)).2.2.2.1⟩

/-- C13. `sort()` and `rsort()` change only the order: `size()`, `count(k)` and the
object that `at(k)` refers to (so also its value) are the same before and after. -/
theorem sort_keeps_association {K : Type} [LinearOrder K] (m : GlideMap K) (k : K) :
    (m.sort.size = m.size ∧ m.sort.count k = m.count k ∧ m.sort.atRef k = m.atRef k) ∧
    (m.rsort.size = m.size ∧ m.rsort.count k = m.count k ∧ m.rsort.atRef k = m.atRef k) ∧
    (∀ (V : Type) [Inhabited V] (heap : Heap V),
      m.sort.atValue heap k = m.atValue heap k ∧ m.rsort.atValue heap k = m.atValue heap k) := by
  have h1 := GlideMap.observers_of_handles m m.sort (GlideMap.handles_sort m) k
  have h2 := GlideMap.observers_of_handles m m.rsort (GlideMap.handles_rsort m) k
  refine ⟨h1, h2, ?_⟩
  intro V _ heap
  unfold GlideMap.atValue
  rw [h1.2.2, h2.2.2]
  exact ⟨rfl, rfl⟩

end GlideJson

namespace GlideJson

set_option linter.unusedSectionVars false

namespace GlideMap

variable {K : Type} [LinearOrder K]

theorem WF.indices_nodup {m : GlideMap K} {n : Nat} (hw : WF m n) : m.indices.Nodup :=
  List.Pairwise.nodup hw.posOrdered

theorem WF.id_inj {m : GlideMap K} {n : Nat} (hw : WF m n) {k k' : K} {p h h' : Nat}
    (h1 : StdMap.find k m.keyMap = some (p, h)) (h2 : StdMap.find k' m.keyMap = some (p, h')) :
    k = k' := by
  have a := (hw.coupled k p h).1 h1
  have b := (hw.coupled k' p h').1 h2
  rw [a] at b
  cases b; rfl

/-- The key of an entry met in iteration is a key of `keyMap`, with the same id and
address. -/
theorem WF.find_of_mem_iterate {m : GlideMap K} {n : Nat} (hw : WF m n)
    {e : Nat × (K × Nat)} (he : e ∈ m.iterate) :
    StdMap.find e.2.1 m.keyMap = some (e.1, e.2.2) := by
  obtain ⟨p, k, h⟩ := e
  exact (hw.coupled k p h).2 (StdMap.find_of_mem hw.posOrdered he)

theorem WF.mem_keysInOrder_iff {m : GlideMap K} {n : Nat} (hw : WF m n) (k : K) :
    k ∈ m.keysInOrder ↔ m.count k = 1 := by
  rw [count_eq_one_iff]
  constructor
  · intro hk
    obtain ⟨e, he, rfl⟩ := List.mem_map.1 hk
    exact ⟨_, hw.find_of_mem_iterate he⟩
  · rintro ⟨⟨p, h⟩, hf⟩
    exact List.mem_map.2 ⟨(p, (k, h)), StdMap.mem_of_find ((hw.coupled k p h).1 hf), rfl⟩

theorem count_le_one (m : GlideMap K) (k : K) : m.count k ≤ 1 := by
  unfold count
  cases StdMap.find k m.keyMap <;> simp

end GlideMap

/-- C14. In every state reachable without wrapping the counter around: every position
id met in iteration lies between 1 and the counter, no two entries share an id, every
id handed out since the last `clear()`, `sort()` or `rsort()` (also to entries erased
since) is at most the counter, and `operator[]` on an absent key gives it the id
counter plus one, which is greater than all of them. -/
theorem position_ids_monotone {K V : Type} [LinearOrder K] [Inhabited K] [Inhabited V]
    {m : GlideMap K} {heap : Heap V} {ids : List Nat} (hr : GlideMap.Reach m heap ids) :
    (∀ p ∈ m.indices, 1 ≤ p ∧ p ≤ m.counter) ∧ m.indices.Nodup ∧
      (∀ k k' p h h', StdMap.find k m.keyMap = some (p, h) →
        StdMap.find k' m.keyMap = some (p, h') → k = k') ∧
      (∀ i ∈ ids, 1 ≤ i ∧ i ≤ m.counter) ∧
      ∀ key, m.count key = 0 → m.counter + 1 < SIZE_MODULUS →
        StdMap.find key (GlideMap.operatorIndex m heap key).1.keyMap =
            some (m.counter + 1, heap.length) ∧
          (GlideMap.operatorIndex m heap key).1.counter = m.counter + 1 ∧
          (∀ i ∈ ids, i < m.counter + 1) ∧ ∀ p ∈ m.indices, p < m.counter + 1 := by
  obtain ⟨hw, hids⟩ := hr.wf
  refine ⟨hw.idRange, hw.indices_nodup, fun k k' p h h' h1 h2 => hw.id_inj h1 h2, hids, ?_⟩
  intro key hcnt hc
  have hf := (GlideMap.count_eq_zero_iff m key).1 hcnt
  rw [GlideMap.operatorIndex_absent m heap hf, Nat.mod_eq_of_lt hc]
  refine ⟨?_, rfl, ?_, ?_⟩
  · simp only [StdMap.find_insert, if_true]
  · intro i hi; have := hids i hi; omega
  · intro p hp; have := hw.idRange p hp; omega

/-- C14 on the state reached by inserting the key 7 and erasing it again: the map is
empty, the counter is 1 and the id 1 has been handed out. -/
theorem position_ids_monotone_witness :
    GlideMap.Reach ({ keyMap := [], positionMap := [], counter := 1 } : GlideMap Nat)
        ([0] : Heap Nat) [1] ∧
      StdMap.find 9 (GlideMap.operatorIndex
        ({ keyMap := [], positionMap := [], counter := 1 } : GlideMap Nat) ([0] : Heap Nat)
          9).1.keyMap = some (2, 1) :=
  ⟨GlideMap.Reach.erase 7 (GlideMap.Reach.index 7 (GlideMap.Reach.start []) (by decide)),
    ((position_ids_monotone
      (GlideMap.Reach.erase 7 (GlideMap.Reach.index 7 (GlideMap.Reach.start ([] : Heap Nat))
        (by decide)))).2.2.2.2 9 (by decide) (by decide)).1⟩

theorem GlideMap.count_erase_self {K : Type} [LinearOrder K] (m : GlideMap K) (k : K) :
    (m.erase k).1.count k = 0 := by
  rw [GlideMap.count_eq_zero_iff]
  cases hf : StdMap.find k m.keyMap with
  | none => rw [GlideMap.erase_absent hf]; exact hf
  | some pair =>
    obtain ⟨p, h⟩ := pair
    rw [GlideMap.erase_present hf]
    simp only [StdMap.find_erase, if_true]

/-- C15 (amended). For a map `m` reachable from the empty map by `operator[]`, writes
through references, `erase`, `clear`, `sort` and `rsort` without wrapping the counter
around: `erase(k)` returns `count(k)`, which is 1 if `k` is present and 0 otherwise;
afterwards `count(k)` is 0, `k` is not met in iteration and `size()` is smaller by the
returned number; when `k` was absent the map is unchanged. -/
theorem erase_removes_key {K V : Type} [LinearOrder K] [Inhabited K] [Inhabited V]
    (m : GlideMap K) (heap : Heap V) (ids : List Nat) (k : K)
    (hr : GlideMap.Reach m heap ids) :
    (m.erase k).2 = m.count k ∧ m.count k ≤ 1 ∧ (m.erase k).1.count k = 0 ∧
      k ∉ (m.erase k).1.keysInOrder ∧ (m.erase k).1.size + (m.erase k).2 = m.size ∧
      (m.count k = 0 → (m.erase k).1 = m) := by
  have hw : GlideMap.WF m heap.length := hr.wf.1
  have hw' := GlideMap.wf_erase hw k
  have hcount := GlideMap.count_erase_self m k
  refine ⟨?_, GlideMap.count_le_one m k, hcount, ?_, ?_, ?_⟩
  · cases hf : StdMap.find k m.keyMap with
    | none => rw [GlideMap.erase_absent hf]; simp [GlideMap.count, hf]
    | some pair => rw [GlideMap.erase_present hf]; simp [GlideMap.count, hf]
  · intro hk
    have := (hw'.mem_keysInOrder_iff k).1 hk
    omega
  · cases hf : StdMap.find k m.keyMap with
    | none => rw [GlideMap.erase_absent hf]; rfl
    | some pair =>
      obtain ⟨p, h⟩ := pair
      rw [GlideMap.erase_present hf]
      exact StdMap.length_erase_of_find hw.keyOrdered hf
  · intro h0
    rw [GlideMap.erase_absent ((GlideMap.count_eq_zero_iff m k).1 h0)]

theorem exampleMap3_wf : GlideMap.WF exampleMap3 3 := by
  have h0 : GlideMap.WF (GlideMap.empty : GlideMap Nat) 0 := GlideMap.wf_empty 0
  have h1 := GlideMap.wf_operatorIndex ([] : Heap Nat) h0 3 (by decide)
  have h2 := GlideMap.wf_operatorIndex _ h1 1 (by decide)
  have h3 := GlideMap.wf_operatorIndex _ h2 2 (by decide)
  exact h3

/-- The map `exampleMap3` is reached by `m[3]`, `m[1]`, `m[2]` on the empty map. -/
theorem exampleMap3_reach : GlideMap.Reach exampleMap3 ([0, 0, 0] : Heap Nat) [3, 2, 1] :=
  GlideMap.Reach.index 2 (GlideMap.Reach.index 1
    (GlideMap.Reach.index 3 (GlideMap.Reach.start ([] : Heap Nat)) (by decide)) (by decide))
    (by decide)

/-- The amended C15 on the map with the keys 3, 1, 2: erasing 1 leaves 3, 2. -/
theorem erase_removes_key_witness :
    GlideMap.Reach exampleMap3 ([0, 0, 0] : Heap Nat) [3, 2, 1] ∧
      (exampleMap3.erase 1).2 = exampleMap3.count 1 ∧
      (exampleMap3.erase 1).1.keysInOrder = [3, 2] ∧
      (exampleMap3.erase 1).1.size + (exampleMap3.erase 1).2 = exampleMap3.size :=
  ⟨exampleMap3_reach, (erase_removes_key exampleMap3 [0, 0, 0] [3, 2, 1] 1 exampleMap3_reach).1,
    by decide,
    (erase_removes_key exampleMap3 [0, 0, 0] [3, 2, 1] 1 exampleMap3_reach).2.2.2.2.1⟩

end GlideJson

namespace GlideJson

set_option linter.unusedSectionVars false

namespace GlideMap

variable {K : Type} [LinearOrder K]

/-- The next value of the counter is one more, or 0 when it wraps around. -/
theorem next_counter (c : Nat) (hc : c < SIZE_MODULUS) :
    (c + 1) % SIZE_MODULUS = c + 1 ∨ (c + 1) % SIZE_MODULUS = 0 := by
  by_cases h : c + 1 < SIZE_MODULUS
  · exact Or.inl (Nat.mod_eq_of_lt h)
  · right
    have : c + 1 = SIZE_MODULUS := by omega
    rw [this, Nat.mod_self]

/-- In a well-formed map a new entry of `positionMap` goes to the end, or to the front
when the counter has wrapped around to 0. -/
theorem WF.insert_next {m : GlideMap K} {n : Nat} (hw : WF m n) (x : K × Nat) :
    StdMap.insert ((m.counter + 1) % SIZE_MODULUS) x m.positionMap =
        m.positionMap ++ [((m.counter + 1) % SIZE_MODULUS, x)] ∨
      StdMap.insert ((m.counter + 1) % SIZE_MODULUS) x m.positionMap =
        ((m.counter + 1) % SIZE_MODULUS, x) :: m.positionMap := by
  rcases next_counter m.counter hw.counterLt with h | h
  · left
    rw [h]
    exact StdMap.insert_of_all_lt _ _ _ (fun a ha => Nat.lt_succ_of_le (hw.idRange a ha).2)
  · right
    rw [h]
    exact StdMap.insert_of_all_gt _ _ _ (fun a ha => (hw.idRange a ha).1)

theorem iterate_operatorIndex_others {V : Type} [Inhabited V] [Inhabited K] {m : GlideMap K}
    (heap : Heap V) (hw : WF m heap.length) (k : K) :
    (operatorIndex m heap k).1.iterate.filter (fun e => decide (e.2.1 ≠ k)) =
      m.iterate.filter (fun e => decide (e.2.1 ≠ k)) := by
  cases hf : StdMap.find k m.keyMap with
  | some pair =>
    obtain ⟨p, h⟩ := pair
    rw [operatorIndex_present heap hw hf]
  | none =>
    rw [operatorIndex_absent m heap hf]
    show List.filter _ (StdMap.insert _ _ m.positionMap) = List.filter _ m.positionMap
    rcases hw.insert_next (k, heap.length) with h | h
    · rw [h, List.filter_append]; simp
    · rw [h]; simp

theorem iterate_erase_others {m : GlideMap K} {n : Nat} (hw : WF m n) (k : K) :
    (m.erase k).1.iterate.filter (fun e => decide (e.2.1 ≠ k)) =
      m.iterate.filter (fun e => decide (e.2.1 ≠ k)) := by
  cases hf : StdMap.find k m.keyMap with
  | none => rw [erase_absent hf]
  | some pair =>
    obtain ⟨p, h⟩ := pair
    rw [erase_present hf]
    show List.filter _ (StdMap.erase p m.positionMap) = List.filter _ m.positionMap
    rw [StdMap.erase_eq_filter, List.filter_filter]
    apply List.filter_congr
    intro e he
    have hfe := hw.find_of_mem_iterate he
    by_cases e1 : e.2.1 = k
    · simp [e1]
    · have e2 : e.1 ≠ p := by
        intro e3
        rw [e3] at hfe
        exact e1 (hw.id_inj hfe hf)
      simp [e1, e2]

theorem read_operatorIndex {V : Type} [Inhabited V] [Inhabited K] {m : GlideMap K}
    (heap : Heap V) (hw : WF m heap.length) (k : K) (h : Nat) (hh : h < heap.length) :
    (operatorIndex m heap k).2.1.read h = heap.read h := by
  cases hf : StdMap.find k m.keyMap with
  | some pair =>
    obtain ⟨p, h'⟩ := pair
    rw [operatorIndex_present heap hw hf]
  | none =>
    rw [operatorIndex_absent m heap hf]
    exact Heap.read_append heap _ h hh

/-- After `m[k] = v` the values of the entries with another key are what they were. -/
theorem read_after_assign {V : Type} [Inhabited V] [Inhabited K] {m : GlideMap K}
    (heap : Heap V) (hw : WF m heap.length) (k : K) (v : V) (e : Nat × (K × Nat))
    (he : e ∈ m.iterate) (hne : e.2.1 ≠ k) :
    ((operatorIndex m heap k).2.1.write (operatorIndex m heap k).2.2 v).read e.2.2 =
      heap.read e.2.2 := by
  have hfe := hw.find_of_mem_iterate he
  have hlt := hw.handleLt _ _ _ hfe
  cases hf : StdMap.find k m.keyMap with
  | some pair =>
    obtain ⟨p, h'⟩ := pair
    rw [operatorIndex_present heap hw hf]
    apply Heap.read_write_other
    intro e1
    show False
    have hfe' : StdMap.find e.2.1 m.keyMap = some (e.1, h') := by
      rw [hfe]; simp only [← e1]
    exact hne (hw.handleInj _ _ _ _ _ hfe' hf)
  | none =>
    rw [operatorIndex_absent m heap hf]
    show Heap.read (Heap.write (heap ++ [default]) heap.length v) e.2.2 = _
    rw [Heap.read_write_other _ _ _ _ (by omega), Heap.read_append heap _ _ hlt]

end GlideMap

/-- C16 (amended). For a map `m` reachable from the empty map by `operator[]`, writes
through references, `erase`, `clear`, `sort` and `rsort` without wrapping the counter
around, and a key `k`: after `operator[]` with `k` (new or existing) and after
`erase(k)`, forward iteration restricted to the other keys is the same list of position
ids, keys and addresses as before, so the keys present before and after keep their
relative order and their ids; the objects already in the heap keep their values, and a
write through the reference returned by `m[k]` changes no value of another key.  (`at`,
`count` and `find` are read-only: they return no new map.) -/
theorem only_sort_reorders {K V : Type} [LinearOrder K] [Inhabited K] [Inhabited V]
    (m : GlideMap K) (heap : Heap V) (ids : List Nat) (k : K)
    (hr : GlideMap.Reach m heap ids) :
    (GlideMap.operatorIndex m heap k).1.iterate.filter (fun e => decide (e.2.1 ≠ k)) =
        m.iterate.filter (fun e => decide (e.2.1 ≠ k)) ∧
      (m.count k = 1 → (GlideMap.operatorIndex m heap k).1.iterate = m.iterate) ∧
      (∀ h, h < heap.length → (GlideMap.operatorIndex m heap k).2.1.read h = heap.read h) ∧
      (∀ (v : V) (e : Nat × (K × Nat)), e ∈ m.iterate → e.2.1 ≠ k →
        ((GlideMap.operatorIndex m heap k).2.1.write
          (GlideMap.operatorIndex m heap k).2.2 v).read e.2.2 = heap.read e.2.2) ∧
      (m.erase k).1.iterate.filter (fun e => decide (e.2.1 ≠ k)) =
        m.iterate.filter (fun e => decide (e.2.1 ≠ k)) ∧
      (m.erase k).1.iterate = m.iterate.filter (fun e => decide (e.2.1 ≠ k)) := by
  have hw : GlideMap.WF m heap.length := hr.wf.1
  refine ⟨GlideMap.iterate_operatorIndex_others heap hw k, ?_,
    GlideMap.read_operatorIndex heap hw k, ?_, GlideMap.iterate_erase_others hw k, ?_⟩
  · intro hk
    obtain ⟨⟨p, h⟩, hf⟩ := (GlideMap.count_eq_one_iff m k).1 hk
    rw [GlideMap.operatorIndex_present heap hw hf]
  · intro v e he hne
    exact GlideMap.read_after_assign heap hw k v e he hne
  · rw [← GlideMap.iterate_erase_others hw k, List.filter_eq_self.2]
    intro e he
    have hfe := (GlideMap.wf_erase hw k).find_of_mem_iterate he
    have hc := GlideMap.count_erase_self m k
    have : e.2.1 ≠ k := by
      intro e1
      rw [e1] at hfe
      rw [GlideMap.count_eq_zero_iff, hfe] at hc
      cases hc
    simpa using this

/-- The amended C16 on the map with the keys 3, 1, 2: inserting the new key 0 and
erasing the key 1 leave the other entries in place. -/
theorem only_sort_reorders_witness :
    GlideMap.Reach exampleMap3 ([0, 0, 0] : Heap Nat) [3, 2, 1] ∧
      (GlideMap.operatorIndex exampleMap3 ([0, 0, 0] : Heap Nat) 0).1.iterate.filter
          (fun e => decide (e.2.1 ≠ 0)) = exampleMap3.iterate.filter (fun e => decide (e.2.1 ≠ 0)) ∧
      (exampleMap3.erase 1).1.iterate = exampleMap3.iterate.filter (fun e => decide (e.2.1 ≠ 1)) :=
  ⟨exampleMap3_reach,
    (only_sort_reorders exampleMap3 [0, 0, 0] [3, 2, 1] 0 exampleMap3_reach).1,
    (only_sort_reorders exampleMap3 ([0, 0, 0] : Heap Nat) [3, 2, 1] 1 exampleMap3_reach).2.2.2.2.2⟩

end GlideJson

namespace GlideJson

set_option linter.unusedSectionVars false

/-- C17. After `clear()`: `size()` is 0, `empty()` is true, `count(k)` is 0 for every
key, iteration is empty, the counter is 0, and the key next inserted with `operator[]`
is the only entry and has position id 1. -/
theorem clear_resets {K V : Type} [LinearOrder K] [Inhabited K] [Inhabited V]
    (m : GlideMap K) (heap : Heap V) (key : K) :
    m.clear.size = 0 ∧ m.clear.isEmpty = true ∧ (∀ k, m.clear.count k = 0) ∧
      m.clear.iterate = [] ∧ m.clear.riterate = [] ∧ m.clear.counter = 0 ∧
      (GlideMap.operatorIndex m.clear heap key).1.iterate = [(1, (key, heap.length))] ∧
      StdMap.find key (GlideMap.operatorIndex m.clear heap key).1.keyMap =
        some (1, heap.length) := by
  refine ⟨rfl, rfl, fun k => rfl, rfl, rfl, rfl, ?_, ?_⟩
  · rw [GlideMap.operatorIndex_absent m.clear heap rfl]
    rfl
  · rw [GlideMap.operatorIndex_absent m.clear heap rfl]
    simp only [StdMap.find_insert, if_true]
    rfl

end GlideJson

namespace GlideJson

set_option linter.unusedSectionVars false

/-- The keys of a list that are not yet in `acc`, appended to `acc` in the order of
their first occurrence. -/
def collect {K : Type} [DecidableEq K] (acc : List K) : List K → List K
  | [] => acc
  | k :: r => collect (if k ∈ acc then acc else acc ++ [k]) r

/-- The distinct keys of a list in the order of their first occurrence. -/
def firstOccurrences {K : Type} [DecidableEq K] (keys : List K) : List K := collect [] keys

theorem length_le_collect {K : Type} [DecidableEq K] (acc keys : List K) :
    acc.length ≤ (collect acc keys).length := by
  induction keys generalizing acc with
  | nil => exact le_refl _
  | cons k r ih =>
    unfold collect
    by_cases h : k ∈ acc
    · rw [if_pos h]; exact ih acc
    · rw [if_neg h]
      exact le_trans (by simp) (ih (acc ++ [k]))

theorem mem_collect {K : Type} [DecidableEq K] (acc keys : List K) (a : K) :
    a ∈ collect acc keys ↔ a ∈ acc ∨ a ∈ keys := by
  induction keys generalizing acc with
  | nil => simp [collect]
  | cons k r ih =>
    unfold collect
    by_cases h : k ∈ acc
    · rw [if_pos h, ih]
      constructor
      · rintro (h1 | h1)
        · exact Or.inl h1
        · exact Or.inr (List.mem_cons_of_mem _ h1)
      · rintro (h1 | h1)
        · exact Or.inl h1
        · rcases List.mem_cons.1 h1 with e | h2
          · exact Or.inl (e ▸ h)
          · exact Or.inr h2
    · rw [if_neg h, ih, List.mem_append, List.mem_singleton, List.mem_cons]
      constructor
      · rintro ((h1 | h1) | h1)
        · exact Or.inl h1
        · exact Or.inr (Or.inl h1)
        · exact Or.inr (Or.inr h1)
      · rintro (h1 | h1 | h1)
        · exact Or.inl (Or.inl h1)
        · exact Or.inl (Or.inr h1)
        · exact Or.inr h1

theorem nodup_collect {K : Type} [DecidableEq K] (acc keys : List K) (h : acc.Nodup) :
    (collect acc keys).Nodup := by
  induction keys generalizing acc with
  | nil => exact h
  | cons k r ih =>
    unfold collect
    by_cases hk : k ∈ acc
    · rw [if_pos hk]; exact ih acc h
    · rw [if_neg hk]
      apply ih
      rw [List.nodup_append]
      refine ⟨h, List.nodup_singleton k, ?_⟩
      intro a ha hb
      rw [List.mem_singleton] at hb
      exact hk (hb ▸ ha)

namespace GlideMap

variable {K : Type} [LinearOrder K]

/-- The keys met in iteration after `operator[]` has been applied to each key of a
list, starting from a well-formed map in which no id has been freed. -/
theorem keysInOrder_insertAll {V : Type} [Inhabited V] [Inhabited K] :
    ∀ (keys : List K) (m : GlideMap K) (heap : Heap V), WF m heap.length →
      m.counter = m.positionMap.length →
      (collect m.keysInOrder keys).length < SIZE_MODULUS →
      (insertAll keys (m, heap)).1.keysInOrder = collect m.keysInOrder keys := by
  intro keys
  induction keys with
  | nil => intro m heap _ _ _; rfl
  | cons k r ih =>
    intro m heap hw hc hlen
    unfold insertAll
    cases hf : StdMap.find k m.keyMap with
    | some pair =>
      obtain ⟨p, h⟩ := pair
      have hk : k ∈ m.keysInOrder :=
        (hw.mem_keysInOrder_iff k).2 ((count_eq_one_iff m k).2 ⟨_, hf⟩)
      rw [operatorIndex_present heap hw hf]
      unfold collect at hlen ⊢
      rw [if_pos hk] at hlen ⊢
      exact ih m heap hw hc hlen
    | none =>
      have hk : k ∉ m.keysInOrder := by
        intro hk
        have := (hw.mem_keysInOrder_iff k).1 hk
        rw [(count_eq_zero_iff m k).2 hf] at this
        cases this
      unfold collect at hlen ⊢
      rw [if_neg hk] at hlen ⊢
      have hlen1 : (m.keysInOrder ++ [k]).length ≤ (collect (m.keysInOrder ++ [k]) r).length :=
        length_le_collect _ _
      have hlen2 : m.keysInOrder.length = m.positionMap.length := by
        simp [keysInOrder, iterate]
      have hcount : m.counter + 1 < SIZE_MODULUS := by
        rw [List.length_append, List.length_singleton] at hlen1
        omega
      have hins : StdMap.insert (m.counter + 1) (k, heap.length) m.positionMap =
          m.positionMap ++ [(m.counter + 1, (k, heap.length))] :=
        StdMap.insert_of_all_lt _ _ _ (fun a ha => Nat.lt_succ_of_le (hw.idRange a ha).2)
      have hw' := wf_insert_new hw hf hcount
      rw [operatorIndex_absent m heap hf, Nat.mod_eq_of_lt hcount]
      rw [hins] at hw' ⊢
      have hkeys : keysInOrder
          ({ keyMap := StdMap.insert k (m.counter + 1, heap.length) m.keyMap,
             positionMap := m.positionMap ++ [(m.counter + 1, (k, heap.length))],
             counter := m.counter + 1 } : GlideMap K) = m.keysInOrder ++ [k] := by
        simp [keysInOrder, iterate]
      rw [← hkeys] at hlen ⊢
      refine ih _ (heap ++ [default]) ?_ ?_ hlen
      · simpa using hw'
      · simp [hc]

end GlideMap

/-- C9. For every list of keys with fewer than 2^64 distinct keys, applied with
`operator[]` to an empty map (newly constructed, or just cleared): forward iteration
meets exactly the distinct keys in the order of their first occurrence (a list without
repetition that has the same members as the key list), and reverse iteration meets them
in the reverse order. -/
theorem insertion_order_preserved {K V : Type} [LinearOrder K] [Inhabited K] [Inhabited V]
    (keys : List K) (heap : Heap V) (m : GlideMap K)
    (hlen : (firstOccurrences keys).length < SIZE_MODULUS) :
    ((GlideMap.insertAll keys (GlideMap.empty, heap)).1.keysInOrder = firstOccurrences keys ∧
      (GlideMap.insertAll keys (GlideMap.empty, heap)).1.riterate.map (fun e => e.2.1) =
        (firstOccurrences keys).reverse) ∧
    ((GlideMap.insertAll keys (m.clear, heap)).1.keysInOrder = firstOccurrences keys ∧
      (GlideMap.insertAll keys (m.clear, heap)).1.riterate.map (fun e => e.2.1) =
        (firstOccurrences keys).reverse) ∧
    (firstOccurrences keys).Nodup ∧ ∀ k, k ∈ firstOccurrences keys ↔ k ∈ keys := by
  have h1 : (GlideMap.insertAll keys (GlideMap.empty, heap)).1.keysInOrder =
      firstOccurrences keys :=
    GlideMap.keysInOrder_insertAll keys GlideMap.empty heap (GlideMap.wf_empty _) rfl hlen
  have h2 : (GlideMap.insertAll keys (GlideMap.empty, heap)).1.riterate.map (fun e => e.2.1) =
      (firstOccurrences keys).reverse := by
    rw [← h1]
    simp [GlideMap.riterate, GlideMap.keysInOrder, GlideMap.iterate, List.map_reverse]
  refine ⟨⟨h1, h2⟩, ⟨h1, h2⟩, nodup_collect [] keys List.nodup_nil, ?_⟩
  intro k
  unfold firstOccurrences
  rw [mem_collect]
  simp

/-- C9 on the keys 3, 1, 3, 2: iteration meets 3, 1, 2. -/
theorem insertion_order_preserved_witness :
    (firstOccurrences [3, 1, 3, 2]).length < SIZE_MODULUS ∧
      (GlideMap.insertAll [3, 1, 3, 2]
        ((GlideMap.empty : GlideMap Nat), ([] : Heap Nat))).1.keysInOrder = [3, 1, 2] ∧
      (GlideMap.insertAll [3, 1, 3, 2]
        ((GlideMap.empty : GlideMap Nat), ([] : Heap Nat))).1.riterate.map (fun e => e.2.1) =
        [2, 1, 3] :=
  ⟨by decide,
    (insertion_order_preserved [3, 1, 3, 2] ([] : Heap Nat) GlideMap.empty (by decide)).1.1,
    (insertion_order_preserved [3, 1, 3, 2] ([] : Heap Nat) GlideMap.empty (by decide)).1.2⟩

end GlideJson

namespace GlideJson

set_option linter.unusedSectionVars false

namespace GlideMap

/-- The states a program can bring a `GlideMap` and its heap into, starting from the
empty map, by `operator[]`, writes through references, `erase`, `clear`, `sort` and
`rsort`; the counter may wrap around. -/
inductive Reachable {K V : Type} [LinearOrder K] [Inhabited V] [Inhabited K] :
    GlideMap K → Heap V → Prop
  | start (heap : Heap V) : Reachable empty heap
  | index {m : GlideMap K} {heap : Heap V} (key : K) :
      Reachable m heap →
      Reachable (operatorIndex m heap key).1 (operatorIndex m heap key).2.1
  | write {m : GlideMap K} {heap : Heap V} (h : Nat) (v : V) :
      Reachable m heap → Reachable m (heap.write h v)
  | erase {m : GlideMap K} {heap : Heap V} (key : K) :
      Reachable m heap → Reachable (m.erase key).1 heap
  | clear {m : GlideMap K} {heap : Heap V} : Reachable m heap → Reachable m.clear heap
  | sort {m : GlideMap K} {heap : Heap V} : Reachable m heap → Reachable m.sort heap
  | rsort {m : GlideMap K} {heap : Heap V} : Reachable m heap → Reachable m.rsort heap

/-- The map with the one key 1 at position 1 and the counter at `j`. -/
def oneKey (j : Nat) : GlideMap Nat :=
  { keyMap := [(1, (1, 0))], positionMap := [(1, (1, 0))], counter := j }

/-- Inserting the key 2 and erasing it again only advances the counter. -/
theorem oneKey_cycle (j : Nat) (hj : 1 ≤ j) (hlt : j + 1 < SIZE_MODULUS) (heap : Heap Nat) :
    ((operatorIndex (oneKey j) heap 2).1.erase 2).1 = oneKey (j + 1) := by
  have hf : StdMap.find 2 (oneKey j).keyMap = none := by simp [oneKey, StdMap.find]
  have hc : ((oneKey j).counter + 1) % SIZE_MODULUS = j + 1 := Nat.mod_eq_of_lt hlt
  rw [operatorIndex_absent (oneKey j) heap hf, hc]
  have h1 : ¬ j + 1 < 1 := by omega
  have h2 : 1 < j + 1 := by omega
  have h3 : ¬ j + 1 = 1 := by omega
  simp [erase, oneKey, StdMap.insert, StdMap.find, StdMap.erase, h1, h2, h3]

theorem oneKey_reachable (j : Nat) (hj : 1 ≤ j) (hlt : j < SIZE_MODULUS) :
    ∃ heap : Heap Nat, Reachable (oneKey j) heap := by
  induction j, hj using Nat.le_induction with
  | base => exact ⟨_, Reachable.index 1 (Reachable.start ([] : Heap Nat))⟩
  | succ j hj ih =>
    obtain ⟨heap, hr⟩ := ih (by omega)
    have := Reachable.erase 2 (Reachable.index 2 hr)
    rw [oneKey_cycle j hj hlt heap] at this
    exact ⟨_, this⟩

/-- After the counter has reached its greatest value, two more keys leave `keyMap`
with three entries and `positionMap` with two. -/
theorem oneKey_wrap (heap : Heap Nat) :
    (operatorIndex (operatorIndex (oneKey (SIZE_MODULUS - 1)) heap 2).1
        (operatorIndex (oneKey (SIZE_MODULUS - 1)) heap 2).2.1 3).1 =
      { keyMap := [(1, (1, 0)), (2, (0, heap.length)), (3, (1, heap.length + 1))],
        positionMap := [(0, (2, heap.length)), (1, (3, heap.length + 1))],
        counter := 1 } := by
  have hf : StdMap.find 2 (oneKey (SIZE_MODULUS - 1)).keyMap = none := by
    simp [oneKey, StdMap.find]
  have hc : ((oneKey (SIZE_MODULUS - 1)).counter + 1) % SIZE_MODULUS = 0 := by decide
  have hc1 : (0 + 1) % SIZE_MODULUS = 1 := by decide
  rw [operatorIndex_absent (oneKey (SIZE_MODULUS - 1)) heap hf, hc]
  rw [operatorIndex_absent _ _ (by simp [oneKey, StdMap.insert, StdMap.find])]
  simp [oneKey, StdMap.insert, hc1]

end GlideMap

/-- C10 as stated fails: after 2^64 - 1 values of the counter have been used up (one
key kept, another inserted and erased again and again), the counter wraps around to 0
and the second key inserted after that takes position 1 from the key that holds it:
`keyMap` then has three entries and `positionMap` two. -/
theorem index_coupling_counterexample :
    ¬ (∀ (m : GlideMap Nat) (heap : Heap Nat), GlideMap.Reachable m heap →
        m.keyMap.length = m.positionMap.length) := by
  intro h
  obtain ⟨heap, hr⟩ := GlideMap.oneKey_reachable (SIZE_MODULUS - 1) (by decide) (by decide)
  have h1 := h _ _ (GlideMap.Reachable.index 3 (GlideMap.Reachable.index 2 hr))
  rw [GlideMap.oneKey_wrap heap] at h1
  simp at h1

/-- C10, amended. In every state reachable from the empty map by `operator[]`, writes
through references, `erase`, `clear`, `sort` and `rsort` without wrapping the counter
around, `keyMap` and `positionMap` have the same number of entries, and `keyMap` maps
the key `k` to the position id `p` and the value object at address `h` exactly when
`positionMap` maps `p` to `k` and the same object (so to the same value). -/
theorem index_coupling {K V : Type} [LinearOrder K] [Inhabited K] [Inhabited V]
    {m : GlideMap K} {heap : Heap V} {ids : List Nat} (hr : GlideMap.Reach m heap ids) :
    m.keyMap.length = m.positionMap.length ∧
      (∀ k p h, StdMap.find k m.keyMap = some (p, h) ↔
        StdMap.find p m.positionMap = some (k, h)) ∧
      (∀ k p v, (∃ h, StdMap.find k m.keyMap = some (p, h) ∧ heap.read h = v) ↔
        (∃ h, StdMap.find p m.positionMap = some (k, h) ∧ heap.read h = v)) := by
  have hw := hr.wf.1
  refine ⟨hw.length_eq, hw.coupled, ?_⟩
  intro k p v
  constructor
  · rintro ⟨h, h1, h2⟩
    exact ⟨h, (hw.coupled k p h).1 h1, h2⟩
  · rintro ⟨h, h1, h2⟩
    exact ⟨h, (hw.coupled k p h).2 h1, h2⟩

/-- The amended C10 on the state reached by inserting the keys 3, 1, 2 and erasing the
key 1. -/
theorem index_coupling_witness :
    GlideMap.Reach (exampleMap3.erase 1).1 ([0, 0, 0] : Heap Nat) [3, 2, 1] ∧
      (exampleMap3.erase 1).1.keyMap.length = (exampleMap3.erase 1).1.positionMap.length :=
  ⟨GlideMap.Reach.erase 1 (GlideMap.Reach.index 2 (GlideMap.Reach.index 1
      (GlideMap.Reach.index 3 (GlideMap.Reach.start ([] : Heap Nat)) (by decide)) (by decide))
      (by decide)),
    (index_coupling (GlideMap.Reach.erase 1 (GlideMap.Reach.index 2 (GlideMap.Reach.index 1
      (GlideMap.Reach.index 3 (GlideMap.Reach.start ([] : Heap Nat)) (by decide)) (by decide))
      (by decide)))).1⟩

end GlideJson

namespace GlideJson

/-! ### Accepting states, whitespace transitions and the hex maps -/

/-- `GlideJson::getHex`: one read of `Encoder::hexMap`. -/
def getHex (input : Nat) : Nat := Encoder.hexMap input

/-- The ASCII lowercase hexadecimal digit of a nibble. -/
def lowerHexDigit (n : Nat) : Nat := if n ≤ 9 then 48 + n else 97 + (n - 10)

/-- The ASCII uppercase hexadecimal digit of a nibble. -/
def upperHexDigit (n : Nat) : Nat := if n ≤ 9 then 48 + n else 65 + (n - 10)

/-- The states the table is in after a proper prefix of a literal (`null`, `false`,
`true`), after a number prefix that still needs a digit (`-`, `.`, `e`, sign), inside
a string body, an escape or a multi-byte UTF-8 sequence (of a value string or of an
object key). -/
def Parser.insideToken (s : Nat) : Prop :=
  (2 ≤ s ∧ s ≤ 4) ∨ (6 ≤ s ∧ s ≤ 9) ∨ (11 ≤ s ∧ s ≤ 13) ∨ s = 17 ∨ s = 20 ∨ s = 22 ∨
    (24 ≤ s ∧ s ≤ 26) ∨ (28 ≤ s ∧ s ≤ 56)

theorem Parser.not_accepting_of_insideToken {s : Nat} (h : Parser.insideToken s) :
    ¬ Parser.accepting s := by
  unfold Parser.insideToken at h
  unfold Parser.accepting
  omega

theorem Parser.incompleteMap_true_iff (s : Nat) (hs : s < 69) :
    Parser.incompleteMap s = true ↔ ¬ Parser.accepting s := by
  rw [← Parser.incompleteMap_false_iff s hs]
  cases Parser.incompleteMap s <;> simp

theorem Parser.step_whitespace_entry {w : Nat} (hw : IsWhitespace w) :
    Parser.step 1 w = 1 := by
  rcases hw with rfl | rfl | rfl | rfl <;>
    exact Parser.step_eval _ _ _ (by decide) (by decide) rfl

theorem Parser.step_whitespace_key {s w : Nat} (hs : s = 27 ∨ s = 67)
    (hw : IsWhitespace w) : Parser.step s w = 67 := by
  rcases hs with rfl | rfl <;> rcases hw with rfl | rfl | rfl | rfl <;>
    exact Parser.step_eval _ _ _ (by decide) (by decide) rfl

theorem Parser.step_whitespace_object {s w : Nat} (hs : s = 61 ∨ s = 64 ∨ s = 66)
    (hw : IsWhitespace w) : Parser.step s w = 66 := by
  rcases hs with rfl | rfl | rfl <;> rcases hw with rfl | rfl | rfl | rfl <;>
    exact Parser.step_eval _ _ _ (by decide) (by decide) rfl

theorem Parser.step_whitespace_value {s w : Nat} (hs : Parser.accepting s)
    (h27 : s ≠ 27) (h67 : s ≠ 67) (hw : IsWhitespace w) : Parser.step s w = 68 := by
  unfold Parser.accepting at hs
  rcases hs with rfl | rfl | rfl | rfl | rfl | rfl | rfl | rfl | rfl | rfl | rfl | rfl |
    rfl | rfl | rfl | rfl
  all_goals first
    | exact absurd rfl h27
    | exact absurd rfl h67
    | (rcases hw with rfl | rfl | rfl | rfl <;>
        exact Parser.step_eval _ _ _ (by decide) (by decide) rfl)

theorem getHex_eq (n : Nat) (hn : n ≤ 15) : getHex n = lowerHexDigit n := by
  interval_cases n <;> rfl

theorem Parser.hexMap_lower (n : Nat) (hn : n ≤ 15) :
    Parser.hexMap (lowerHexDigit n) = n := by
  interval_cases n <;> rfl

theorem Parser.hexMap_upper (n : Nat) (hn : n ≤ 15) :
    Parser.hexMap (upperHexDigit n) = n := by
  interval_cases n <;> rfl

/-- C21. After `Parser::initialize()`, for every state `s` in `0..68`,
`incompleteMap[s]` is false exactly when `s` is one of the sixteen states 5, 10, 14,
15, 16, 18, 19, 21, 23, 27, 58, 59, 62, 63, 67, 68, and true exactly when it is not;
the failure state 0, the entry state 1 and every state inside a literal, a number
prefix, a string body, an escape or a UTF-8 sequence have `incompleteMap` true. -/
theorem incompleteMap_false_exactly_accepting (s : Nat) (hs : s < 69) :
    (Parser.incompleteMap s = false ↔ Parser.accepting s) ∧
    (Parser.incompleteMap s = true ↔ ¬ Parser.accepting s) ∧
    Parser.incompleteMap 0 = true ∧ Parser.incompleteMap 1 = true ∧
    (Parser.insideToken s → Parser.incompleteMap s = true) := by
  refine ⟨Parser.incompleteMap_false_iff s hs, Parser.incompleteMap_true_iff s hs, ?_, ?_, ?_⟩
  · exact (Parser.incompleteMap_true_iff 0 (by decide)).2 (by unfold Parser.accepting; omega)
  · exact (Parser.incompleteMap_true_iff 1 (by decide)).2 (by unfold Parser.accepting; omega)
  · intro h
    exact (Parser.incompleteMap_true_iff s hs).2 (Parser.not_accepting_of_insideToken h)

theorem incompleteMap_false_exactly_accepting_witness :
    (Parser.incompleteMap 19 = false ↔ Parser.accepting 19) ∧
    (Parser.incompleteMap 19 = true ↔ ¬ Parser.accepting 19) ∧
    Parser.incompleteMap 0 = true ∧ Parser.incompleteMap 1 = true ∧
    (Parser.insideToken 19 → Parser.incompleteMap 19 = true) :=
  incompleteMap_false_exactly_accepting 19 (by decide)

/-- C26. For every `n` in `0..15`, `GlideJson::getHex(n)` is the ASCII lowercase
hexadecimal digit of `n` (`'0'..'9'` for 0..9, `'a'..'f'` for 10..15), the
parser's `hexMap` maps that digit back to `n`, and the parser's `hexMap` also maps
the uppercase digit of `n` (`'A'..'F'` for 10..15) to `n`. -/
theorem getHex_roundtrip (n : Nat) (hn : n ≤ 15) :
    getHex n = lowerHexDigit n ∧
    (n ≤ 9 → getHex n = 48 + n) ∧ (10 ≤ n → getHex n = 97 + (n - 10)) ∧
    Parser.hexMap (getHex n) = n ∧
    (10 ≤ n → Parser.hexMap (65 + (n - 10)) = n) := by
  have h1 := getHex_eq n hn
  refine ⟨h1, ?_, ?_, ?_, ?_⟩
  · intro h; rw [h1, lowerHexDigit, if_pos h]
  · intro h; rw [h1, lowerHexDigit, if_neg (by omega)]
  · rw [h1]; exact Parser.hexMap_lower n hn
  · intro h
    have h2 := Parser.hexMap_upper n hn
    rw [upperHexDigit, if_neg (by omega)] at h2
    exact h2

theorem getHex_roundtrip_witness :
    getHex 11 = lowerHexDigit 11 ∧
    (11 ≤ 9 → getHex 11 = 48 + 11) ∧ (10 ≤ 11 → getHex 11 = 97 + (11 - 10)) ∧
    Parser.hexMap (getHex 11) = 11 ∧
    (10 ≤ 11 → Parser.hexMap (65 + (11 - 10)) = 11) :=
  getHex_roundtrip 11 (by decide)

/-- C30. Whitespace transitions of the parser table: for every whitespace byte `w`
(0x09, 0x0A, 0x0D, 0x20), state 1 maps `w` to 1, states 27 and 67 map `w` to 67,
states 61, 64 and 66 map `w` to 66, and every accepting state other than 27 and 67
maps `w` to 68. -/
theorem whitespace_transitions (w : Nat) (hw : IsWhitespace w) :
    Parser.step 1 w = 1 ∧
    Parser.step 27 w = 67 ∧ Parser.step 67 w = 67 ∧
    Parser.step 61 w = 66 ∧ Parser.step 64 w = 66 ∧ Parser.step 66 w = 66 ∧
    (∀ s, Parser.accepting s → s ≠ 27 → s ≠ 67 → Parser.step s w = 68) :=
  ⟨Parser.step_whitespace_entry hw,
   Parser.step_whitespace_key (Or.inl rfl) hw,
   Parser.step_whitespace_key (Or.inr rfl) hw,
   Parser.step_whitespace_object (Or.inl rfl) hw,
   Parser.step_whitespace_object (Or.inr (Or.inl rfl)) hw,
   Parser.step_whitespace_object (Or.inr (Or.inr rfl)) hw,
   fun _ hs h27 h67 => Parser.step_whitespace_value hs h27 h67 hw⟩

theorem whitespace_transitions_witness :
    IsWhitespace 32 ∧
    Parser.step 1 32 = 1 ∧
    Parser.step 27 32 = 67 ∧ Parser.step 67 32 = 67 ∧
    Parser.step 61 32 = 66 ∧ Parser.step 64 32 = 66 ∧ Parser.step 66 32 = 66 ∧
    (∀ s, Parser.accepting s → s ≠ 27 → s ≠ 67 → Parser.step s 32 = 68) :=
  ⟨Or.inr (Or.inr (Or.inr rfl)), whitespace_transitions 32 (Or.inr (Or.inr (Or.inr rfl)))⟩

end GlideJson

namespace GlideJson

/-! ### The rows of the encoder table -/

namespace Encoder

/-- The encoder states inside a multi-byte UTF-8 sequence. -/
def midSequence (s : Nat) : Prop :=
  s = 10 ∨ s = 12 ∨ s = 13 ∨ s = 14 ∨ s = 15 ∨ s = 17 ∨ s = 18 ∨ s = 19 ∨ s = 20 ∨ s = 21

/-- The encoder states a tail byte leads to. -/
def continuation (s : Nat) : Prop :=
  s = 11 ∨ s = 15 ∨ s = 16 ∨ s = 20 ∨ s = 21 ∨ s = 22

/-- The encoder states at a character boundary. -/
def boundary (s : Nat) : Prop := s ≤ 8 ∨ s = 11 ∨ s = 16 ∨ s = 22

/-- The least tail byte a mid-sequence state accepts. -/
def tailLo (s : Nat) : Nat := if s = 12 then 160 else if s = 17 then 144 else 128

/-- The greatest tail byte a mid-sequence state accepts. -/
def tailHi (s : Nat) : Nat := if s = 14 then 159 else if s = 19 then 143 else 191

/-- The tail bytes a mid-sequence state accepts: the bytes for which
`Encoder::initialize()` stores a continuation state in the row of `s`. -/
def legalTail (s b : Nat) : Prop := tailLo s ≤ b ∧ b ≤ tailHi s

instance (s b : Nat) : Decidable (legalTail s b) := by unfold legalTail; infer_instance

/-- The state a legal tail byte leads to from a mid-sequence state. -/
def tailNext (s : Nat) : Nat :=
  if s = 10 then 11
  else if s = 12 ∨ s = 13 ∨ s = 14 then 15
  else if s = 15 then 16
  else if s = 17 ∨ s = 18 ∨ s = 19 then 20
  else if s = 20 then 21
  else 22

/-- The run of the encoder table over a byte string. -/
def run (state : Nat) (input : List Nat) : Nat := input.foldl step state

/-- The states the run of the encoder table enters, one for each byte read. -/
def trace (state : Nat) : List Nat → List Nat
  | [] => []
  | b :: r => step state b :: trace (step state b) r

end Encoder

theorem Encoder.step_boundaryRow (s : Nat) (hs : Encoder.boundary s ∨ s = 9) (b : Nat)
    (hb : b < 256) : Encoder.step s b = Encoder.boundaryRow b := by
  have hs1 : s < 23 := by unfold Encoder.boundary at hs; omega
  rw [Encoder.encStep_eq_tableStep s hs1 b hb]
  unfold Encoder.boundary at hs
  rcases hs with (h | rfl | rfl | rfl) | rfl
  · interval_cases s <;> rfl
  all_goals rfl

theorem Encoder.step_midRow (s : Nat) (hs : Encoder.midSequence s) (b : Nat) (hb : b < 256) :
    Encoder.step s b =
      if b < 128 then Encoder.escapable b
      else if Encoder.legalTail s b then Encoder.tailNext s else 9 := by
  have hs1 : s < 23 := by unfold Encoder.midSequence at hs; omega
  rw [Encoder.encStep_eq_tableStep s hs1 b hb]
  unfold Encoder.midSequence at hs
  rcases hs with rfl | rfl | rfl | rfl | rfl | rfl | rfl | rfl | rfl | rfl <;> rfl

theorem Encoder.escapable_le (b : Nat) : Encoder.escapable b ≤ 8 := by
  unfold Encoder.escapable
  split_ifs <;> omega

theorem Encoder.step_ascii (s : Nat) (hs : s < 23) (b : Nat) (hb : b < 128) :
    Encoder.step s b = Encoder.escapable b := by
  by_cases hm : Encoder.midSequence s
  · rw [Encoder.step_midRow s hm b (by omega), if_pos hb]
  · have hb1 : Encoder.boundary s ∨ s = 9 := by
      unfold Encoder.midSequence at hm
      unfold Encoder.boundary
      omega
    rw [Encoder.step_boundaryRow s hb1 b (by omega), Encoder.boundaryRow, if_pos hb]

/-- C22. After `Encoder::initialize()`, row 0 of the encoder table gives for every
byte `b`: 2 for the double quote, 3 for the backslash, 4, 5, 6, 7, 8 for 0x08, 0x0C,
0x0A, 0x0D, 0x09, 1 for every other byte in 0x00..0x1F, 0 for every other byte in
0x20..0x7F, and 9 for every byte in 0x80..0xC1 and in 0xF5..0xFF. -/
theorem encoder_row_zero (b : Nat) (hb : b < 256) :
    (b = 34 → Encoder.step 0 b = 2) ∧ (b = 92 → Encoder.step 0 b = 3) ∧
    (b = 8 → Encoder.step 0 b = 4) ∧ (b = 12 → Encoder.step 0 b = 5) ∧
    (b = 10 → Encoder.step 0 b = 6) ∧ (b = 13 → Encoder.step 0 b = 7) ∧
    (b = 9 → Encoder.step 0 b = 8) ∧
    (b ≤ 31 → b ≠ 8 → b ≠ 12 → b ≠ 10 → b ≠ 13 → b ≠ 9 → Encoder.step 0 b = 1) ∧
    (32 ≤ b → b ≤ 127 → b ≠ 34 → b ≠ 92 → Encoder.step 0 b = 0) ∧
    (128 ≤ b → b ≤ 193 → Encoder.step 0 b = 9) ∧
    (245 ≤ b → Encoder.step 0 b = 9) := by
  rw [Encoder.step_boundaryRow 0 (Or.inl (Or.inl (by decide))) b hb]
  refine ⟨?_, ?_, ?_, ?_, ?_, ?_, ?_, ?_, ?_, ?_, ?_⟩
  · rintro rfl; rfl
  · rintro rfl; rfl
  · rintro rfl; rfl
  · rintro rfl; rfl
  · rintro rfl; rfl
  · rintro rfl; rfl
  · rintro rfl; rfl
  · intro h1 h2 h3 h4 h5 h6
    interval_cases b <;> first | rfl | omega
  · intro h1 h2 h3 h4
    interval_cases b <;> first | rfl | exact absurd rfl h3 | exact absurd rfl h4
  · intro h1 h2
    unfold Encoder.boundaryRow
    rw [if_neg (by omega), if_pos h2]
  · intro h1
    interval_cases b <;> rfl

theorem encoder_row_zero_witness :
    (65 = 34 → Encoder.step 0 65 = 2) ∧ (65 = 92 → Encoder.step 0 65 = 3) ∧
    (65 = 8 → Encoder.step 0 65 = 4) ∧ (65 = 12 → Encoder.step 0 65 = 5) ∧
    (65 = 10 → Encoder.step 0 65 = 6) ∧ (65 = 13 → Encoder.step 0 65 = 7) ∧
    (65 = 9 → Encoder.step 0 65 = 8) ∧
    (65 ≤ 31 → 65 ≠ 8 → 65 ≠ 12 → 65 ≠ 10 → 65 ≠ 13 → 65 ≠ 9 → Encoder.step 0 65 = 1) ∧
    (32 ≤ 65 → 65 ≤ 127 → 65 ≠ 34 → 65 ≠ 92 → Encoder.step 0 65 = 0) ∧
    (128 ≤ 65 → 65 ≤ 193 → Encoder.step 0 65 = 9) ∧
    (245 ≤ 65 → Encoder.step 0 65 = 9) :=
  encoder_row_zero 65 (by decide)

/-- C24 (fails on the code). In the mid-sequence state 10 the ASCII byte `A` (0x41)
is not a legal continuation byte, yet the table routes it to state 0 and not to
state 9: `Encoder::setEscapable(10)` gives the ASCII bytes of a mid-sequence row the
same entries as in row 0. -/
theorem mid_state_routes_to_invalid_counterexample :
    Encoder.midSequence 10 ∧ ¬ Encoder.legalTail 10 65 ∧ Encoder.step 10 65 = 0 ∧
      Encoder.step 10 65 ≠ 9 := by
  have h : Encoder.step 10 65 = 0 := by
    rw [Encoder.encStep_eq_tableStep 10 (by decide) 65 (by decide)]; rfl
  refine ⟨Or.inl rfl, ?_, h, ?_⟩
  · decide
  · rw [h]; decide

/-- C24 (amended). For every mid-sequence encoder state `s` and every byte `b` that
is not a legal continuation byte for `s`: if `b` is 0x80 or above (for instance a
new lead byte in state 10) the table routes `(s, b)` to state 9; if `b` is an ASCII
byte the entry `(s, b)` equals the entry `(0, b)`, one of the actions 0 to 8. -/
theorem mid_state_routes_to_invalid (s b : Nat) (hs : Encoder.midSequence s) (hb : b < 256)
    (hl : ¬ Encoder.legalTail s b) :
    (128 ≤ b → Encoder.step s b = 9) ∧
    (b < 128 → Encoder.step s b = Encoder.step 0 b ∧ Encoder.step s b ≤ 8) := by
  constructor
  · intro h
    rw [Encoder.step_midRow s hs b hb, if_neg (by omega), if_neg hl]
  · intro h
    have hs1 : s < 23 := by unfold Encoder.midSequence at hs; omega
    rw [Encoder.step_ascii s hs1 b h, Encoder.step_ascii 0 (by decide) b h]
    exact ⟨rfl, Encoder.escapable_le b⟩

theorem mid_state_routes_to_invalid_witness :
    Encoder.midSequence 10 ∧ 195 < 256 ∧ ¬ Encoder.legalTail 10 195 ∧
    (128 ≤ 195 → Encoder.step 10 195 = 9) ∧
    (195 < 128 → Encoder.step 10 195 = Encoder.step 0 195 ∧ Encoder.step 10 195 ≤ 8) :=
  ⟨Or.inl rfl, by decide, by decide,
    mid_state_routes_to_invalid 10 195 (Or.inl rfl) (by decide)
      (by decide)⟩

/-- C25. For every byte `b` and every boundary state `s` in {1, 2, 3, 4, 5, 6, 7,
8, 11, 16, 22}, the encoder table entry `(s, b)` equals the entry `(0, b)`. -/
theorem boundary_rows_copy_row_zero (s b : Nat)
    (hs : (1 ≤ s ∧ s ≤ 8) ∨ s = 11 ∨ s = 16 ∨ s = 22) (hb : b < 256) :
    Encoder.step s b = Encoder.step 0 b := by
  have h1 : Encoder.boundary s ∨ s = 9 := by unfold Encoder.boundary; omega
  rw [Encoder.step_boundaryRow s h1 b hb,
    Encoder.step_boundaryRow 0 (Or.inl (Or.inl (by decide))) b hb]

theorem boundary_rows_copy_row_zero_witness :
    ((1 ≤ 16 ∧ 16 ≤ 8) ∨ 16 = 11 ∨ 16 = 16 ∨ 16 = 22) ∧ 226 < 256 ∧
    Encoder.step 16 226 = Encoder.step 0 226 :=
  ⟨by decide, by decide, boundary_rows_copy_row_zero 16 226 (by decide) (by decide)⟩

end GlideJson

namespace GlideJson

/-! ### The encoder table recognises RFC 3629 UTF-8 -/

namespace Encoder

/-- The run from `s` never enters state 9, every byte read in a mid-sequence state
leads to a continuation state, and the run ends at a character boundary. -/
def okRun : Nat → List Nat → Prop
  | s, [] => boundary s
  | s, b :: r => step s b ≠ 9 ∧ (midSequence s → continuation (step s b)) ∧ okRun (step s b) r

end Encoder

theorem Encoder.encRun_nil (s : Nat) : Encoder.run s [] = s := rfl

theorem Encoder.encRun_cons (s b : Nat) (r : List Nat) :
    Encoder.run s (b :: r) = Encoder.run (Encoder.step s b) r := rfl

theorem Encoder.okRun_iff (l : List Nat) : ∀ s, Encoder.okRun s l ↔
    (9 ∉ Encoder.trace s l ∧
      List.Chain (fun s t => Encoder.midSequence s → Encoder.continuation t) s
        (Encoder.trace s l) ∧
      Encoder.boundary (Encoder.run s l)) := by
  induction l with
  | nil =>
    intro s
    simp only [Encoder.okRun, Encoder.trace, Encoder.encRun_nil, List.not_mem_nil,
      not_false_eq_true, List.Chain.nil, true_and]
  | cons b r ih =>
    intro s
    simp only [Encoder.okRun, Encoder.trace, Encoder.encRun_cons, List.mem_cons, not_or,
      List.chain_cons, ih (Encoder.step s b)]
    constructor
    · rintro ⟨h1, h2, h3, h4, h5⟩
      exact ⟨⟨fun h => h1 h.symm, h3⟩, ⟨h2, h4⟩, h5⟩
    · rintro ⟨⟨h1, h3⟩, ⟨h2, h4⟩, h5⟩
      exact ⟨fun h => h1 h.symm, h2, h3, h4, h5⟩

theorem Encoder.not_mid_of_boundary {s : Nat} (h : Encoder.boundary s) :
    ¬ Encoder.midSequence s := by
  unfold Encoder.boundary at h
  unfold Encoder.midSequence
  omega

theorem Encoder.not_boundary_of_mid {s : Nat} (h : Encoder.midSequence s) :
    ¬ Encoder.boundary s := fun hb => Encoder.not_mid_of_boundary hb h

theorem Encoder.tailNext_continuation {s : Nat} (h : Encoder.midSequence s) :
    Encoder.continuation (Encoder.tailNext s) := by
  unfold Encoder.midSequence at h
  rcases h with rfl | rfl | rfl | rfl | rfl | rfl | rfl | rfl | rfl | rfl <;>
    unfold Encoder.continuation Encoder.tailNext <;> simp

theorem Encoder.continuation_ne {s : Nat} (h : Encoder.continuation s) : 9 ≤ s ∧ s ≠ 9 := by
  unfold Encoder.continuation at h
  omega

theorem Encoder.legalTail_byte {s b : Nat} (h : Encoder.legalTail s b) :
    128 ≤ b ∧ b < 256 := by
  unfold Encoder.legalTail Encoder.tailLo Encoder.tailHi at h
  split_ifs at h <;> omega

theorem Encoder.boundaryRow_cases (a : Nat) :
    (a < 128 ∧ Encoder.boundaryRow a = Encoder.escapable a) ∨
    (128 ≤ a ∧ (a ≤ 193 ∨ 245 ≤ a) ∧ Encoder.boundaryRow a = 9) ∨
    (194 ≤ a ∧ a ≤ 223 ∧ Encoder.boundaryRow a = 10) ∨
    (a = 224 ∧ Encoder.boundaryRow a = 12) ∨
    (225 ≤ a ∧ a ≤ 236 ∧ Encoder.boundaryRow a = 13) ∨
    (a = 237 ∧ Encoder.boundaryRow a = 14) ∨
    (238 ≤ a ∧ a ≤ 239 ∧ Encoder.boundaryRow a = 13) ∨
    (a = 240 ∧ Encoder.boundaryRow a = 17) ∨
    (241 ≤ a ∧ a ≤ 243 ∧ Encoder.boundaryRow a = 18) ∨
    (a = 244 ∧ Encoder.boundaryRow a = 19) := by
  unfold Encoder.boundaryRow
  by_cases h1 : a < 128
  · left; exact ⟨h1, if_pos h1⟩
  rw [if_neg h1]
  by_cases h2 : a ≤ 193
  · right; left; exact ⟨by omega, Or.inl h2, if_pos h2⟩
  rw [if_neg h2]
  by_cases h3 : a ≤ 223
  · right; right; left; exact ⟨by omega, h3, if_pos h3⟩
  rw [if_neg h3]
  by_cases h4 : a = 224
  · right; right; right; left; exact ⟨h4, if_pos h4⟩
  rw [if_neg h4]
  by_cases h5 : a ≤ 236
  · right; right; right; right; left; exact ⟨by omega, h5, if_pos h5⟩
  rw [if_neg h5]
  by_cases h6 : a = 237
  · right; right; right; right; right; left; exact ⟨h6, if_pos h6⟩
  rw [if_neg h6]
  by_cases h7 : a ≤ 239
  · right; right; right; right; right; right; left; exact ⟨by omega, h7, if_pos h7⟩
  rw [if_neg h7]
  by_cases h8 : a = 240
  · right; right; right; right; right; right; right; left; exact ⟨h8, if_pos h8⟩
  rw [if_neg h8]
  by_cases h9 : a ≤ 243
  · right; right; right; right; right; right; right; right; left
    exact ⟨by omega, h9, if_pos h9⟩
  rw [if_neg h9]
  by_cases h10 : a = 244
  · right; right; right; right; right; right; right; right; right; exact ⟨h10, if_pos h10⟩
  · right; left; exact ⟨by omega, Or.inr (by omega), if_neg h10⟩

theorem Encoder.okRun_lead {s a m : Nat} {r : List Nat} (hs : Encoder.boundary s)
    (ha : a < 256) (hm : Encoder.boundaryRow a = m) (h9 : m ≠ 9) (h : Encoder.okRun m r) :
    Encoder.okRun s (a :: r) := by
  have e : Encoder.step s a = m := by rw [Encoder.step_boundaryRow s (Or.inl hs) a ha, hm]
  simp only [Encoder.okRun]
  rw [e]
  exact ⟨h9, fun hmid => absurd hmid (Encoder.not_mid_of_boundary hs), h⟩

theorem Encoder.okRun_tail {s b : Nat} {r : List Nat} (hs : Encoder.midSequence s)
    (hb : Encoder.legalTail s b) (h : Encoder.okRun (Encoder.tailNext s) r) :
    Encoder.okRun s (b :: r) := by
  have hb1 := Encoder.legalTail_byte hb
  have e : Encoder.step s b = Encoder.tailNext s := by
    rw [Encoder.step_midRow s hs b hb1.2, if_neg (by omega), if_pos hb]
  have hc := Encoder.tailNext_continuation hs
  simp only [Encoder.okRun]
  rw [e]
  exact ⟨(Encoder.continuation_ne hc).2, fun _ => hc, h⟩

theorem Encoder.okRun_lead_inv {s a : Nat} {r : List Nat} (hs : Encoder.boundary s)
    (ha : a < 256) (h : Encoder.okRun s (a :: r)) :
    Encoder.boundaryRow a ≠ 9 ∧ Encoder.okRun (Encoder.boundaryRow a) r := by
  simp only [Encoder.okRun] at h
  rw [Encoder.step_boundaryRow s (Or.inl hs) a ha] at h
  exact ⟨h.1, h.2.2⟩

theorem Encoder.okRun_tail_inv {s : Nat} {l : List Nat} (hs : Encoder.midSequence s)
    (hl : Bytes l) (h : Encoder.okRun s l) :
    ∃ b r, l = b :: r ∧ Encoder.legalTail s b ∧ Encoder.okRun (Encoder.tailNext s) r := by
  cases l with
  | nil => exact absurd h (Encoder.not_boundary_of_mid hs)
  | cons b r =>
    have hb : b < 256 := hl b (List.mem_cons_self b r)
    simp only [Encoder.okRun] at h
    rw [Encoder.step_midRow s hs b hb] at h
    obtain ⟨h1, h2, h3⟩ := h
    have h2 := Encoder.continuation_ne (h2 hs)
    by_cases c1 : b < 128
    · rw [if_pos c1] at h2
      have := Encoder.escapable_le b
      omega
    · rw [if_neg c1] at h1 h3
      by_cases c2 : Encoder.legalTail s b
      · rw [if_pos c2] at h3
        exact ⟨b, r, rfl, c2, h3⟩
      · rw [if_neg c2] at h1
        exact absurd rfl h1

theorem bytes_tail {a : Nat} {r : List Nat} (h : Bytes (a :: r)) : Bytes r :=
  fun x hx => h x (List.mem_cons_of_mem a hx)

theorem Encoder.okRun_of_utf8 {l : List Nat} (h : UTF8Octets l) :
    ∀ s, Encoder.boundary s → Encoder.okRun s l := by
  have b11 : Encoder.boundary 11 := by unfold Encoder.boundary; omega
  have b16 : Encoder.boundary 16 := by unfold Encoder.boundary; omega
  have b22 : Encoder.boundary 22 := by unfold Encoder.boundary; omega
  have m10 : Encoder.midSequence 10 := by unfold Encoder.midSequence; omega
  have m12 : Encoder.midSequence 12 := by unfold Encoder.midSequence; omega
  have m13 : Encoder.midSequence 13 := by unfold Encoder.midSequence; omega
  have m14 : Encoder.midSequence 14 := by unfold Encoder.midSequence; omega
  have m15 : Encoder.midSequence 15 := by unfold Encoder.midSequence; omega
  have m17 : Encoder.midSequence 17 := by unfold Encoder.midSequence; omega
  have m18 : Encoder.midSequence 18 := by unfold Encoder.midSequence; omega
  have m19 : Encoder.midSequence 19 := by unfold Encoder.midSequence; omega
  have m20 : Encoder.midSequence 20 := by unfold Encoder.midSequence; omega
  have m21 : Encoder.midSequence 21 := by unfold Encoder.midSequence; omega
  induction h with
  | nil => intro s hs; exact hs
  | @utf8_1 a r ha _ ih =>
    intro s hs
    have e : Encoder.boundaryRow a = Encoder.escapable a := by
      unfold Encoder.boundaryRow; rw [if_pos (by omega)]
    have h8 := Encoder.escapable_le a
    exact Encoder.okRun_lead hs (by omega) e (by omega) (ih _ (Or.inl h8))
  | @utf8_2 a b r h1 h2 hb _ ih =>
    intro s hs
    have e : Encoder.boundaryRow a = 10 := by
      rcases Encoder.boundaryRow_cases a with h | h | h | h | h | h | h | h | h | h <;>
        first | exact h.2.2 | omega
    exact Encoder.okRun_lead hs (by omega) e (by decide)
      (Encoder.okRun_tail m10 hb (ih 11 b11))
  | @utf8_3_E0 b c r h1 h2 hc _ ih =>
    intro s hs
    exact Encoder.okRun_lead (m := 12) hs (by decide) rfl (by decide)
      (Encoder.okRun_tail m12 ⟨h1, h2⟩ (Encoder.okRun_tail m15 hc (ih 16 b16)))
  | @utf8_3_E1_EC a b c r h1 h2 hb hc _ ih =>
    intro s hs
    have e : Encoder.boundaryRow a = 13 := by
      rcases Encoder.boundaryRow_cases a with h | h | h | h | h | h | h | h | h | h <;>
        first | exact h.2.2 | omega
    exact Encoder.okRun_lead hs (by omega) e (by decide)
      (Encoder.okRun_tail m13 hb (Encoder.okRun_tail m15 hc (ih 16 b16)))
  | @utf8_3_ED b c r h1 h2 hc _ ih =>
    intro s hs
    exact Encoder.okRun_lead (m := 14) hs (by decide) rfl (by decide)
      (Encoder.okRun_tail m14 ⟨h1, h2⟩ (Encoder.okRun_tail m15 hc (ih 16 b16)))
  | @utf8_3_EE_EF a b c r h1 h2 hb hc _ ih =>
    intro s hs
    have e : Encoder.boundaryRow a = 13 := by
      rcases Encoder.boundaryRow_cases a with h | h | h | h | h | h | h | h | h | h <;>
        first | exact h.2.2 | omega
    exact Encoder.okRun_lead hs (by omega) e (by decide)
      (Encoder.okRun_tail m13 hb (Encoder.okRun_tail m15 hc (ih 16 b16)))
  | @utf8_4_F0 b c d r h1 h2 hc hd _ ih =>
    intro s hs
    exact Encoder.okRun_lead (m := 17) hs (by decide) rfl (by decide)
      (Encoder.okRun_tail m17 ⟨h1, h2⟩
        (Encoder.okRun_tail m20 hc (Encoder.okRun_tail m21 hd (ih 22 b22))))
  | @utf8_4_F1_F3 a b c d r h1 h2 hb hc hd _ ih =>
    intro s hs
    have e : Encoder.boundaryRow a = 18 := by
      rcases Encoder.boundaryRow_cases a with h | h | h | h | h | h | h | h | h | h <;>
        first | exact h.2.2 | omega
    exact Encoder.okRun_lead hs (by omega) e (by decide)
      (Encoder.okRun_tail m18 hb
        (Encoder.okRun_tail m20 hc (Encoder.okRun_tail m21 hd (ih 22 b22))))
  | @utf8_4_F4 b c d r h1 h2 hc hd _ ih =>
    intro s hs
    exact Encoder.okRun_lead (m := 19) hs (by decide) rfl (by decide)
      (Encoder.okRun_tail m19 ⟨h1, h2⟩
        (Encoder.okRun_tail m20 hc (Encoder.okRun_tail m21 hd (ih 22 b22))))

theorem Encoder.utf8_of_okRun (n : Nat) : ∀ l : List Nat, l.length ≤ n → Bytes l →
    ∀ s, Encoder.boundary s → Encoder.okRun s l → UTF8Octets l := by
  have b11 : Encoder.boundary 11 := by unfold Encoder.boundary; omega
  have b16 : Encoder.boundary 16 := by unfold Encoder.boundary; omega
  have b22 : Encoder.boundary 22 := by unfold Encoder.boundary; omega
  have m10 : Encoder.midSequence 10 := by unfold Encoder.midSequence; omega
  have m12 : Encoder.midSequence 12 := by unfold Encoder.midSequence; omega
  have m13 : Encoder.midSequence 13 := by unfold Encoder.midSequence; omega
  have m14 : Encoder.midSequence 14 := by unfold Encoder.midSequence; omega
  have m15 : Encoder.midSequence 15 := by unfold Encoder.midSequence; omega
  have m17 : Encoder.midSequence 17 := by unfold Encoder.midSequence; omega
  have m18 : Encoder.midSequence 18 := by unfold Encoder.midSequence; omega
  have m19 : Encoder.midSequence 19 := by unfold Encoder.midSequence; omega
  have m20 : Encoder.midSequence 20 := by unfold Encoder.midSequence; omega
  have m21 : Encoder.midSequence 21 := by unfold Encoder.midSequence; omega
  induction n with
  | zero =>
    intro l hn _ _ _ _
    have : l = [] := List.length_eq_zero.mp (by omega)
    rw [this]; exact UTF8Octets.nil
  | succ n ih =>
    intro l hn hl s hs h
    cases l with
    | nil => exact UTF8Octets.nil
    | cons a r =>
      have ha : a < 256 := hl a (List.mem_cons_self a r)
      have hr : Bytes r := bytes_tail hl
      have hn1 : r.length ≤ n := by rw [List.length_cons] at hn; omega
      obtain ⟨h9, h1⟩ := Encoder.okRun_lead_inv hs ha h
      rcases Encoder.boundaryRow_cases a with c | c | c | c | c | c | c | c | c | c
      · -- UTF8-1
        rw [c.2] at h1
        exact UTF8Octets.utf8_1 (by omega)
          (ih r hn1 hr _ (Or.inl (Encoder.escapable_le a)) h1)
      · exact absurd c.2.2 h9
      · -- UTF8-2
        rw [c.2.2] at h1
        obtain ⟨b, r1, e1, t1, h2⟩ := Encoder.okRun_tail_inv m10 hr h1
        subst e1
        have hn2 : r1.length ≤ n := by rw [List.length_cons] at hn1; omega
        exact UTF8Octets.utf8_2 c.1 c.2.1 t1 (ih r1 hn2 (bytes_tail hr) 11 b11 h2)
      · -- E0
        rw [c.2] at h1
        obtain ⟨b, r1, e1, t1, h2⟩ := Encoder.okRun_tail_inv m12 hr h1
        subst e1
        obtain ⟨d, r2, e2, t2, h3⟩ := Encoder.okRun_tail_inv m15 (bytes_tail hr) h2
        subst e2
        have hn2 : r2.length ≤ n := by simp only [List.length_cons] at hn1; omega
        rw [c.1]
        exact UTF8Octets.utf8_3_E0 t1.1 t1.2 t2
          (ih r2 hn2 (bytes_tail (bytes_tail hr)) 16 b16 h3)
      · -- E1..EC
        rw [c.2.2] at h1
        obtain ⟨b, r1, e1, t1, h2⟩ := Encoder.okRun_tail_inv m13 hr h1
        subst e1
        obtain ⟨d, r2, e2, t2, h3⟩ := Encoder.okRun_tail_inv m15 (bytes_tail hr) h2
        subst e2
        have hn2 : r2.length ≤ n := by simp only [List.length_cons] at hn1; omega
        exact UTF8Octets.utf8_3_E1_EC c.1 c.2.1 t1 t2
          (ih r2 hn2 (bytes_tail (bytes_tail hr)) 16 b16 h3)
      · -- ED
        rw [c.2] at h1
        obtain ⟨b, r1, e1, t1, h2⟩ := Encoder.okRun_tail_inv m14 hr h1
        subst e1
        obtain ⟨d, r2, e2, t2, h3⟩ := Encoder.okRun_tail_inv m15 (bytes_tail hr) h2
        subst e2
        have hn2 : r2.length ≤ n := by simp only [List.length_cons] at hn1; omega
        rw [c.1]
        exact UTF8Octets.utf8_3_ED t1.1 t1.2 t2
          (ih r2 hn2 (bytes_tail (bytes_tail hr)) 16 b16 h3)
      · -- EE..EF
        rw [c.2.2] at h1
        obtain ⟨b, r1, e1, t1, h2⟩ := Encoder.okRun_tail_inv m13 hr h1
        subst e1
        obtain ⟨d, r2, e2, t2, h3⟩ := Encoder.okRun_tail_inv m15 (bytes_tail hr) h2
        subst e2
        have hn2 : r2.length ≤ n := by simp only [List.length_cons] at hn1; omega
        exact UTF8Octets.utf8_3_EE_EF c.1 c.2.1 t1 t2
          (ih r2 hn2 (bytes_tail (bytes_tail hr)) 16 b16 h3)
      · -- F0
        rw [c.2] at h1
        obtain ⟨b, r1, e1, t1, h2⟩ := Encoder.okRun_tail_inv m17 hr h1
        subst e1
        obtain ⟨d, r2, e2, t2, h3⟩ := Encoder.okRun_tail_inv m20 (bytes_tail hr) h2
        subst e2
        obtain ⟨e, r3, e3, t3, h4⟩ :=
          Encoder.okRun_tail_inv m21 (bytes_tail (bytes_tail hr)) h3
        subst e3
        have hn2 : r3.length ≤ n := by simp only [List.length_cons] at hn1; omega
        rw [c.1]
        exact UTF8Octets.utf8_4_F0 t1.1 t1.2 t2 t3
          (ih r3 hn2 (bytes_tail (bytes_tail (bytes_tail hr))) 22 b22 h4)
      · -- F1..F3
        rw [c.2.2] at h1
        obtain ⟨b, r1, e1, t1, h2⟩ := Encoder.okRun_tail_inv m18 hr h1
        subst e1
        obtain ⟨d, r2, e2, t2, h3⟩ := Encoder.okRun_tail_inv m20 (bytes_tail hr) h2
        subst e2
        obtain ⟨e, r3, e3, t3, h4⟩ :=
          Encoder.okRun_tail_inv m21 (bytes_tail (bytes_tail hr)) h3
        subst e3
        have hn2 : r3.length ≤ n := by simp only [List.length_cons] at hn1; omega
        exact UTF8Octets.utf8_4_F1_F3 c.1 c.2.1 t1 t2 t3
          (ih r3 hn2 (bytes_tail (bytes_tail (bytes_tail hr))) 22 b22 h4)
      · -- F4
        rw [c.2] at h1
        obtain ⟨b, r1, e1, t1, h2⟩ := Encoder.okRun_tail_inv m19 hr h1
        subst e1
        obtain ⟨d, r2, e2, t2, h3⟩ := Encoder.okRun_tail_inv m20 (bytes_tail hr) h2
        subst e2
        obtain ⟨e, r3, e3, t3, h4⟩ :=
          Encoder.okRun_tail_inv m21 (bytes_tail (bytes_tail hr)) h3
        subst e3
        have hn2 : r3.length ≤ n := by simp only [List.length_cons] at hn1; omega
        rw [c.1]
        exact UTF8Octets.utf8_4_F4 t1.1 t1.2 t2 t3
          (ih r3 hn2 (bytes_tail (bytes_tail (bytes_tail hr))) 22 b22 h4)

/-- C23. The encoder table recognises exactly RFC 3629 UTF-8: a byte string is
well-formed UTF-8 if and only if the run of the encoder table from state 0 over it
never enters state 9, every byte read in a mid-sequence state (10, 12, 13, 14, 15,
17, 18, 19, 20, 21) leads to a continuation state (11, 15, 16, 20, 21, 22), and the
final state is a boundary state (0-8, 11, 16, 22). -/
theorem encoder_recognises_utf8 (l : List Nat) (hl : Bytes l) :
    UTF8Octets l ↔
      (9 ∉ Encoder.trace 0 l ∧
        List.Chain (fun s t => Encoder.midSequence s → Encoder.continuation t) 0
          (Encoder.trace 0 l) ∧
        Encoder.boundary (Encoder.run 0 l)) := by
  have b0 : Encoder.boundary 0 := Or.inl (by decide)
  rw [← Encoder.okRun_iff l 0]
  exact ⟨fun h => Encoder.okRun_of_utf8 h 0 b0,
    fun h => Encoder.utf8_of_okRun l.length l (le_refl _) hl 0 b0 h⟩

theorem encoder_recognises_utf8_witness :
    Bytes [0xE0, 0xA4, 0xB9] ∧
    (UTF8Octets [0xE0, 0xA4, 0xB9] ↔
      (9 ∉ Encoder.trace 0 [0xE0, 0xA4, 0xB9] ∧
        List.Chain (fun s t => Encoder.midSequence s → Encoder.continuation t) 0
          (Encoder.trace 0 [0xE0, 0xA4, 0xB9]) ∧
        Encoder.boundary (Encoder.run 0 [0xE0, 0xA4, 0xB9]))) :=
  ⟨by intro x hx; simp only [List.mem_cons, List.mem_singleton, List.not_mem_nil, or_false] at hx; omega,
    encoder_recognises_utf8 [0xE0, 0xA4, 0xB9]
      (by intro x hx; simp only [List.mem_cons, List.mem_singleton, List.not_mem_nil, or_false] at hx; omega)⟩

end GlideJson

namespace GlideJson

/-! ### The value classes and the variant-specific accessors -/

/-- A `std::string`: a string of bytes. -/
abbrev ByteString := List Nat

/-- The exceptions the accessors and the conversions raise: `GlideError` (a
`std::runtime_error` with its message) and the two exceptions of the `std::sto*`
family. -/
inductive Exception
  | GlideError (what : String)
  | invalid_argument
  | out_of_range
deriving DecidableEq

/-- `GlideJson::Type`. -/
inductive JsonType
  | Error | Null | Boolean | Number | String | Array | Object
deriving DecidableEq

/-- The object `content` points to: one constructor for each class derived from
`GlideJsonScheme::Base`, with the data member of the class.  An object holds its
`GlideMap` together with the value objects the map refers to. -/
inductive Content
  | error (error : ByteString)
  | null
  | boolean (boolean : Bool)
  | number (number : ByteString)
  | string (string : ByteString)
  | array (array : List Content)
  | object (object : GlideMap ByteString) (values : List Content)

namespace Base

/-- `Base::theError()`: the member every class but `Error` inherits. -/
def theError : Except Exception ByteString :=
  .error (.GlideError
    ("GlideJsonScheme::Base::theError(): This is NOT a GlideJsonScheme::Error object!"))

/-- `Base::theBoolean()`. -/
def theBoolean : Except Exception Bool :=
  .error (.GlideError
    ("GlideJsonScheme::Base::theBoolean(): This is NOT a GlideJsonScheme::Boolean object!"))

/-- `Base::theNumber()`. -/
def theNumber : Except Exception ByteString :=
  .error (.GlideError
    ("GlideJsonScheme::Base::theNumber(): This is NOT a GlideJsonScheme::Number object!"))

/-- `Base::theString()`. -/
def theString : Except Exception ByteString :=
  .error (.GlideError
    ("GlideJsonScheme::Base::theString(): This is NOT a GlideJsonScheme::String object!"))

/-- `Base::theArray()`. -/
def theArray : Except Exception (List Content) :=
  .error (.GlideError
    ("GlideJsonScheme::Base::theArray(): This is NOT a GlideJsonScheme::Array object!"))

/-- `Base::theObject()`. -/
def theObject : Except Exception (GlideMap ByteString × List Content) :=
  .error (.GlideError
    ("GlideJsonScheme::Base::theObject(): This is NOT a GlideJsonScheme::Object object!"))

end Base

namespace Content

/-- The virtual `getType()`: every derived class returns its own tag. -/
def getType : Content → JsonType
  | .error _ => .Error
  | .null => .Null
  | .boolean _ => .Boolean
  | .number _ => .Number
  | .string _ => .String
  | .array _ => .Array
  | .object _ _ => .Object

/-- The virtual `theError()`: overridden by `Error::theError()` only. -/
def theError : Content → Except Exception ByteString
  | .error e => .ok e
  | _ => Base.theError

/-- The virtual `theBoolean()`: overridden by `Boolean::theBoolean()` only. -/
def theBoolean : Content → Except Exception Bool
  | .boolean b => .ok b
  | _ => Base.theBoolean

/-- The virtual `theNumber()`: overridden by `Number::theNumber()` only. -/
def theNumber : Content → Except Exception ByteString
  | .number n => .ok n
  | _ => Base.theNumber

/-- The virtual `theString()`: overridden by `String::theString()` only. -/
def theString : Content → Except Exception ByteString
  | .string s => .ok s
  | _ => Base.theString

/-- The virtual `theArray()`: overridden by `Array::theArray()` only. -/
def theArray : Content → Except Exception (List Content)
  | .array a => .ok a
  | _ => Base.theArray

/-- The virtual `theObject()`: overridden by `Object::theObject()` only. -/
def theObject : Content → Except Exception (GlideMap ByteString × List Content)
  | .object o vs => .ok (o, vs)
  | _ => Base.theObject

/-- The virtual `toJson()`.  `Encoder::encode` and the `toJson` of `Array` and of
`Object` are the three functions the derived classes call that are not part of this
development; they are arguments. -/
def toJson (encode : ByteString → ByteString) (arrayToJson : List Content → ByteString)
    (objectToJson : GlideMap ByteString → List Content → ByteString) :
    Content → ByteString
  | .error e => encode e
  | .null => [110, 117, 108, 108]
  | .boolean b => if b then [116, 114, 117, 101] else [102, 97, 108, 115, 101]
  | .number n => n
  | .string s => encode s
  | .array a => arrayToJson a
  | .object o vs => objectToJson o vs

end Content

/-- `GlideJson::getType()`. -/
def getType (v : Content) : JsonType := v.getType

/-- `GlideJson::error()`. -/
def error (v : Content) : Except Exception ByteString := v.theError

/-- `GlideJson::boolean()`. -/
def boolean (v : Content) : Except Exception Bool := v.theBoolean

/-- `GlideJson::number()`. -/
def number (v : Content) : Except Exception ByteString := v.theNumber

/-- `GlideJson::string()`. -/
def string (v : Content) : Except Exception ByteString := v.theString

/-- `GlideJson::array()`. -/
def array (v : Content) : Except Exception (List Content) := v.theArray

/-- `GlideJson::object()`. -/
def object (v : Content) : Except Exception (GlideMap ByteString × List Content) :=
  v.theObject

/-- `GlideJson::toJson()`. -/
def toJson (encode : ByteString → ByteString) (arrayToJson : List Content → ByteString)
    (objectToJson : GlideMap ByteString → List Content → ByteString) (v : Content) :
    ByteString :=
  v.toJson encode arrayToJson objectToJson

/-- What an accessor does on `v`: if `v` is of the variant `ty` it returns the
payload `p` of `v`; on every other variant it throws `GlideError`. -/
def AccessorContract {α : Type} (acc : Content → Except Exception α) (ty : JsonType)
    (ctor : α → Content) (v : Content) : Prop :=
  (getType v = ty → ∃ p, v = ctor p ∧ acc v = .ok p) ∧
  (getType v ≠ ty → ∃ w, acc v = .error (.GlideError w))

/-- C27. For every value `v`, each of the accessors `error()`, `boolean()`,
`number()`, `string()`, `array()`, `object()` returns the payload of `v` when the
type of `v` is the matching variant (Error, Boolean, Number, String, Array, Object)
and throws `GlideError` on every other variant, Null included; so it returns if and
only if the type matches. -/
theorem accessor_shape_mismatch (v : Content) :
    AccessorContract error .Error .error v ∧
    AccessorContract boolean .Boolean .boolean v ∧
    AccessorContract number .Number .number v ∧
    AccessorContract string .String .string v ∧
    AccessorContract array .Array .array v ∧
    AccessorContract object .Object (fun p => .object p.1 p.2) v ∧
    (getType v = .Null → (∃ w, error v = .error (.GlideError w)) ∧
      (∃ w, boolean v = .error (.GlideError w)) ∧ (∃ w, number v = .error (.GlideError w)) ∧
      (∃ w, string v = .error (.GlideError w)) ∧ (∃ w, array v = .error (.GlideError w)) ∧
      (∃ w, object v = .error (.GlideError w))) := by
  cases v <;>
    simp [AccessorContract, getType, Content.getType, error, boolean, number, string, array,
      object, Content.theError, Content.theBoolean, Content.theNumber, Content.theString,
      Content.theArray, Content.theObject, Base.theError, Base.theBoolean, Base.theNumber,
      Base.theString, Base.theArray, Base.theObject]

end GlideJson

namespace GlideJson

/-! ### Numbers built from native integers -/

/-- The decimal digits of `n` in ASCII, most significant first, as `printf` writes
an unsigned value: `0` for zero, no leading zero otherwise. -/
def natDecimal (n : Nat) : List Nat :=
  if h : n < 10 then [n + 48] else natDecimal (n / 10) ++ [n % 10 + 48]
termination_by n
decreasing_by omega

/-- `std::to_string` on `int`, `unsigned int`, `long int` and `unsigned long int`,
as the C++ standard defines it (the text `sprintf` writes with `%d`, `%u`, `%ld`,
`%lu`): a minus sign for a negative value, then the decimal digits of the
magnitude. -/
def std_to_string (value : Int) : ByteString :=
  if value < 0 then 45 :: natDecimal value.natAbs else natDecimal value.toNat

/-- The number a string of ASCII digits denotes. -/
def decimalValue (l : List Nat) : Nat := l.foldl (fun acc d => 10 * acc + (d - 48)) 0

/-- `Number::operator=` on a native integer (the four overloads for `int`,
`unsigned int`, `long int` and `unsigned long int` have the same body):
`number = std::to_string(input)`. -/
def Number.assign (input : Int) : Content := .number (std_to_string input)

/-- The constructors `GlideJson(int)`, `GlideJson(unsigned int)`,
`GlideJson(long int)` and `GlideJson(unsigned long int)`: `content` is a fresh
`Number`, assigned from `input`. -/
def ofInteger (input : Int) : Content := Number.assign input

theorem natDecimal_lt (n : Nat) (h : n < 10) : natDecimal n = [n + 48] := by
  rw [natDecimal, dif_pos h]

theorem natDecimal_ge (n : Nat) (h : ¬ n < 10) :
    natDecimal n = natDecimal (n / 10) ++ [n % 10 + 48] := by
  rw [natDecimal, dif_neg h]

theorem decimalValue_append (l : List Nat) (x : Nat) :
    decimalValue (l ++ [x]) = 10 * decimalValue l + (x - 48) := by
  unfold decimalValue
  rw [List.foldl_append]
  rfl

theorem decimalValue_natDecimal (n : Nat) : decimalValue (natDecimal n) = n := by
  induction n using Nat.strong_induction_on with
  | _ n ih =>
    by_cases h : n < 10
    · rw [natDecimal_lt n h]
      simp [decimalValue]
    · rw [natDecimal_ge n h, decimalValue_append, ih (n / 10) (by omega)]
      omega

theorem natDecimal_isInt (n : Nat) :
    (n = 0 → natDecimal n = [48]) ∧
    (n ≠ 0 → ∃ d ds, natDecimal n = d :: ds ∧ (49 ≤ d ∧ d ≤ 57) ∧ Digits ds) := by
  induction n using Nat.strong_induction_on with
  | _ n ih =>
    constructor
    · rintro rfl
      exact natDecimal_lt 0 (by decide)
    · intro hn
      by_cases h : n < 10
      · exact ⟨n + 48, [], natDecimal_lt n h, by omega, digits_nil⟩
      · obtain ⟨d, ds, e, hd, hds⟩ := (ih (n / 10) (by omega)).2 (by omega)
        refine ⟨d, ds ++ [n % 10 + 48], ?_, hd, ?_⟩
        · rw [natDecimal_ge n h, e, List.cons_append]
        · intro x hx
          rcases List.mem_append.mp hx with hx | hx
          · exact hds x hx
          · rw [List.mem_singleton] at hx
            unfold IsDigit
            omega

theorem isInt_natDecimal (n : Nat) : IsInt (natDecimal n) := by
  by_cases h : n = 0
  · exact Or.inl ((natDecimal_isInt n).1 h)
  · obtain ⟨d, ds, e, hd, hds⟩ := (natDecimal_isInt n).2 h
    exact Or.inr ⟨d, ds, e, hd, hds⟩

theorem Parser.run1_zero_text : Parser.run 1 [48] = 15 := by
  rw [Parser.run_cons, Parser.run_nil]
  exact Parser.step_eval _ _ _ (by decide) (by decide) rfl

theorem Parser.run1_positive (d : Nat) (ds : List Nat) (hd : 49 ≤ d ∧ d ≤ 57)
    (hds : Digits ds) : Parser.run 1 (d :: ds) = 16 ∨ Parser.run 1 (d :: ds) = 19 := by
  rw [Parser.run_cons, Parser.step1_number d (digit_numberByte (by omega)),
    if_neg (by omega), if_neg (by omega), if_pos hd]
  cases ds with
  | nil => exact Or.inl rfl
  | cons x r =>
    rw [Parser.run_cons, Parser.step16_number x (digit_numberByte (digits_head hds)),
      if_pos (digits_head hds), Parser.run_digits 19 Parser.step19_digit r (digits_tail hds)]
    exact Or.inr rfl

theorem Parser.run1_negative (d : Nat) (ds : List Nat) (hd : 49 ≤ d ∧ d ≤ 57)
    (hds : Digits ds) : Parser.run 1 (45 :: d :: ds) = 19 := by
  have e2 : Parser.step 1 45 = 17 := Parser.step_eval _ _ _ (by decide) (by decide) rfl
  rw [Parser.run_cons, e2, Parser.run_cons,
    Parser.step17_number d (digit_numberByte (by omega)),
    if_neg (by omega), if_pos hd, Parser.run_digits 19 Parser.step19_digit ds hds]

/-- C28. For every integer `n` (so for every value of `int`, `unsigned int`,
`long int` and `unsigned long int`), `GlideJson(n)` is a Number; `number()` returns
the decimal form of `n`: a minus sign exactly when `n` is negative, then the digits
of the magnitude without a leading zero (`0` alone for zero); `toJson()` returns the
same text; and the parser table run from state 1 over the text ends in state 15, 16
or 19. -/
theorem integer_constructor_decimal (n : Int) (encode : ByteString → ByteString)
    (arrayToJson : List Content → ByteString)
    (objectToJson : GlideMap ByteString → List Content → ByteString) :
    getType (ofInteger n) = .Number ∧
    number (ofInteger n) = .ok (std_to_string n) ∧
    toJson encode arrayToJson objectToJson (ofInteger n) = std_to_string n ∧
    (∃ ds, std_to_string n = (if n < 0 then [45] else []) ++ ds ∧ IsInt ds ∧
      decimalValue ds = n.natAbs) ∧
    (Parser.run 1 (std_to_string n) = 15 ∨ Parser.run 1 (std_to_string n) = 16 ∨
      Parser.run 1 (std_to_string n) = 19) := by
  refine ⟨rfl, rfl, rfl, ?_, ?_⟩
  · by_cases h : n < 0
    · refine ⟨natDecimal n.natAbs, ?_, isInt_natDecimal _, decimalValue_natDecimal _⟩
      rw [std_to_string, if_pos h, if_pos h]
      rfl
    · refine ⟨natDecimal n.toNat, ?_, isInt_natDecimal _, ?_⟩
      · rw [std_to_string, if_neg h, if_neg h]
        rfl
      · rw [decimalValue_natDecimal]
        omega
  · by_cases h : n < 0
    · rw [std_to_string, if_pos h]
      obtain ⟨d, ds, e, hd, hds⟩ := (natDecimal_isInt n.natAbs).2 (by omega)
      rw [e]
      exact Or.inr (Or.inr (Parser.run1_negative d ds hd hds))
    · rw [std_to_string, if_neg h]
      by_cases h0 : n.toNat = 0
      · rw [(natDecimal_isInt n.toNat).1 h0]
        exact Or.inl Parser.run1_zero_text
      · obtain ⟨d, ds, e, hd, hds⟩ := (natDecimal_isInt n.toNat).2 h0
        rw [e]
        exact Or.inr (Parser.run1_positive d ds hd hds)

end GlideJson

namespace GlideJson

/-! ### Conversions of a Number to the native integer types -/

/-- The least `int` (32 bits). -/
def INT_MIN : Int := -(2 ^ 31)

/-- The greatest `int` (32 bits). -/
def INT_MAX : Int := 2 ^ 31 - 1

/-- The least `long int` (64 bits). -/
def LONG_MIN : Int := -(2 ^ 63)

/-- The greatest `long int` (64 bits). -/
def LONG_MAX : Int := 2 ^ 63 - 1

/-- The greatest `unsigned int` (32 bits). -/
def UINT_MAX : Nat := 2 ^ 32 - 1

/-- The greatest `unsigned long int` (64 bits). -/
def ULONG_MAX : Nat := 2 ^ 64 - 1

/-- `isspace` in the C locale. -/
def isspace (c : Nat) : Bool := decide (c = 32 ∨ (9 ≤ c ∧ c ≤ 13))

/-- `isdigit`. -/
def isdigit (c : Nat) : Bool := decide (48 ≤ c ∧ c ≤ 57)

/-- The optional sign of the subject sequence of `strtol` and `strtoul`: whether it
is a minus sign, and the rest of the input. -/
def strtoSign (s : ByteString) : Bool × ByteString :=
  match s with
  | [] => (false, [])
  | c :: r => if c = 45 then (true, r) else if c = 43 then (false, r) else (false, c :: r)

/-- The subject sequence of `strtol` and `strtoul` in base 10, as the C standard
defines it: leading white space is skipped, then an optional sign, then the longest
run of digits.  The result is the sign and the magnitude, or `none` when there is
no digit (no conversion is performed). -/
def strtoSubject (s : ByteString) : Option (Bool × Nat) :=
  let signed := strtoSign (s.dropWhile isspace)
  let digits := signed.2.takeWhile isdigit
  if digits = [] then none else some (signed.1, decimalValue digits)

/-- `std::stoi` in base 10: `strtol`, then `std::invalid_argument` if no conversion
was performed and `std::out_of_range` if the value is outside the range of `int`
(or of `long int`, when `strtol` reports `ERANGE`). -/
def std_stoi (s : ByteString) : Except Exception Int :=
  match strtoSubject s with
  | none => .error .invalid_argument
  | some (neg, m) =>
    if (if neg then -(m : Int) else (m : Int)) < INT_MIN ∨
        INT_MAX < (if neg then -(m : Int) else (m : Int)) then .error .out_of_range
    else .ok (if neg then -(m : Int) else (m : Int))

/-- `std::stol` in base 10: `strtol`, then `std::invalid_argument` if no conversion
was performed and `std::out_of_range` if `strtol` reports `ERANGE`. -/
def std_stol (s : ByteString) : Except Exception Int :=
  match strtoSubject s with
  | none => .error .invalid_argument
  | some (neg, m) =>
    if (if neg then -(m : Int) else (m : Int)) < LONG_MIN ∨
        LONG_MAX < (if neg then -(m : Int) else (m : Int)) then .error .out_of_range
    else .ok (if neg then -(m : Int) else (m : Int))

/-- `std::stoul` in base 10: `strtoul`, which reports `ERANGE` when the magnitude
exceeds `ULONG_MAX` and negates the value in `unsigned long` when the subject
sequence has a minus sign. -/
def std_stoul (s : ByteString) : Except Exception Nat :=
  match strtoSubject s with
  | none => .error .invalid_argument
  | some (neg, m) =>
    if ULONG_MAX < m then .error .out_of_range
    else .ok (if neg then (ULONG_MAX + 1 - m) % (ULONG_MAX + 1) else m)

/-- `GlideJson::toInt()`: `std::stoi(content->theNumber())`. -/
def toInt (v : Content) : Except Exception Int :=
  match v.theNumber with
  | .error e => .error e
  | .ok n => std_stoi n

/-- `GlideJson::toUInt()`: `std::stoul(content->theNumber())`, the `unsigned long`
result converted to the return type `unsigned int`. -/
def toUInt (v : Content) : Except Exception Nat :=
  match v.theNumber with
  | .error e => .error e
  | .ok n =>
    match std_stoul n with
    | .error e => .error e
    | .ok r => .ok (r % (UINT_MAX + 1))

/-- `GlideJson::toLong()`: `std::stol(content->theNumber())`. -/
def toLong (v : Content) : Except Exception Int :=
  match v.theNumber with
  | .error e => .error e
  | .ok n => std_stol n

/-- `GlideJson::toULong()`: `std::stoul(content->theNumber())`. -/
def toULong (v : Content) : Except Exception Nat :=
  match v.theNumber with
  | .error e => .error e
  | .ok n => std_stoul n

/-- The text of an integer: an optional minus sign and digits. -/
def integerText (neg : Bool) (ds : List Nat) : ByteString := (if neg then [45] else []) ++ ds

/-- The integer the text `integerText neg ds` denotes. -/
def integerValue (neg : Bool) (ds : List Nat) : Int :=
  if neg then -(decimalValue ds : Int) else (decimalValue ds : Int)

theorem takeWhile_isdigit {ds : List Nat} (h : Digits ds) : ds.takeWhile isdigit = ds := by
  rw [List.takeWhile_eq_self_iff]
  intro x hx
  have := h x hx
  unfold IsDigit at this
  simp [isdigit, this]

theorem strtoSubject_integerText (neg : Bool) (ds : List Nat) (hds : Digits1 ds) :
    strtoSubject (integerText neg ds) = some (neg, decimalValue ds) := by
  obtain ⟨hne, hd⟩ := hds
  cases ds with
  | nil => exact absurd rfl hne
  | cons d r =>
    have h1 : 48 ≤ d ∧ d ≤ 57 := digits_head hd
    have hsp : isspace d = false := by
      simp only [isspace, decide_eq_false_iff_not]; omega
    have htw := takeWhile_isdigit hd
    cases neg with
    | true =>
      have e1 : integerText true (d :: r) = 45 :: d :: r := rfl
      have e2 : (45 :: d :: r).dropWhile isspace = 45 :: d :: r := by
        rw [List.dropWhile_cons_of_neg]; decide
      unfold strtoSubject
      rw [e1, e2]
      simp only [strtoSign, if_true, htw]
      rw [if_neg (by simp)]
    | false =>
      have e1 : integerText false (d :: r) = d :: r := rfl
      have e2 : (d :: r).dropWhile isspace = d :: r := by
        rw [List.dropWhile_cons_of_neg]; rw [hsp]; decide
      unfold strtoSubject
      rw [e1, e2]
      simp only [strtoSign, if_neg (show ¬ d = 45 by omega), if_neg (show ¬ d = 43 by omega),
        htw]
      rw [if_neg (by simp)]

theorem toInt_integerText (neg : Bool) (ds : List Nat) (hds : Digits1 ds) :
    toInt (.number (integerText neg ds)) =
      if integerValue neg ds < INT_MIN ∨ INT_MAX < integerValue neg ds
      then .error .out_of_range else .ok (integerValue neg ds) := by
  simp only [toInt, Content.theNumber, std_stoi, strtoSubject_integerText neg ds hds,
    integerValue]

theorem toLong_integerText (neg : Bool) (ds : List Nat) (hds : Digits1 ds) :
    toLong (.number (integerText neg ds)) =
      if integerValue neg ds < LONG_MIN ∨ LONG_MAX < integerValue neg ds
      then .error .out_of_range else .ok (integerValue neg ds) := by
  simp only [toLong, Content.theNumber, std_stol, strtoSubject_integerText neg ds hds,
    integerValue]

theorem toULong_integerText (neg : Bool) (ds : List Nat) (hds : Digits1 ds) :
    toULong (.number (integerText neg ds)) =
      if ULONG_MAX < decimalValue ds then .error .out_of_range
      else .ok (if neg then (ULONG_MAX + 1 - decimalValue ds) % (ULONG_MAX + 1)
        else decimalValue ds) := by
  simp only [toULong, Content.theNumber, std_stoul, strtoSubject_integerText neg ds hds]

theorem toUInt_integerText (neg : Bool) (ds : List Nat) (hds : Digits1 ds) :
    toUInt (.number (integerText neg ds)) =
      if ULONG_MAX < decimalValue ds then .error .out_of_range
      else .ok ((if neg then (ULONG_MAX + 1 - decimalValue ds) % (ULONG_MAX + 1)
        else decimalValue ds) % (UINT_MAX + 1)) := by
  simp only [toUInt, Content.theNumber, std_stoul, strtoSubject_integerText neg ds hds]
  split_ifs <;> rfl

/-- The conversions on an integer text (an optional minus sign and digits): `toInt`
raises `std::out_of_range` exactly when the integer is outside the range of `int`
and `toLong` exactly when it is outside the range of `long int`, and both return the
integer otherwise; `toULong` and `toUInt` raise `std::out_of_range` only when the
magnitude exceeds the greatest `unsigned long`. -/
theorem conversions_on_integer_text (neg : Bool) (ds : List Nat) (hds : Digits1 ds) :
    ((integerValue neg ds < INT_MIN ∨ INT_MAX < integerValue neg ds) →
      toInt (.number (integerText neg ds)) = .error .out_of_range) ∧
    (INT_MIN ≤ integerValue neg ds → integerValue neg ds ≤ INT_MAX →
      toInt (.number (integerText neg ds)) = .ok (integerValue neg ds)) ∧
    ((integerValue neg ds < LONG_MIN ∨ LONG_MAX < integerValue neg ds) →
      toLong (.number (integerText neg ds)) = .error .out_of_range) ∧
    (LONG_MIN ≤ integerValue neg ds → integerValue neg ds ≤ LONG_MAX →
      toLong (.number (integerText neg ds)) = .ok (integerValue neg ds)) ∧
    (ULONG_MAX < decimalValue ds →
      toULong (.number (integerText neg ds)) = .error .out_of_range ∧
      toUInt (.number (integerText neg ds)) = .error .out_of_range) ∧
    (decimalValue ds ≤ ULONG_MAX →
      (∃ r, toULong (.number (integerText neg ds)) = .ok r) ∧
      (∃ r, toUInt (.number (integerText neg ds)) = .ok r)) := by
  refine ⟨?_, ?_, ?_, ?_, ?_, ?_⟩
  · intro h
    rw [toInt_integerText neg ds hds, if_pos h]
  · intro h1 h2
    rw [toInt_integerText neg ds hds, if_neg (by omega)]
  · intro h
    rw [toLong_integerText neg ds hds, if_pos h]
  · intro h1 h2
    rw [toLong_integerText neg ds hds, if_neg (by omega)]
  · intro h
    rw [toULong_integerText neg ds hds, toUInt_integerText neg ds hds, if_pos h, if_pos h]
    exact ⟨rfl, rfl⟩
  · intro h
    have hn : ¬ ULONG_MAX < decimalValue ds := Nat.not_lt.2 h
    rw [toULong_integerText neg ds hds, toUInt_integerText neg ds hds, if_neg hn, if_neg hn]
    exact ⟨⟨_, rfl⟩, ⟨_, rfl⟩⟩

/-- C29 (the code departs from the claim). The text `4294967296` denotes an integer
above the greatest `unsigned int`, yet `toUInt` raises nothing and returns 0:
`std::stoul` accepts the value as an `unsigned long` and the result is converted to
the return type `unsigned int` without a check.  The sibling conversions check the
range of their own return type: `toInt` on `2147483648` and `toLong` on
`9223372036854775808`, the least integers above their ranges, raise
`std::out_of_range`.  Likewise `toULong` on `-1` raises nothing and returns
18446744073709551615, `std::stoul` negating the magnitude in `unsigned long`, whereas
`toLong` on `-9223372036854775809` raises `std::out_of_range`. -/
theorem conversion_out_of_range_fails :
    (decimalValue [52, 50, 57, 52, 57, 54, 55, 50, 57, 54] = 4294967296 ∧
      UINT_MAX < 4294967296 ∧
      std_stoul [52, 50, 57, 52, 57, 54, 55, 50, 57, 54] = .ok 4294967296 ∧
      toUInt (.number [52, 50, 57, 52, 57, 54, 55, 50, 57, 54]) = .ok 0) ∧
    (toInt (.number [50, 49, 52, 55, 52, 56, 51, 54, 52, 56]) = .error .out_of_range ∧
      toLong (.number [57, 50, 50, 51, 51, 55, 50, 48, 51, 54, 56, 53, 52, 55, 55, 53, 56, 48,
        56]) = .error .out_of_range) ∧
    (integerValue true [49] = -1 ∧ toULong (.number [45, 49]) = .ok 18446744073709551615 ∧
      toLong (.number [45, 57, 50, 50, 51, 51, 55, 50, 48, 51, 54, 56, 53, 52, 55, 55, 53, 56,
        48, 57]) = .error .out_of_range) := by
  refine ⟨⟨rfl, by decide, rfl, rfl⟩, ⟨rfl, rfl⟩, rfl, rfl, rfl⟩

end GlideJson

namespace GlideJson

/-! ### Terminators, object keys, control characters and closure of the tables -/

/-- The parser states inside a string at a character boundary: after the opening
quote (25), after a character (26, 52) and after an escape (29-36, 46-48). -/
def Parser.stringBody (s : Nat) : Prop :=
  s = 25 ∨ s = 26 ∨ (29 ≤ s ∧ s ≤ 36) ∨ (46 ≤ s ∧ s ≤ 48) ∨ s = 52

/-- The states the run of the parser table enters, one for each byte read. -/
def Parser.trace (state : Nat) : List Nat → List Nat
  | [] => []
  | b :: r => Parser.step state b :: Parser.trace (Parser.step state b) r

instance (b : Nat) : Decidable (IsWhitespace b) := by unfold IsWhitespace; infer_instance

theorem Parser.step_stringRow (s : Nat) (hs : Parser.stringBody s) (b : Nat) (hb : b < 256) :
    Parser.step s b = Parser.stringRow b := by
  have hs1 : s < 69 := by unfold Parser.stringBody at hs; omega
  rw [Parser.step_eq_tableStep s hs1 b hb]
  unfold Parser.stringBody at hs
  rcases hs with rfl | rfl | ⟨h1, h2⟩ | ⟨h1, h2⟩ | rfl
  · rfl
  · rfl
  · interval_cases s <;> rfl
  · interval_cases s <;> rfl
  · rfl

theorem Parser.step_terminators (s : Nat) (hs : Parser.accepting s) :
    Parser.step s 93 = 59 ∧ Parser.step s 44 = 60 ∧ Parser.step s 125 = 63 := by
  unfold Parser.accepting at hs
  rcases hs with rfl | rfl | rfl | rfl | rfl | rfl | rfl | rfl | rfl | rfl | rfl | rfl |
    rfl | rfl | rfl | rfl <;>
  exact ⟨Parser.step_eval _ _ _ (by decide) (by decide) rfl,
    Parser.step_eval _ _ _ (by decide) (by decide) rfl,
    Parser.step_eval _ _ _ (by decide) (by decide) rfl⟩

theorem Parser.step_close_string (s : Nat) (hs : Parser.stringBody s) :
    Parser.step s 93 = 26 ∧ Parser.step s 125 = 26 := by
  rw [Parser.step_stringRow s hs 93 (by decide), Parser.step_stringRow s hs 125 (by decide)]
  exact ⟨rfl, rfl⟩

theorem Parser.step_close_fails (s : Nat) (hs : s < 69) (ha : ¬ Parser.accepting s)
    (h57 : s ≠ 57) (h61 : s ≠ 61) (hb : ¬ Parser.stringBody s) :
    Parser.step s 93 = 0 ∧ Parser.step s 125 = 0 := by
  unfold Parser.accepting at ha
  unfold Parser.stringBody at hb
  interval_cases s <;> first
    | omega
    | exact ⟨Parser.step_eval _ _ _ (by decide) (by decide) rfl,
        Parser.step_eval _ _ _ (by decide) (by decide) rfl⟩

theorem Parser.step_objectRow (b : Nat) (hb : b < 256) :
    Parser.step 61 b = Parser.objectRow b :=
  Parser.step_eval _ _ _ (by decide) hb rfl

theorem Parser.step_keyRow (b : Nat) (hb : b < 256) :
    Parser.step 64 b = Parser.keyRow b ∧ Parser.step 66 b = Parser.keyRow b :=
  ⟨Parser.step_eval _ _ _ (by decide) hb rfl, Parser.step_eval _ _ _ (by decide) hb rfl⟩

theorem Parser.keyRow_eq (b : Nat) :
    Parser.keyRow b = if IsWhitespace b then 66 else if b = 34 then 25 else 0 := by
  unfold Parser.keyRow IsWhitespace
  split_ifs <;> first | rfl | omega

theorem Parser.objectRow_eq (b : Nat) :
    Parser.objectRow b =
      if IsWhitespace b then 66 else if b = 34 then 25 else if b = 125 then 62 else 0 := by
  unfold Parser.objectRow IsWhitespace
  split_ifs <;> first | rfl | omega

theorem Parser.trace_zero (l : List Nat) (hl : Bytes l) (s : Nat) (hs : s < 69)
    (h : 0 ∈ Parser.trace s l) : Parser.run s l = 0 := by
  induction l generalizing s with
  | nil => simp [Parser.trace] at h
  | cons b r ih =>
    have hb : b < 256 := hl b (List.mem_cons_self b r)
    have hr : Bytes r := fun x hx => hl x (List.mem_cons_of_mem b hx)
    rw [Parser.run_cons]
    simp only [Parser.trace, List.mem_cons] at h
    rcases h with h | h
    · rw [← h]; exact Parser.run_zero r hr
    · exact ih hr _ (Parser.step_lt s hs b hb) h

theorem Encoder.encStep_lt (s : Nat) (hs : s < 23) (b : Nat) (hb : b < 256) :
    Encoder.step s b < 23 := by
  by_cases hm : Encoder.midSequence s
  · rw [Encoder.step_midRow s hm b hb]
    have h1 := Encoder.escapable_le b
    have h2 : Encoder.tailNext s ≤ 22 := by
      unfold Encoder.tailNext; split_ifs <;> omega
    split_ifs <;> omega
  · have hb1 : Encoder.boundary s ∨ s = 9 := by
      unfold Encoder.midSequence at hm
      unfold Encoder.boundary
      omega
    rw [Encoder.step_boundaryRow s hb1 b hb]
    have h1 := Encoder.escapable_le b
    rcases Encoder.boundaryRow_cases b with h | h | h | h | h | h | h | h | h | h <;> omega

/-- C31 (fails on the code). State 26, inside a string, is not accepting and is
neither 57 nor 61, yet the table maps `]` and `}` from it to state 26, not to the
failure state 0: inside a string the two bytes are ordinary characters. -/
theorem terminator_transitions_counterexample :
    Parser.incompleteMap 26 = true ∧ 26 ≠ 57 ∧ 26 ≠ 61 ∧
      Parser.step 26 93 = 26 ∧ Parser.step 26 125 = 26 ∧ Parser.step 26 93 ≠ 0 := by
  have h1 : Parser.step 26 93 = 26 := Parser.step_eval _ _ _ (by decide) (by decide) rfl
  have h2 : Parser.step 26 125 = 26 := Parser.step_eval _ _ _ (by decide) (by decide) rfl
  refine ⟨?_, by decide, by decide, h1, h2, ?_⟩
  · exact (Parser.incompleteMap_true_iff 26 (by decide)).2 (by unfold Parser.accepting; omega)
  · rw [h1]; decide

/-- C31 (amended). For every accepting parser state `s` the table maps `(s, ])` to
59, `(s, ,)` to 60 and `(s, })` to 63; for every non-accepting state other than 57,
61 and the string-body states (25, 26, 29-36, 46-48, 52) the bytes `]` and `}` lead
to the failure state 0; in a string-body state they lead to state 26; 57 maps `]`
to 58 and 61 maps `}` to 62. -/
theorem terminator_transitions (s : Nat) (hs : s < 69) :
    (Parser.incompleteMap s = false →
      Parser.step s 93 = 59 ∧ Parser.step s 44 = 60 ∧ Parser.step s 125 = 63) ∧
    (Parser.incompleteMap s = true → s ≠ 57 → s ≠ 61 → ¬ Parser.stringBody s →
      Parser.step s 93 = 0 ∧ Parser.step s 125 = 0) ∧
    (Parser.stringBody s → Parser.step s 93 = 26 ∧ Parser.step s 125 = 26) ∧
    Parser.step 57 93 = 58 ∧ Parser.step 61 125 = 62 := by
  refine ⟨?_, ?_, Parser.step_close_string s, ?_, ?_⟩
  · intro h
    exact Parser.step_terminators s ((Parser.incompleteMap_false_iff s hs).1 h)
  · intro h h57 h61 hb
    exact Parser.step_close_fails s hs ((Parser.incompleteMap_true_iff s hs).1 h) h57 h61 hb
  · exact Parser.step_eval _ _ _ (by decide) (by decide) rfl
  · exact Parser.step_eval _ _ _ (by decide) (by decide) rfl

theorem terminator_transitions_witness :
    (Parser.incompleteMap 1 = false →
      Parser.step 1 93 = 59 ∧ Parser.step 1 44 = 60 ∧ Parser.step 1 125 = 63) ∧
    (Parser.incompleteMap 1 = true → 1 ≠ 57 → 1 ≠ 61 → ¬ Parser.stringBody 1 →
      Parser.step 1 93 = 0 ∧ Parser.step 1 125 = 0) ∧
    (Parser.stringBody 1 → Parser.step 1 93 = 26 ∧ Parser.step 1 125 = 26) ∧
    Parser.step 57 93 = 58 ∧ Parser.step 61 125 = 62 :=
  terminator_transitions 1 (by decide)

/-- C33. An object key must be a string: for every byte `b`, the parser table maps
`(61, b)`, `(64, b)` and `(66, b)` to state 25 when `b` is the double quote, to state
66 when `b` is a whitespace byte, `(61, })` to state 62, and every other byte
(also `}` in states 64 and 66) to the failure state 0. -/
theorem object_key_must_be_string (b : Nat) (hb : b < 256) :
    (b = 34 → Parser.step 61 b = 25 ∧ Parser.step 64 b = 25 ∧ Parser.step 66 b = 25) ∧
    (IsWhitespace b →
      Parser.step 61 b = 66 ∧ Parser.step 64 b = 66 ∧ Parser.step 66 b = 66) ∧
    (b = 125 → Parser.step 61 b = 62) ∧
    (b ≠ 34 → ¬ IsWhitespace b → b ≠ 125 → Parser.step 61 b = 0) ∧
    (b ≠ 34 → ¬ IsWhitespace b → Parser.step 64 b = 0 ∧ Parser.step 66 b = 0) := by
  rw [Parser.step_objectRow b hb, (Parser.step_keyRow b hb).1, (Parser.step_keyRow b hb).2,
    Parser.keyRow_eq, Parser.objectRow_eq]
  refine ⟨?_, ?_, ?_, ?_, ?_⟩
  · rintro rfl
    have : ¬ IsWhitespace 34 := by unfold IsWhitespace; omega
    rw [if_neg this, if_neg this]
    exact ⟨rfl, rfl, rfl⟩
  · intro h
    rw [if_pos h, if_pos h]
    exact ⟨rfl, rfl, rfl⟩
  · rintro rfl
    have : ¬ IsWhitespace 125 := by unfold IsWhitespace; omega
    rw [if_neg this]
    rfl
  · intro h1 h2 h3
    rw [if_neg h2, if_neg h1, if_neg h3]
  · intro h1 h2
    rw [if_neg h2, if_neg h1]
    exact ⟨rfl, rfl⟩

theorem object_key_must_be_string_witness :
    (58 = 34 → Parser.step 61 58 = 25 ∧ Parser.step 64 58 = 25 ∧ Parser.step 66 58 = 25) ∧
    (IsWhitespace 58 →
      Parser.step 61 58 = 66 ∧ Parser.step 64 58 = 66 ∧ Parser.step 66 58 = 66) ∧
    (58 = 125 → Parser.step 61 58 = 62) ∧
    (58 ≠ 34 → ¬ IsWhitespace 58 → 58 ≠ 125 → Parser.step 61 58 = 0) ∧
    (58 ≠ 34 → ¬ IsWhitespace 58 → Parser.step 64 58 = 0 ∧ Parser.step 66 58 = 0) :=
  object_key_must_be_string 58 (by decide)

/-- C35. Raw control characters are rejected inside strings: for every byte `c` in
0x00..0x1F and every string-body state `s` (25, 26, 29-36, 46-48, 52) the parser
table maps `(s, c)` to the failure state 0, while it maps `(s, 0x7F)` to the
string-body state 26. -/
theorem control_characters_rejected (s c : Nat) (hs : Parser.stringBody s) (hc : c ≤ 31) :
    Parser.step s c = 0 ∧ Parser.step s 127 = 26 := by
  rw [Parser.step_stringRow s hs c (by omega), Parser.step_stringRow s hs 127 (by decide)]
  refine ⟨?_, rfl⟩
  interval_cases c <;> rfl

theorem control_characters_rejected_witness :
    Parser.stringBody 52 ∧ 10 ≤ 31 ∧ Parser.step 52 10 = 0 ∧ Parser.step 52 127 = 26 :=
  ⟨by unfold Parser.stringBody; omega, by decide,
    control_characters_rejected 52 10 (by unfold Parser.stringBody; omega) (by decide)⟩

/-- C36. The failure state is absorbing: for every byte `b` the parser table maps
`(0, b)` to 0; so once the run from state 1 over a prefix `p` has entered state 0,
the run over `p` followed by any further bytes `q` ends in state 0, which is not
accepting. -/
theorem failure_state_absorbing (p q : List Nat) (hp : Bytes p) (hq : Bytes q)
    (h : 0 ∈ Parser.trace 1 p) :
    (∀ b, b < 256 → Parser.step 0 b = 0) ∧
    Parser.run 1 (p ++ q) = 0 ∧
    (∀ t ∈ Parser.trace (Parser.run 1 p) q, t = 0) ∧
    Parser.incompleteMap (Parser.run 1 (p ++ q)) = true := by
  have h0 := Parser.trace_zero p hp 1 (by decide) h
  have h1 : Parser.run 1 (p ++ q) = 0 := by
    rw [Parser.run_append, h0]; exact Parser.run_zero q hq
  refine ⟨Parser.step_zero, h1, ?_, ?_⟩
  · rw [h0]
    clear h1
    induction q with
    | nil => intro t ht; simp [Parser.trace] at ht
    | cons b r ih =>
      intro t ht
      have hb : b < 256 := hq b (List.mem_cons_self b r)
      simp only [Parser.trace, List.mem_cons, Parser.step_zero b hb] at ht
      rcases ht with ht | ht
      · exact ht
      · exact ih (fun x hx => hq x (List.mem_cons_of_mem b hx)) t ht
  · rw [h1]
    exact (Parser.incompleteMap_true_iff 0 (by decide)).2 (by unfold Parser.accepting; omega)

theorem failure_state_absorbing_witness :
    Bytes [93] ∧ Bytes [91, 93] ∧ 0 ∈ Parser.trace 1 [93] ∧
    (∀ b, b < 256 → Parser.step 0 b = 0) ∧
    Parser.run 1 ([93] ++ [91, 93]) = 0 ∧
    (∀ t ∈ Parser.trace (Parser.run 1 [93]) [91, 93], t = 0) ∧
    Parser.incompleteMap (Parser.run 1 ([93] ++ [91, 93])) = true := by
  have hp : Bytes [93] := by
    intro x hx
    simp only [List.mem_singleton] at hx
    omega
  have hq : Bytes [91, 93] := by
    intro x hx
    simp only [List.mem_cons, List.mem_singleton, List.not_mem_nil, or_false] at hx
    omega
  have h : 0 ∈ Parser.trace 1 [93] := by
    simp only [Parser.trace, List.mem_singleton]
    exact (Parser.step_eval 1 93 0 (by decide) (by decide) rfl).symm
  exact ⟨hp, hq, h, failure_state_absorbing [93] [91, 93] hp hq h⟩

/-- C37. The state tables are closed: every entry of the parser table is a state
number below 69 and every entry of the encoder table is below 23; so for a state in
range and bytes `b`, `c` the lookup at `state * 256 + b` and the lookup of the
resulting state at `next * 256 + c` are inside the `69 x 256` and `23 x 256` tables,
and the resulting parser state is inside `incompleteMap`. -/
theorem state_tables_closed :
    (∀ j, j < GLIDE_BYTE_SIZE * GLIDE_JSON_PARSER_STATES →
      Parser.stateMap j < GLIDE_JSON_PARSER_STATES) ∧
    (∀ j, j < GLIDE_BYTE_SIZE * GLIDE_JSON_ENCODER_STATES →
      Encoder.stateMap j < GLIDE_JSON_ENCODER_STATES) ∧
    (∀ s b c, s < GLIDE_JSON_PARSER_STATES → b < 256 → c < 256 →
      b + GLIDE_BYTE_SIZE * s < GLIDE_BYTE_SIZE * GLIDE_JSON_PARSER_STATES ∧
      Parser.step s b < GLIDE_JSON_PARSER_STATES ∧
      c + GLIDE_BYTE_SIZE * Parser.step s b < GLIDE_BYTE_SIZE * GLIDE_JSON_PARSER_STATES) ∧
    (∀ s b c, s < GLIDE_JSON_ENCODER_STATES → b < 256 → c < 256 →
      b + GLIDE_BYTE_SIZE * s < GLIDE_BYTE_SIZE * GLIDE_JSON_ENCODER_STATES ∧
      Encoder.step s b < GLIDE_JSON_ENCODER_STATES ∧
      c + GLIDE_BYTE_SIZE * Encoder.step s b <
        GLIDE_BYTE_SIZE * GLIDE_JSON_ENCODER_STATES) := by
  have e1 : GLIDE_BYTE_SIZE = 256 := rfl
  have e2 : GLIDE_JSON_PARSER_STATES = 69 := rfl
  have e3 : GLIDE_JSON_ENCODER_STATES = 23 := rfl
  rw [e1, e2, e3]
  refine ⟨?_, ?_, ?_, ?_⟩
  · intro j hj
    have h := Parser.step_lt (j / 256) (by omega) (j % 256) (by omega)
    have e : j % 256 + GLIDE_BYTE_SIZE * (j / 256) = j := by rw [e1]; omega
    unfold Parser.step at h
    rw [e] at h
    exact h
  · intro j hj
    have h := Encoder.encStep_lt (j / 256) (by omega) (j % 256) (by omega)
    have e : j % 256 + GLIDE_BYTE_SIZE * (j / 256) = j := by rw [e1]; omega
    unfold Encoder.step at h
    rw [e] at h
    exact h
  · intro s b c hs hb hc
    have h := Parser.step_lt s hs b hb
    exact ⟨by omega, h, by omega⟩
  · intro s b c hs hb hc
    have h := Encoder.encStep_lt s hs b hb
    exact ⟨by omega, h, by omega⟩

end GlideJson

namespace GlideJson

/-! ### Escape sequences and string bodies in the parser table -/

namespace Parser

/-- The bytes that may follow a backslash: the double quote, the backslash, `/`,
`b`, `f`, `n`, `r`, `t`, `u`. -/
def IsEscapeChar (x : Nat) : Prop :=
  x = 34 ∨ x = 92 ∨ x = 47 ∨ x = 98 ∨ x = 102 ∨ x = 110 ∨ x = 114 ∨ x = 116 ∨ x = 117

/-- The states after a backslash, `u` and `n` hex digits. -/
def afterHexDigits (n s : Nat) : Prop :=
  (n = 0 ∧ s = 37) ∨ (n = 1 ∧ 38 ≤ s ∧ s ≤ 39) ∨ (n = 2 ∧ 40 ≤ s ∧ s ≤ 42) ∨
    (n = 3 ∧ 43 ≤ s ∧ s ≤ 45) ∨ (n = 4 ∧ 46 ≤ s ∧ s ≤ 48)

/-- The states that end an escape sequence. -/
def escapeEnd (s : Nat) : Prop := (29 ≤ s ∧ s ≤ 36) ∨ (46 ≤ s ∧ s ≤ 48)

/-- A hexadecimal digit, as a test. -/
def isHexB (b : Nat) : Bool := inRange 48 57 b || inRange 65 70 b || inRange 97 102 b

/-- In the states 37 to 45 a byte that is not a hex digit leads to state 0, as a
test of one table entry. -/
def nonHexEntryB (s b next : Nat) : Bool := !(inRange 37 45 s) || isHexB b || Nat.beq next 0

end Parser

theorem Parser.isHexB_iff (b : Nat) : Parser.isHexB b = true ↔ IsHexDigit b := by
  simp [Parser.isHexB, Parser.inRange_iff, IsHexDigit, or_assoc]

set_option maxRecDepth 1000000 in
theorem Parser.nonHexEntry_all : ∀ s, s < 69 → ∀ b, b < 256 →
    Parser.nonHexEntryB s b (Parser.step s b) = true :=
  Parser.forall_step Parser.nonHexEntryB (by decide!)

theorem Parser.step_nonHex (s : Nat) (hs : 37 ≤ s ∧ s ≤ 45) (b : Nat) (hb : b < 256)
    (hx : ¬ IsHexDigit b) : Parser.step s b = 0 := by
  have h := Parser.nonHexEntry_all s (by omega) b hb
  simp only [Parser.nonHexEntryB, Bool.or_eq_true, Bool.not_eq_true', Nat.beq_eq,
    Parser.isHexB_iff] at h
  rcases h with (h | h) | h
  · have h2 := (Parser.inRange_iff 37 45 s).2 hs
    rw [h] at h2
    exact absurd h2 (by decide)
  · exact absurd h hx
  · exact h

theorem Parser.step_hexDigit (n s : Nat) (hn : n < 4) (hs : Parser.afterHexDigits n s)
    (b : Nat) (hx : IsHexDigit b) : Parser.afterHexDigits (n + 1) (Parser.step s b) := by
  have f := Parser.step_hex_fixed b hx
  unfold Parser.afterHexDigits at hs
  rcases hs with ⟨rfl, rfl⟩ | ⟨rfl, h1, h2⟩ | ⟨rfl, h1, h2⟩ | ⟨rfl, h1, h2⟩ | ⟨rfl, h1, h2⟩
  · rw [Parser.step37_hex b hx]
    unfold Parser.afterHexDigits
    split_ifs <;> omega
  · unfold Parser.afterHexDigits
    interval_cases s
    · rw [Parser.step38_hex b hx]
      split_ifs <;> omega
    · rw [f.1]; omega
  · unfold Parser.afterHexDigits
    interval_cases s
    · rw [f.2.1]; omega
    · rw [f.2.2.1]; omega
    · rw [Parser.step42_hex b hx]
      split_ifs <;> omega
  · unfold Parser.afterHexDigits
    interval_cases s
    · rw [f.2.2.2.1]; omega
    · rw [f.2.2.2.2.1]; omega
    · rw [f.2.2.2.2.2]; omega
  · omega

theorem Parser.escapeRow_ne_zero_iff (x : Nat) :
    Parser.escapeRow x ≠ 0 ↔ Parser.IsEscapeChar x := by
  unfold Parser.escapeRow Parser.IsEscapeChar
  split_ifs <;> omega

theorem Parser.stringBody_of_escapeEnd {s : Nat} (h : Parser.escapeEnd s) :
    Parser.stringBody s := by
  unfold Parser.escapeEnd at h
  unfold Parser.stringBody
  omega

/-- C32. Escape sequences in strings: for every byte `x`, the parser table maps
`(28, x)`, the state after a backslash, to a non-failure state if and only if `x`
is one of the double quote, the backslash, `/`, `b`, `f`, `n`, `r`, `t`, `u`, and
`u` leads to state 37; in a state after `u` and fewer than four hex digits a hex
digit (0-9, A-F, a-f) leads to a state after one more hex digit and every other byte
to state 0, the states after four hex digits being 46, 47, 48; and every state that
ends an escape (29-36, 46, 47, 48) has the same row as the string-body state 26. -/
theorem escape_sequences (x : Nat) (hx : x < 256) :
    (Parser.step 28 x ≠ 0 ↔ Parser.IsEscapeChar x) ∧
    Parser.step 28 117 = 37 ∧
    (∀ n s, n < 4 → Parser.afterHexDigits n s →
      (IsHexDigit x → Parser.afterHexDigits (n + 1) (Parser.step s x)) ∧
      (¬ IsHexDigit x → Parser.step s x = 0)) ∧
    (∀ s, Parser.afterHexDigits 4 s → Parser.escapeEnd s) ∧
    (∀ s, Parser.escapeEnd s → Parser.step s x = Parser.step 26 x) := by
  refine ⟨?_, ?_, ?_, ?_, ?_⟩
  · rw [Parser.step_eval 28 x (Parser.escapeRow x) (by decide) hx rfl]
    exact Parser.escapeRow_ne_zero_iff x
  · exact Parser.step_eval _ _ _ (by decide) (by decide) rfl
  · intro n s hn hs
    refine ⟨Parser.step_hexDigit n s hn hs x, ?_⟩
    intro h
    have hr : 37 ≤ s ∧ s ≤ 45 := by unfold Parser.afterHexDigits at hs; omega
    exact Parser.step_nonHex s hr x hx h
  · intro s hs
    unfold Parser.afterHexDigits at hs
    unfold Parser.escapeEnd
    omega
  · intro s hs
    rw [Parser.step_stringRow s (Parser.stringBody_of_escapeEnd hs) x hx,
      Parser.step_stringRow 26 (Or.inr (Or.inl rfl)) x hx]

theorem escape_sequences_witness :
    (Parser.step 28 120 ≠ 0 ↔ Parser.IsEscapeChar 120) ∧
    Parser.step 28 117 = 37 ∧
    (∀ n s, n < 4 → Parser.afterHexDigits n s →
      (IsHexDigit 120 → Parser.afterHexDigits (n + 1) (Parser.step s 120)) ∧
      (¬ IsHexDigit 120 → Parser.step s 120 = 0)) ∧
    (∀ s, Parser.afterHexDigits 4 s → Parser.escapeEnd s) ∧
    (∀ s, Parser.escapeEnd s → Parser.step s 120 = Parser.step 26 120) :=
  escape_sequences 120 (by decide)

/-! The rows of a string body on the bytes of a well-formed character. -/

theorem Parser.stringRow_ascii (a : Nat) (h1 : 32 ≤ a) (h2 : a ≤ 127) (h3 : a ≠ 34)
    (h4 : a ≠ 92) : Parser.stringRow a = 26 := by
  interval_cases a <;> first | rfl | exact absurd rfl h3 | exact absurd rfl h4

theorem Parser.stringRow_lead2 (a : Nat) (h1 : 194 ≤ a) (h2 : a ≤ 223) :
    Parser.stringRow a = 49 := by
  interval_cases a <;> rfl

theorem Parser.stringRow_lead3 (a : Nat) (h : (225 ≤ a ∧ a ≤ 236) ∨ (238 ≤ a ∧ a ≤ 239)) :
    Parser.stringRow a = 50 := by
  rcases h with ⟨h1, h2⟩ | ⟨h1, h2⟩ <;> interval_cases a <;> rfl

theorem Parser.stringRow_lead4 (a : Nat) (h1 : 241 ≤ a) (h2 : a ≤ 243) :
    Parser.stringRow a = 51 := by
  interval_cases a <;> rfl

theorem Parser.step_tailRow (s lo hi next b : Nat) (hs : s < 69) (hb : b < 256)
    (hrow : Parser.tableStep s b = if lo ≤ b ∧ b ≤ hi then next else 0)
    (h : lo ≤ b ∧ b ≤ hi) : Parser.step s b = next := by
  rw [Parser.step_eq_tableStep s hs b hb, hrow, if_pos h]

theorem Parser.run_tail1 (c : Nat) (r : List Nat) (hc : UTF8Tail c) :
    Parser.run 49 (c :: r) = Parser.run 52 r := by
  unfold UTF8Tail at hc
  rw [Parser.run_cons, Parser.step_tailRow 49 128 191 52 c (by decide) (by omega) rfl hc]

theorem Parser.run_tail2 (b c : Nat) (r : List Nat) (hb : UTF8Tail b) (hc : UTF8Tail c) :
    Parser.run 50 (b :: c :: r) = Parser.run 52 r := by
  have hb1 := hb
  unfold UTF8Tail at hb1
  rw [Parser.run_cons, Parser.step_tailRow 50 128 191 49 b (by decide) (by omega) rfl hb1,
    Parser.run_tail1 c r hc]

theorem Parser.run_tail3 (b c d : Nat) (r : List Nat) (hb : UTF8Tail b) (hc : UTF8Tail c)
    (hd : UTF8Tail d) : Parser.run 51 (b :: c :: d :: r) = Parser.run 52 r := by
  have hb1 := hb
  unfold UTF8Tail at hb1
  rw [Parser.run_cons, Parser.step_tailRow 51 128 191 50 b (by decide) (by omega) rfl hb1,
    Parser.run_tail2 c d r hc hd]

theorem Parser.stringBody_26 : Parser.stringBody 26 := Or.inr (Or.inl rfl)

theorem Parser.stringBody_52 : Parser.stringBody 52 := by unfold Parser.stringBody; omega

theorem Parser.run_string_body {b : List Nat} (hu : UTF8Octets b)
    (hc : ∀ x ∈ b, 32 ≤ x ∧ x ≠ 34 ∧ x ≠ 92) :
    ∀ s, Parser.stringBody s → Parser.run s (b ++ [34]) = 27 := by
  induction hu with
  | nil =>
    intro s hs
    rw [List.nil_append, Parser.run_cons, Parser.run_nil,
      Parser.step_stringRow s hs 34 (by decide)]
    rfl
  | @utf8_1 a r ha _ ih =>
    intro s hs
    have h := hc a (List.mem_cons_self a r)
    rw [List.cons_append, Parser.run_cons, Parser.step_stringRow s hs a (by omega),
      Parser.stringRow_ascii a h.1 ha h.2.1 h.2.2]
    exact ih (fun x hx => hc x (List.mem_cons_of_mem a hx)) 26 Parser.stringBody_26
  | @utf8_2 a c r h1 h2 hc1 _ ih =>
    intro s hs
    rw [List.cons_append, List.cons_append, Parser.run_cons,
      Parser.step_stringRow s hs a (by omega), Parser.stringRow_lead2 a h1 h2,
      Parser.run_tail1 c _ hc1]
    exact ih (fun x hx => hc x (List.mem_cons_of_mem a (List.mem_cons_of_mem c hx))) 52
      Parser.stringBody_52
  | @utf8_3_E0 c d r h1 h2 hd _ ih =>
    intro s hs
    have e : Parser.stringRow 224 = 53 := rfl
    rw [List.cons_append, List.cons_append, List.cons_append, Parser.run_cons,
      Parser.step_stringRow s hs 224 (by decide), e, Parser.run_cons,
      Parser.step_tailRow 53 160 191 49 c (by decide) (by omega) rfl ⟨h1, h2⟩,
      Parser.run_tail1 d _ hd]
    exact ih (fun x hx => hc x (List.mem_cons_of_mem _ (List.mem_cons_of_mem c
      (List.mem_cons_of_mem d hx)))) 52 Parser.stringBody_52
  | @utf8_3_E1_EC a c d r h1 h2 hc1 hd _ ih =>
    intro s hs
    rw [List.cons_append, List.cons_append, List.cons_append, Parser.run_cons,
      Parser.step_stringRow s hs a (by omega), Parser.stringRow_lead3 a (Or.inl ⟨h1, h2⟩),
      Parser.run_tail2 c d _ hc1 hd]
    exact ih (fun x hx => hc x (List.mem_cons_of_mem a (List.mem_cons_of_mem c
      (List.mem_cons_of_mem d hx)))) 52 Parser.stringBody_52
  | @utf8_3_ED c d r h1 h2 hd _ ih =>
    intro s hs
    have e : Parser.stringRow 237 = 54 := rfl
    rw [List.cons_append, List.cons_append, List.cons_append, Parser.run_cons,
      Parser.step_stringRow s hs 237 (by decide), e, Parser.run_cons,
      Parser.step_tailRow 54 128 159 49 c (by decide) (by omega) rfl ⟨h1, h2⟩,
      Parser.run_tail1 d _ hd]
    exact ih (fun x hx => hc x (List.mem_cons_of_mem _ (List.mem_cons_of_mem c
      (List.mem_cons_of_mem d hx)))) 52 Parser.stringBody_52
  | @utf8_3_EE_EF a c d r h1 h2 hc1 hd _ ih =>
    intro s hs
    rw [List.cons_append, List.cons_append, List.cons_append, Parser.run_cons,
      Parser.step_stringRow s hs a (by omega), Parser.stringRow_lead3 a (Or.inr ⟨h1, h2⟩),
      Parser.run_tail2 c d _ hc1 hd]
    exact ih (fun x hx => hc x (List.mem_cons_of_mem a (List.mem_cons_of_mem c
      (List.mem_cons_of_mem d hx)))) 52 Parser.stringBody_52
  | @utf8_4_F0 c d e r h1 h2 hd he _ ih =>
    intro s hs
    have e1 : Parser.stringRow 240 = 55 := rfl
    rw [List.cons_append, List.cons_append, List.cons_append, List.cons_append,
      Parser.run_cons, Parser.step_stringRow s hs 240 (by decide), e1, Parser.run_cons,
      Parser.step_tailRow 55 144 191 50 c (by decide) (by omega) rfl ⟨h1, h2⟩,
      Parser.run_tail2 d e _ hd he]
    exact ih (fun x hx => hc x (List.mem_cons_of_mem _ (List.mem_cons_of_mem c
      (List.mem_cons_of_mem d (List.mem_cons_of_mem e hx))))) 52 Parser.stringBody_52
  | @utf8_4_F1_F3 a c d e r h1 h2 hc1 hd he _ ih =>
    intro s hs
    rw [List.cons_append, List.cons_append, List.cons_append, List.cons_append,
      Parser.run_cons, Parser.step_stringRow s hs a (by omega),
      Parser.stringRow_lead4 a h1 h2, Parser.run_tail3 c d e _ hc1 hd he]
    exact ih (fun x hx => hc x (List.mem_cons_of_mem a (List.mem_cons_of_mem c
      (List.mem_cons_of_mem d (List.mem_cons_of_mem e hx))))) 52 Parser.stringBody_52
  | @utf8_4_F4 c d e r h1 h2 hd he _ ih =>
    intro s hs
    have e1 : Parser.stringRow 244 = 56 := rfl
    rw [List.cons_append, List.cons_append, List.cons_append, List.cons_append,
      Parser.run_cons, Parser.step_stringRow s hs 244 (by decide), e1, Parser.run_cons,
      Parser.step_tailRow 56 128 143 50 c (by decide) (by omega) rfl ⟨h1, h2⟩,
      Parser.run_tail2 d e _ hd he]
    exact ih (fun x hx => hc x (List.mem_cons_of_mem _ (List.mem_cons_of_mem c
      (List.mem_cons_of_mem d (List.mem_cons_of_mem e hx))))) 52 Parser.stringBody_52

theorem bytes_of_utf8 {b : List Nat} (hu : UTF8Octets b) : Bytes b := by
  induction hu with
  | nil => intro x hx; cases hx
  | utf8_1 ha _ ih =>
    intro x hx
    rcases List.mem_cons.mp hx with rfl | hx
    · omega
    · exact ih x hx
  | utf8_2 h1 h2 hb _ ih =>
    unfold UTF8Tail at hb
    intro x hx
    simp only [List.mem_cons] at hx
    rcases hx with rfl | rfl | hx
    · omega
    · omega
    · exact ih x hx
  | utf8_3_E0 h1 h2 hc _ ih | utf8_3_ED h1 h2 hc _ ih =>
    unfold UTF8Tail at hc
    intro x hx
    simp only [List.mem_cons] at hx
    rcases hx with rfl | rfl | rfl | hx
    · omega
    · omega
    · omega
    · exact ih x hx
  | utf8_3_E1_EC h1 h2 hb hc _ ih | utf8_3_EE_EF h1 h2 hb hc _ ih =>
    unfold UTF8Tail at hb hc
    intro x hx
    simp only [List.mem_cons] at hx
    rcases hx with rfl | rfl | rfl | hx
    · omega
    · omega
    · omega
    · exact ih x hx
  | utf8_4_F0 h1 h2 hc hd _ ih | utf8_4_F4 h1 h2 hc hd _ ih =>
    unfold UTF8Tail at hc hd
    intro x hx
    simp only [List.mem_cons] at hx
    rcases hx with rfl | rfl | rfl | rfl | hx
    · omega
    · omega
    · omega
    · omega
    · exact ih x hx
  | utf8_4_F1_F3 h1 h2 hb hc hd _ ih =>
    unfold UTF8Tail at hb hc hd
    intro x hx
    simp only [List.mem_cons] at hx
    rcases hx with rfl | rfl | rfl | rfl | hx
    · omega
    · omega
    · omega
    · omega
    · exact ih x hx

/-- C34. Valid UTF-8 string bodies are accepted: for every well-formed UTF-8 byte
sequence `b` with no byte below 0x20, no double quote and no backslash, the run of
the parser table from state 1 over quote, `b`, quote never enters state 0 and ends
in state 27, which is accepting. -/
theorem valid_utf8_string_accepted (b : List Nat) (hu : UTF8Octets b)
    (hc : ∀ x ∈ b, 32 ≤ x ∧ x ≠ 34 ∧ x ≠ 92) :
    0 ∉ Parser.trace 1 (34 :: (b ++ [34])) ∧
    Parser.run 1 (34 :: (b ++ [34])) = 27 ∧
    Parser.incompleteMap 27 = false := by
  have hrun : Parser.run 1 (34 :: (b ++ [34])) = 27 := by
    rw [Parser.run_cons, Parser.step_one_quote]
    exact Parser.run_string_body hu hc 25 (Or.inl rfl)
  have hbytes : Bytes (34 :: (b ++ [34])) := by
    intro x hx
    simp only [List.mem_cons, List.mem_append, List.mem_singleton, List.not_mem_nil,
      or_false] at hx
    rcases hx with rfl | hx | rfl
    · decide
    · exact bytes_of_utf8 hu x hx
    · decide
  refine ⟨?_, hrun, ?_⟩
  · intro h0
    have := Parser.trace_zero _ hbytes 1 (by decide) h0
    rw [hrun] at this
    exact absurd this (by decide)
  · exact (Parser.incompleteMap_false_iff 27 (by decide)).2 (by unfold Parser.accepting; omega)

theorem utf8_example : UTF8Octets [195, 169, 93] :=
  UTF8Octets.utf8_2 (by decide) (by decide) ⟨by decide, by decide⟩
    (UTF8Octets.utf8_1 (by decide) UTF8Octets.nil)

theorem utf8_example_plain : ∀ x ∈ [195, 169, 93], 32 ≤ x ∧ x ≠ 34 ∧ x ≠ 92 := by
  intro x hx
  simp only [List.mem_cons, List.mem_singleton, List.not_mem_nil, or_false] at hx
  omega

theorem valid_utf8_string_accepted_witness :
    UTF8Octets [195, 169, 93] ∧ (∀ x ∈ [195, 169, 93], 32 ≤ x ∧ x ≠ 34 ∧ x ≠ 92) ∧
    0 ∉ Parser.trace 1 (34 :: ([195, 169, 93] ++ [34])) ∧
    Parser.run 1 (34 :: ([195, 169, 93] ++ [34])) = 27 ∧
    Parser.incompleteMap 27 = false :=
  ⟨utf8_example, utf8_example_plain,
    valid_utf8_string_accepted [195, 169, 93] utf8_example utf8_example_plain⟩

end GlideJson

namespace GlideJson

set_option linter.unusedSectionVars false

/-! ### `operator[]` on an absent key, and erase followed by `operator[]` -/

namespace GlideMap

variable {K : Type} [LinearOrder K]

/-- `operator[]` on an absent key when the counter does not wrap around: the key gets
the id counter plus one and the new entry of `positionMap` goes to the end. -/
theorem operatorIndex_new {V : Type} [Inhabited V] [Inhabited K] {m : GlideMap K}
    (heap : Heap V) {n : Nat} (hw : WF m n) {key : K}
    (hf : StdMap.find key m.keyMap = none) (hc : m.counter + 1 < SIZE_MODULUS) :
    operatorIndex m heap key =
      ({ keyMap := StdMap.insert key (m.counter + 1, heap.length) m.keyMap,
         positionMap := m.positionMap ++ [(m.counter + 1, (key, heap.length))],
         counter := m.counter + 1 }, heap ++ [default], heap.length) := by
  rw [operatorIndex_absent m heap hf, Nat.mod_eq_of_lt hc,
    StdMap.insert_of_all_lt _ _ _ (fun a ha => Nat.lt_succ_of_le (hw.idRange a ha).2)]

theorem read_new {V : Type} [Inhabited V] (heap : Heap V) :
    Heap.read (heap ++ [default]) heap.length = default := by
  simp [Heap.read, List.getD_eq_getElem?_getD]

/-- After `erase(k)` iteration meets the entries with another key, in their order. -/
theorem iterate_erase {m : GlideMap K} {n : Nat} (hw : WF m n) (k : K) :
    (m.erase k).1.iterate = m.iterate.filter (fun e => decide (e.2.1 ≠ k)) := by
  have hw1 := wf_erase hw k
  have hnone : StdMap.find k (m.erase k).1.keyMap = none := by
    cases hf : StdMap.find k m.keyMap with
    | none => rw [erase_absent hf]; exact hf
    | some pair =>
      rw [erase_present hf]
      simp only [StdMap.find_erase, if_true]
  rw [← iterate_erase_others hw k]
  symm
  rw [List.filter_eq_self]
  intro e he
  have h1 := hw1.find_of_mem_iterate he
  have hne : e.2.1 ≠ k := by
    intro e1
    rw [e1, hnone] at h1
    exact absurd h1 (by simp)
  simp [hne]

theorem find_after_erase (m : GlideMap K) (k : K) :
    StdMap.find k (m.erase k).1.keyMap = none := by
  cases hf : StdMap.find k m.keyMap with
  | none => rw [erase_absent hf]; exact hf
  | some pair =>
    rw [erase_present hf]
    simp only [StdMap.find_erase, if_true]

theorem counter_after_erase (m : GlideMap K) (k : K) : (m.erase k).1.counter = m.counter := by
  cases hf : StdMap.find k m.keyMap with
  | none => rw [erase_absent hf]
  | some pair => rw [erase_present hf]

end GlideMap

/-- The map with the key 1 at position 1 and the key 5 at the greatest position, the
counter being at its greatest value. -/
def fullCounterMap (h : Nat) : GlideMap Nat :=
  { keyMap := [(1, (1, 0)), (5, (SIZE_MODULUS - 1, h))],
    positionMap := [(1, (1, 0)), (SIZE_MODULUS - 1, (5, h))],
    counter := SIZE_MODULUS - 1 }

theorem fullCounterMap_eq (heap : Heap Nat) :
    (GlideMap.operatorIndex (GlideMap.oneKey (SIZE_MODULUS - 2)) heap 5).1 =
      fullCounterMap heap.length := by
  have hf : StdMap.find 5 (GlideMap.oneKey (SIZE_MODULUS - 2)).keyMap = none := by
    simp [GlideMap.oneKey, StdMap.find]
  have hc : ((GlideMap.oneKey (SIZE_MODULUS - 2)).counter + 1) % SIZE_MODULUS =
      SIZE_MODULUS - 1 := by decide
  rw [GlideMap.operatorIndex_absent _ heap hf, hc]
  have h1 : ¬ SIZE_MODULUS - 1 < 1 := by decide
  have h2 : ¬ SIZE_MODULUS - 1 = 1 := by decide
  have h3 : 2 < SIZE_MODULUS := by decide
  simp [GlideMap.oneKey, fullCounterMap, StdMap.insert, h1, h2, h3]

theorem fullCounterMap_reachable :
    ∃ heap : Heap Nat, ∃ h : Nat, GlideMap.Reachable (fullCounterMap h) heap := by
  obtain ⟨heap, hr⟩ := GlideMap.oneKey_reachable (SIZE_MODULUS - 2) (by decide) (by decide)
  have := GlideMap.Reachable.index 5 hr
  rw [fullCounterMap_eq heap] at this
  exact ⟨_, heap.length, this⟩

theorem fullCounterMap_index (h : Nat) (heap : Heap Nat) :
    (GlideMap.operatorIndex (fullCounterMap h) heap 2).1.keysInOrder = [2, 1, 5] := by
  have hf : StdMap.find 2 (fullCounterMap h).keyMap = none := by
    simp [fullCounterMap, StdMap.find]
  have hc : ((fullCounterMap h).counter + 1) % SIZE_MODULUS = 0 := by
    show (SIZE_MODULUS - 1 + 1) % SIZE_MODULUS = 0
    decide
  rw [GlideMap.operatorIndex_absent _ heap hf, hc]
  simp [fullCounterMap, GlideMap.keysInOrder, GlideMap.iterate, StdMap.insert]

/-- The map `fullCounterMap h` after `erase(1)`. -/
def fullCounterErased (h : Nat) : GlideMap Nat :=
  { keyMap := [(5, (SIZE_MODULUS - 1, h))],
    positionMap := [(SIZE_MODULUS - 1, (5, h))],
    counter := SIZE_MODULUS - 1 }

theorem fullCounterMap_erase (h : Nat) :
    ((fullCounterMap h).erase 1).1 = fullCounterErased h := by
  have h2 : ¬ SIZE_MODULUS - 1 = 1 := by decide
  have h4 : ¬ 1 = SIZE_MODULUS - 1 := by decide
  simp [fullCounterMap, fullCounterErased, GlideMap.erase, StdMap.find, StdMap.erase, h2, h4]

theorem fullCounterMap_reinsert (h : Nat) (heap : Heap Nat) :
    (GlideMap.operatorIndex ((fullCounterMap h).erase 1).1 heap 1).1.keysInOrder = [1, 5] ∧
    StdMap.find 1 (GlideMap.operatorIndex ((fullCounterMap h).erase 1).1 heap 1).1.keyMap =
      some (0, heap.length) ∧
    StdMap.find 5 (GlideMap.operatorIndex ((fullCounterMap h).erase 1).1 heap 1).1.keyMap =
      some (SIZE_MODULUS - 1, h) := by
  rw [fullCounterMap_erase]
  have hf : StdMap.find 1 (fullCounterErased h).keyMap = none := by
    simp [fullCounterErased, StdMap.find]
  have hc : ((fullCounterErased h).counter + 1) % SIZE_MODULUS = 0 := by
    show (SIZE_MODULUS - 1 + 1) % SIZE_MODULUS = 0
    decide
  rw [GlideMap.operatorIndex_absent _ heap hf, hc]
  have h1 : 1 < SIZE_MODULUS := by decide
  refine ⟨?_, ?_, ?_⟩
  · simp [fullCounterErased, GlideMap.keysInOrder, GlideMap.iterate, StdMap.insert, h1]
  · simp [fullCounterErased, StdMap.insert, StdMap.find]
  · simp [fullCounterErased, StdMap.insert, StdMap.find]

/-- C39 (fails on the code). In the state reached when the counter is at its
greatest value (the key 1 kept, other keys inserted and erased, then the key 5
inserted), `operator[]` on the absent key 2 gives it the id 0, the counter having
wrapped around, and iteration meets it first, not last. -/
theorem index_inserts_absent_key_counterexample :
    ∃ (m : GlideMap Nat) (heap : Heap Nat), GlideMap.Reachable m heap ∧ m.count 2 = 0 ∧
      (GlideMap.operatorIndex m heap 2).1.keysInOrder = [2, 1, 5] := by
  obtain ⟨heap, h, hr⟩ := fullCounterMap_reachable
  refine ⟨fullCounterMap h, heap, hr, ?_, fullCounterMap_index h heap⟩
  rw [GlideMap.count_eq_zero_iff]
  simp [fullCounterMap, StdMap.find]

/-- C39 (amended). For a map `m` reachable from the empty map by `operator[]`, writes
through references, `erase`, `clear`, `sort` and `rsort` without wrapping the counter
around, whose counter is below the greatest `size_t` value, and a key `k` with
`count(k) = 0`: evaluating `m[k]` adds `k` with a default-constructed value, `size()`
grows by exactly one, `k` gets the position id counter plus one and is met last in
iteration, the other entries staying as they were; `at(k)` and `find(k)` on the absent
key fail. -/
theorem index_inserts_absent_key {K V : Type} [LinearOrder K] [Inhabited K] [Inhabited V]
    (m : GlideMap K) (heap : Heap V) (ids : List Nat) (k : K)
    (hr : GlideMap.Reach m heap ids)
    (hcnt : m.count k = 0) (hc : m.counter + 1 < SIZE_MODULUS) :
    (GlideMap.operatorIndex m heap k).1.count k = 1 ∧
    (GlideMap.operatorIndex m heap k).1.size = m.size + 1 ∧
    StdMap.find k (GlideMap.operatorIndex m heap k).1.keyMap =
      some (m.counter + 1, heap.length) ∧
    (GlideMap.operatorIndex m heap k).1.iterate =
      m.iterate ++ [(m.counter + 1, (k, heap.length))] ∧
    (GlideMap.operatorIndex m heap k).1.keysInOrder = m.keysInOrder ++ [k] ∧
    (GlideMap.operatorIndex m heap k).2.1.read (GlideMap.operatorIndex m heap k).2.2 =
      default ∧
    m.atRef k = none ∧ m.find k = none := by
  have hw : GlideMap.WF m heap.length := hr.wf.1
  have hf := (GlideMap.count_eq_zero_iff m k).1 hcnt
  rw [GlideMap.operatorIndex_new heap hw hf hc]
  have hfind : StdMap.find k (StdMap.insert k (m.counter + 1, heap.length) m.keyMap) =
      some (m.counter + 1, heap.length) := by
    simp only [StdMap.find_insert, if_true]
  refine ⟨?_, ?_, hfind, rfl, ?_, GlideMap.read_new heap, ?_, ?_⟩
  · rw [GlideMap.count_eq_one_iff]
    exact ⟨_, hfind⟩
  · exact StdMap.length_insert_of_not_mem _ _ _ ((StdMap.find_eq_none_iff k m.keyMap).1 hf)
  · simp [GlideMap.keysInOrder, GlideMap.iterate]
  · simp [GlideMap.atRef, hf]
  · simp [GlideMap.find, hf]

theorem index_inserts_absent_key_witness :
    GlideMap.Reach exampleMap3 ([0, 0, 0] : Heap Nat) [3, 2, 1] ∧ exampleMap3.count 9 = 0 ∧
    exampleMap3.counter + 1 < SIZE_MODULUS ∧
    (GlideMap.operatorIndex exampleMap3 ([0, 0, 0] : Heap Nat) 9).1.keysInOrder =
      exampleMap3.keysInOrder ++ [9] :=
  ⟨exampleMap3_reach, by decide, by decide,
    (index_inserts_absent_key exampleMap3 ([0, 0, 0] : Heap Nat) [3, 2, 1] 9 exampleMap3_reach
      (by decide) (by decide)).2.2.2.2.1⟩

/-- C38 (fails on the code). In the state reached when the counter is at its
greatest value, with the key 1 at position 1 and the key 5 after it, `erase(1)`
followed by `m[1]` gives the key 1 the id 0, below the id of the key 5, and
iteration meets the key 1 first, not last. -/
theorem erase_reinsert_moves_last_counterexample :
    ∃ (m : GlideMap Nat) (heap : Heap Nat) (h : Nat), GlideMap.Reachable m heap ∧
      m.size = 2 ∧ m.keysInOrder = [1, 5] ∧
      (GlideMap.operatorIndex (m.erase 1).1 heap 1).1.keysInOrder = [1, 5] ∧
      StdMap.find 1 (GlideMap.operatorIndex (m.erase 1).1 heap 1).1.keyMap =
        some (0, heap.length) ∧
      StdMap.find 5 (GlideMap.operatorIndex (m.erase 1).1 heap 1).1.keyMap =
        some (SIZE_MODULUS - 1, h) := by
  obtain ⟨heap, h, hr⟩ := fullCounterMap_reachable
  have hre := fullCounterMap_reinsert h heap
  exact ⟨fullCounterMap h, heap, h, hr, rfl, rfl, hre.1, hre.2.1, hre.2.2⟩

/-- C38 (amended). For a map `m` reachable from the empty map by `operator[]`, writes
through references, `erase`, `clear`, `sort` and `rsort` without wrapping the counter
around, whose counter is below the greatest `size_t` value, and a key `k` present in
`m`: after `erase(k)` followed by `m[k]` the key `k` has the position id counter plus
one, greater than that of every other entry, and is the last key in forward iteration,
after the other keys in their old order; its value is default-constructed and `size()`
is what it was. -/
theorem erase_reinsert_moves_last {K V : Type} [LinearOrder K] [Inhabited K] [Inhabited V]
    (m : GlideMap K) (heap : Heap V) (ids : List Nat) (k : K)
    (hr : GlideMap.Reach m heap ids)
    (hk : m.count k = 1) (hc : m.counter + 1 < SIZE_MODULUS) :
    StdMap.find k (GlideMap.operatorIndex (m.erase k).1 heap k).1.keyMap =
      some (m.counter + 1, heap.length) ∧
    (∀ e ∈ (GlideMap.operatorIndex (m.erase k).1 heap k).1.iterate, e.2.1 ≠ k →
      e.1 < m.counter + 1) ∧
    (GlideMap.operatorIndex (m.erase k).1 heap k).1.keysInOrder =
      m.keysInOrder.filter (fun x => decide (x ≠ k)) ++ [k] ∧
    (GlideMap.operatorIndex (m.erase k).1 heap k).1.keysInOrder.getLast? = some k ∧
    (GlideMap.operatorIndex (m.erase k).1 heap k).2.1.read
      (GlideMap.operatorIndex (m.erase k).1 heap k).2.2 = default ∧
    (GlideMap.operatorIndex (m.erase k).1 heap k).1.size = m.size := by
  have hw : GlideMap.WF m heap.length := hr.wf.1
  have hw1 := GlideMap.wf_erase hw k
  have hf1 := GlideMap.find_after_erase m k
  have hc1 : (m.erase k).1.counter + 1 < SIZE_MODULUS := by
    rw [GlideMap.counter_after_erase]; exact hc
  have hkeys : (m.erase k).1.keysInOrder = m.keysInOrder.filter (fun x => decide (x ≠ k)) := by
    unfold GlideMap.keysInOrder
    rw [GlideMap.iterate_erase hw k, List.filter_map]
    rfl
  obtain ⟨pair, hf⟩ := (GlideMap.count_eq_one_iff m k).1 hk
  have hsize : (m.erase k).1.size + 1 = m.size := by
    rw [GlideMap.erase_present hf]
    exact StdMap.length_erase_of_find hw.keyOrdered hf
  have hcnt := GlideMap.counter_after_erase m k
  rw [GlideMap.operatorIndex_new heap hw1 hf1 hc1, hcnt]
  have hko : GlideMap.keysInOrder
      ({ keyMap := StdMap.insert k (m.counter + 1, heap.length) (m.erase k).1.keyMap,
         positionMap := (m.erase k).1.positionMap ++ [(m.counter + 1, (k, heap.length))],
         counter := m.counter + 1 } : GlideMap K) =
      m.keysInOrder.filter (fun x => decide (x ≠ k)) ++ [k] := by
    rw [← hkeys]
    simp [GlideMap.keysInOrder, GlideMap.iterate]
  refine ⟨?_, ?_, hko, ?_, GlideMap.read_new heap, ?_⟩
  · simp only [StdMap.find_insert, if_true]
  · intro e he hne
    rcases List.mem_append.mp he with h1 | h1
    · have := hw1.idRange e.1 (List.mem_map.2 ⟨e, h1, rfl⟩)
      rw [hcnt] at this
      omega
    · rw [List.mem_singleton] at h1
      rw [h1] at hne
      exact absurd rfl hne
  · rw [hko, List.getLast?_append]
    rfl
  · show (StdMap.insert k (m.counter + 1, heap.length) (m.erase k).1.keyMap).length = m.size
    rw [StdMap.length_insert_of_not_mem _ _ _
      ((StdMap.find_eq_none_iff k (m.erase k).1.keyMap).1 hf1)]
    exact hsize

theorem erase_reinsert_moves_last_witness :
    GlideMap.Reach exampleMap3 ([0, 0, 0] : Heap Nat) [3, 2, 1] ∧ exampleMap3.count 1 = 1 ∧
    exampleMap3.counter + 1 < SIZE_MODULUS ∧
    (GlideMap.operatorIndex (exampleMap3.erase 1).1 ([0, 0, 0] : Heap Nat) 1).1.keysInOrder =
      exampleMap3.keysInOrder.filter (fun x => decide (x ≠ 1)) ++ [1] :=
  ⟨exampleMap3_reach, by decide, by decide,
    (erase_reinsert_moves_last exampleMap3 ([0, 0, 0] : Heap Nat) [3, 2, 1] 1 exampleMap3_reach
      (by decide) (by decide)).2.2.1⟩

end GlideJson

namespace GlideJson

/-! ### `GlideString`: the capacity of the output buffer -/

namespace GlideString

/-- The constant `GLIDE_BYTE_HALF_WIDTH`. -/
def GLIDE_BYTE_HALF_WIDTH : Nat := 4

/-- The value of `sizeof(size_t)` where `size_t` has 64 bits. -/
def SIZEOF_SIZE_T : Nat := 8

/-- The constant `GlideString::wordBisector`. -/
def wordBisector : Nat := SIZEOF_SIZE_T * GLIDE_BYTE_HALF_WIDTH

/-- The constant `GlideString::initialCapacity`. -/
def initialCapacity : Nat := 1 <<< 5

/-- The `if` in the body of the loop of `GlideString::nearestPower`: the new values
of `inputCapacity` and `current`. -/
def nearestPowerPass (inputCapacity current currentSplit : Nat) : Nat × Nat :=
  if current >>> currentSplit ≠ 0 then
    ((inputCapacity <<< currentSplit) % SIZE_MODULUS, current >>> currentSplit)
  else (inputCapacity, current)

/-- The `do ... while(currentSplit)` loop of `GlideString::nearestPower`: the body
runs, `currentSplit` is halved, and the loop goes on while it is not zero. -/
def nearestPowerLoop (inputCapacity current currentSplit : Nat) : Nat :=
  if currentSplit >>> 1 ≠ 0 then
    nearestPowerLoop (nearestPowerPass inputCapacity current currentSplit).1
      (nearestPowerPass inputCapacity current currentSplit).2 (currentSplit >>> 1)
  else (nearestPowerPass inputCapacity current currentSplit).1
termination_by currentSplit
decreasing_by
  rename_i h
  rw [Nat.shiftRight_eq_div_pow] at h ⊢
  omega

/-- The function `GlideString::nearestPower`: the value it leaves in `inputCapacity`.
The subtraction `inputSize - 1` is that of `size_t`. -/
def nearestPower (inputSize : Nat) : Nat :=
  nearestPowerLoop 2 ((inputSize + SIZE_MODULUS - 1) % SIZE_MODULUS) wordBisector

/-- The call `input.resize(n)` of `std::string`, after the C++ standard: the string
is cut or filled with zero bytes to the length `n`; `none` stands for the
`std::length_error` thrown when `n` is above `max_size()`, a constant of the
standard library taken as the parameter `maxSize`. -/
def resize (maxSize : Nat) (input : ByteString) (n : Nat) : Option ByteString :=
  if maxSize < n then none else some (input.take n ++ List.replicate (n - input.length) 0)

/-- The function `GlideString::initialize`: the value it leaves in `inputCapacity`,
which is assigned before `resize` is called, and the string, `none` if `resize`
throws. -/
def initializeString (maxSize inputSize : Nat) (input : ByteString) :
    Nat × Option ByteString :=
  if inputSize > initialCapacity then
    (nearestPower inputSize, resize maxSize input (nearestPower inputSize))
  else (initialCapacity, resize maxSize input initialCapacity)

/-- The function `GlideString::append`: the values it leaves in `inputSize` and
`inputCapacity` and the string. The capacity is doubled (as a `size_t`) before
`resize` is called; if `resize` throws the size is not incremented and the string is
`none`. The write `input[inputSize++] = inputChar` is `List.set`, which leaves the
string as it is where C++ gives no meaning to the write (an index past the end). -/
def append (maxSize inputChar inputSize inputCapacity : Nat) (input : ByteString) :
    Nat × Nat × Option ByteString :=
  if inputSize = inputCapacity then
    match resize maxSize input ((inputCapacity <<< 1) % SIZE_MODULUS) with
    | none => (inputSize, (inputCapacity <<< 1) % SIZE_MODULUS, none)
    | some s =>
      ((inputSize + 1) % SIZE_MODULUS, (inputCapacity <<< 1) % SIZE_MODULUS,
        some (s.set inputSize inputChar))
  else
    ((inputSize + 1) % SIZE_MODULUS, inputCapacity, some (input.set inputSize inputChar))

end GlideString

theorem GlideString.nearestPowerPass_spec (s cap cur e : Nat) (h1 : 2 ^ e ≤ cur)
    (h2 : cur < 2 ^ (e + 1)) (h3 : cur < 2 ^ (2 * s)) (h4 : cap * 2 ^ e < SIZE_MODULUS) :
    ∃ e1, (GlideString.nearestPowerPass cap cur s).1 * 2 ^ e1 = cap * 2 ^ e ∧
      2 ^ e1 ≤ (GlideString.nearestPowerPass cap cur s).2 ∧
      (GlideString.nearestPowerPass cap cur s).2 < 2 ^ (e1 + 1) ∧
      (GlideString.nearestPowerPass cap cur s).2 < 2 ^ s := by
  have hpos : 0 < 2 ^ s := Nat.pow_pos (by decide)
  unfold GlideString.nearestPowerPass
  by_cases h : 2 ^ s ≤ cur
  · have hne : cur >>> s ≠ 0 := by
      rw [Nat.shiftRight_eq_div_pow]
      exact Nat.ne_of_gt (Nat.div_pos h hpos)
    have hse : s ≤ e := by
      have : 2 ^ s < 2 ^ (e + 1) := lt_of_le_of_lt h h2
      have := (Nat.pow_lt_pow_iff_right (by decide : 1 < 2)).1 this
      omega
    have hsplit : 2 ^ e = 2 ^ (e - s) * 2 ^ s := by
      rw [← pow_add, Nat.sub_add_cancel hse]
    have hcap : cap * 2 ^ s < SIZE_MODULUS := by
      refine lt_of_le_of_lt (Nat.mul_le_mul_left cap ?_) h4
      exact Nat.pow_le_pow_right (by decide) hse
    rw [if_pos hne]
    refine ⟨e - s, ?_, ?_, ?_, ?_⟩
    · show (cap <<< s) % SIZE_MODULUS * 2 ^ (e - s) = cap * 2 ^ e
      rw [Nat.shiftLeft_eq, Nat.mod_eq_of_lt hcap, hsplit]
      ring
    · show 2 ^ (e - s) ≤ cur >>> s
      rw [Nat.shiftRight_eq_div_pow, Nat.le_div_iff_mul_le hpos, ← hsplit]
      exact h1
    · show cur >>> s < 2 ^ (e - s + 1)
      rw [Nat.shiftRight_eq_div_pow, Nat.div_lt_iff_lt_mul hpos, ← pow_add]
      have : e - s + 1 + s = e + 1 := by omega
      rw [this]
      exact h2
    · show cur >>> s < 2 ^ s
      rw [Nat.shiftRight_eq_div_pow, Nat.div_lt_iff_lt_mul hpos, ← pow_add]
      have : s + s = 2 * s := by omega
      rw [this]
      exact h3
  · have hlt : cur < 2 ^ s := Nat.lt_of_not_le h
    have he : cur >>> s = 0 := by
      rw [Nat.shiftRight_eq_div_pow]
      exact Nat.div_eq_of_lt hlt
    rw [if_neg (by rw [he]; exact fun hh => hh rfl)]
    exact ⟨e, rfl, h1, h2, hlt⟩

theorem GlideString.nearestPowerLoop_spec (j : Nat) :
    ∀ cap cur e : Nat, 2 ^ e ≤ cur → cur < 2 ^ (e + 1) → cur < 2 ^ (2 * 2 ^ j) →
      cap * 2 ^ e < SIZE_MODULUS → GlideString.nearestPowerLoop cap cur (2 ^ j) = cap * 2 ^ e := by
  induction j with
  | zero =>
    intro cap cur e h1 h2 h3 h4
    obtain ⟨e1, p1, p2, p3, p4⟩ := GlideString.nearestPowerPass_spec (2 ^ 0) cap cur e h1 h2 h3 h4
    rw [GlideString.nearestPowerLoop, if_neg (by decide)]
    have hcur : (GlideString.nearestPowerPass cap cur (2 ^ 0)).2 = 1 := by
      have : 0 < 2 ^ e1 := Nat.pow_pos (by decide)
      have h5 : (GlideString.nearestPowerPass cap cur (2 ^ 0)).2 < 2 := p4
      omega
    have he1 : e1 = 0 := by
      rw [hcur] at p2
      by_contra hne
      have : 2 ^ 1 ≤ 2 ^ e1 := Nat.pow_le_pow_right (by decide) (Nat.pos_of_ne_zero hne)
      omega
    rw [← p1, he1, pow_zero, Nat.mul_one]
  | succ j ih =>
    intro cap cur e h1 h2 h3 h4
    obtain ⟨e1, p1, p2, p3, p4⟩ :=
      GlideString.nearestPowerPass_spec (2 ^ (j + 1)) cap cur e h1 h2 h3 h4
    have hhalf : 2 ^ (j + 1) >>> 1 = 2 ^ j := by
      rw [Nat.shiftRight_eq_div_pow, pow_succ]
      simp
    have hne : 2 ^ (j + 1) >>> 1 ≠ 0 := by
      rw [hhalf]
      exact Nat.ne_of_gt (Nat.pow_pos (by decide))
    rw [GlideString.nearestPowerLoop, if_pos hne, hhalf]
    have h5 : (GlideString.nearestPowerPass cap cur (2 ^ (j + 1))).2 < 2 ^ (2 * 2 ^ j) := by
      have : 2 * 2 ^ j = 2 ^ (j + 1) := by rw [pow_succ]; ring
      rw [this]
      exact p4
    rw [ih _ _ e1 p2 p3 h5 (by rw [p1]; exact h4), p1]

theorem GlideString.nearestPower_eq (n : Nat) (h1 : 2 ≤ n) (h2 : n ≤ 2 ^ 63) :
    GlideString.nearestPower n = 2 ^ (Nat.log 2 (n - 1) + 1) := by
  have hm : (n + SIZE_MODULUS - 1) % SIZE_MODULUS = n - 1 := by
    have : n + SIZE_MODULUS - 1 = (n - 1) + SIZE_MODULUS := by omega
    rw [this, Nat.add_mod_right]
    apply Nat.mod_eq_of_lt
    have : (2 : Nat) ^ 63 < SIZE_MODULUS := by decide
    omega
  have hlo : 2 ^ Nat.log 2 (n - 1) ≤ n - 1 := Nat.pow_log_le_self 2 (by omega)
  have hhi : n - 1 < 2 ^ (Nat.log 2 (n - 1) + 1) := Nat.lt_pow_succ_log_self (by decide) _
  have he : Nat.log 2 (n - 1) < 63 := by
    have : 2 ^ Nat.log 2 (n - 1) < 2 ^ 63 := by omega
    exact (Nat.pow_lt_pow_iff_right (by decide : 1 < 2)).1 this
  have hcap : 2 * 2 ^ Nat.log 2 (n - 1) < SIZE_MODULUS := by
    have h3 : 2 ^ (Nat.log 2 (n - 1) + 1) ≤ 2 ^ 63 := Nat.pow_le_pow_right (by decide) he
    have h4 : (2 : Nat) ^ 63 < SIZE_MODULUS := by decide
    rw [pow_succ] at h3
    omega
  have hw : GlideString.wordBisector = 2 ^ 5 := by decide
  have hcur : n - 1 < 2 ^ (2 * 2 ^ 5) := by
    have : (2 : Nat) ^ 63 < 2 ^ (2 * 2 ^ 5) := by decide
    omega
  unfold GlideString.nearestPower
  rw [hm, hw, GlideString.nearestPowerLoop_spec 5 2 (n - 1) _ hlo hhi hcur hcap, pow_succ]
  ring

theorem GlideString.initializeString_capacity (maxSize n : Nat) (input : ByteString)
    (h1 : 32 < n) (h2 : n ≤ 2 ^ 63) :
    (GlideString.initializeString maxSize n input).1 = 2 ^ (Nat.log 2 (n - 1) + 1) := by
  unfold GlideString.initializeString
  rw [if_pos (show n > GlideString.initialCapacity from h1)]
  exact GlideString.nearestPower_eq n (by omega) h2

/-- C40 (fails on the code). With size and capacity both 2^63, the capacity that
`GlideString::initialize` gives for the requested size 2^63, `GlideString::append`
doubles the capacity to 0 as a `size_t` and leaves the size 2^63 + 1 above it; the
same with size and capacity both 0. -/
theorem buffer_capacity_counterexample :
    (GlideString.initializeString (2 ^ 62) (2 ^ 63) []).1 = 2 ^ 63 ∧
    GlideString.append (2 ^ 62) 65 (2 ^ 63) (2 ^ 63) [] = (2 ^ 63 + 1, 0, some []) ∧
    GlideString.append (2 ^ 62) 65 0 0 [] = (1, 0, some []) := by
  refine ⟨?_, by decide, by decide⟩
  rw [GlideString.initializeString_capacity _ _ _ (by decide) (le_refl _)]
  have hlog : Nat.log 2 (2 ^ 63 - 1) = 62 := by
    rw [Nat.log_eq_iff (Or.inl (by decide))]
    decide
  rw [hlog]

/-- C40 (amended). With a 64-bit `size_t`: for every requested size `n` up to 2^63,
`GlideString::initialize` sets the capacity to 32 when `n <= 32` and, when `32 < n`,
to `2 << floor(log2(n - 1))`, the least power of two that is `>= n`; hence the
capacity is `>= n`. Each `GlideString::append` called with `size <= capacity`, where
the capacity is positive and below 2^63, keeps `size <= capacity` and doubles the
capacity exactly when the size equals the capacity. -/
theorem buffer_capacity (maxSize n inputChar size capacity : Nat) (input buffer : ByteString)
    (hn : n ≤ 2 ^ 63) (hs : size ≤ capacity) (h0 : 0 < capacity) (hc : capacity < 2 ^ 63) :
    (n ≤ 32 → (GlideString.initializeString maxSize n input).1 = 32) ∧
    (32 < n →
      (GlideString.initializeString maxSize n input).1 = 2 <<< Nat.log 2 (n - 1) ∧
      (∃ e, (GlideString.initializeString maxSize n input).1 = 2 ^ e) ∧
      ∀ e, n ≤ 2 ^ e → (GlideString.initializeString maxSize n input).1 ≤ 2 ^ e) ∧
    n ≤ (GlideString.initializeString maxSize n input).1 ∧
    (GlideString.append maxSize inputChar size capacity buffer).1 ≤
      (GlideString.append maxSize inputChar size capacity buffer).2.1 ∧
    (size = capacity →
      (GlideString.append maxSize inputChar size capacity buffer).2.1 = 2 * capacity) ∧
    (size ≠ capacity →
      (GlideString.append maxSize inputChar size capacity buffer).2.1 = capacity) := by
  have hsmall : n ≤ 32 → (GlideString.initializeString maxSize n input).1 = 32 := by
    intro h
    unfold GlideString.initializeString
    rw [if_neg (show ¬ n > GlideString.initialCapacity from Nat.not_lt.2 h)]
    rfl
  have hM : (2 : Nat) ^ 63 + 2 ^ 63 = SIZE_MODULUS := by decide
  have hdouble : (capacity <<< 1) % SIZE_MODULUS = 2 * capacity := by
    rw [Nat.shiftLeft_eq, pow_one, Nat.mod_eq_of_lt (by omega), Nat.mul_comm]
  have hinc : (size + 1) % SIZE_MODULUS = size + 1 := Nat.mod_eq_of_lt (by omega)
  refine ⟨hsmall, ?_, ?_, ?_, ?_, ?_⟩
  · intro h
    have hcap := GlideString.initializeString_capacity maxSize n input h hn
    have hlo : 2 ^ Nat.log 2 (n - 1) ≤ n - 1 := Nat.pow_log_le_self 2 (by omega)
    refine ⟨?_, ⟨_, hcap⟩, ?_⟩
    · rw [hcap, Nat.shiftLeft_eq, pow_succ, Nat.mul_comm]
    · intro e he
      rw [hcap]
      apply Nat.pow_le_pow_right (by decide)
      have : 2 ^ Nat.log 2 (n - 1) < 2 ^ e := by omega
      exact (Nat.pow_lt_pow_iff_right (by decide : 1 < 2)).1 this
  · by_cases h : n ≤ 32
    · rw [hsmall h]; exact h
    · have h1 : 32 < n := Nat.lt_of_not_le h
      rw [GlideString.initializeString_capacity maxSize n input h1 hn]
      have := Nat.lt_pow_succ_log_self (by decide : 1 < 2) (n - 1)
      omega
  · unfold GlideString.append
    by_cases h : size = capacity
    · rw [if_pos h, hdouble, hinc]
      cases GlideString.resize maxSize buffer (2 * capacity) with
      | none => show size ≤ 2 * capacity; omega
      | some s => show size + 1 ≤ 2 * capacity; omega
    · rw [if_neg h, hinc]
      show size + 1 ≤ capacity
      omega
  · intro h
    unfold GlideString.append
    rw [if_pos h, hdouble]
    cases GlideString.resize maxSize buffer (2 * capacity) <;> rfl
  · intro h
    unfold GlideString.append
    rw [if_neg h]

theorem buffer_capacity_witness :
    33 ≤ 2 ^ 63 ∧ 64 ≤ 64 ∧ 0 < 64 ∧ 64 < 2 ^ 63 ∧
    (32 < 33 →
      (GlideString.initializeString 1000 33 []).1 = 2 <<< Nat.log 2 (33 - 1) ∧
      (∃ e, (GlideString.initializeString 1000 33 []).1 = 2 ^ e) ∧
      ∀ e, 33 ≤ 2 ^ e → (GlideString.initializeString 1000 33 []).1 ≤ 2 ^ e) ∧
    (64 = 64 → (GlideString.append 1000 65 64 64 (List.replicate 64 65)).2.1 = 2 * 64) :=
  ⟨by decide, by decide, by decide, by decide,
    (buffer_capacity 1000 33 65 64 64 [] (List.replicate 64 65) (by decide) (by decide)
      (by decide) (by decide)).2.1,
    (buffer_capacity 1000 33 65 64 64 [] (List.replicate 64 65) (by decide) (by decide)
      (by decide) (by decide)).2.2.2.2.1⟩

end GlideJson

namespace GlideJson

/-! ### The states of a `GlideMap` after the counter has wrapped around -/

/-- The map `fullCounterMap h` after `m[2]` on the absent key 2: the counter has
wrapped around to 0 and the key 2 has the position id 0. -/
def wrappedMap (h h2 : Nat) : GlideMap Nat :=
  { keyMap := [(1, (1, 0)), (2, (0, h2)), (5, (SIZE_MODULUS - 1, h))],
    positionMap := [(0, (2, h2)), (1, (1, 0)), (SIZE_MODULUS - 1, (5, h))],
    counter := 0 }

/-- The map `wrappedMap h h2` after `m[2]` on the key 2, which is present with the
position id 0: the key gets the next id, 1, and takes that position from the key 1. -/
def wrappedMapAgain (h h2 : Nat) : GlideMap Nat :=
  { keyMap := [(1, (1, 0)), (2, (1, h2)), (5, (SIZE_MODULUS - 1, h))],
    positionMap := [(0, (2, h2)), (1, (2, h2)), (SIZE_MODULUS - 1, (5, h))],
    counter := 1 }

theorem wrappedMap_eq (h : Nat) (heap : Heap Nat) :
    (GlideMap.operatorIndex (fullCounterMap h) heap 2).1 = wrappedMap h heap.length ∧
    (GlideMap.operatorIndex (fullCounterMap h) heap 2).2.1 = heap ++ [default] := by
  have hf : StdMap.find 2 (fullCounterMap h).keyMap = none := by
    simp [fullCounterMap, StdMap.find]
  have hc : ((fullCounterMap h).counter + 1) % SIZE_MODULUS = 0 := by
    show (SIZE_MODULUS - 1 + 1) % SIZE_MODULUS = 0
    decide
  rw [GlideMap.operatorIndex_absent _ heap hf, hc]
  have h1 : 2 < SIZE_MODULUS - 1 := by decide
  have h2 : ¬ SIZE_MODULUS - 1 < 2 := by decide
  refine ⟨?_, rfl⟩
  simp [fullCounterMap, wrappedMap, StdMap.insert, h1, h2]

theorem wrappedMap_index (h h2 : Nat) (heap : Heap Nat) :
    (GlideMap.operatorIndex (wrappedMap h h2) heap 2).1 = wrappedMapAgain h h2 ∧
    (GlideMap.operatorIndex (wrappedMap h h2) heap 2).2.1 = heap := by
  have hc : (0 + 1) % SIZE_MODULUS = 1 := by decide
  have h1 : 2 < SIZE_MODULUS - 1 := by decide
  have h3 : 1 < SIZE_MODULUS - 1 := by decide
  have h4 : ¬ SIZE_MODULUS - 1 < 1 := by decide
  have h5 : ¬ SIZE_MODULUS - 1 < 2 := by decide
  constructor
  · simp [GlideMap.operatorIndex, wrappedMap, wrappedMapAgain, StdMap.find, StdMap.insert, hc,
      h1, h3, h4, h5]
  · simp [GlideMap.operatorIndex, wrappedMap, StdMap.find]

theorem wrappedMap_reachable :
    ∃ (heap : Heap Nat) (h h2 : Nat), GlideMap.Reachable (wrappedMap h h2) heap := by
  obtain ⟨heap, h, hr⟩ := fullCounterMap_reachable
  have := GlideMap.Reachable.index 2 hr
  rw [(wrappedMap_eq h heap).1] at this
  exact ⟨_, h, heap.length, this⟩

theorem wrappedMapAgain_reachable :
    ∃ (heap : Heap Nat) (h h2 : Nat), GlideMap.Reachable (wrappedMapAgain h h2) heap := by
  obtain ⟨heap, h, h2, hr⟩ := wrappedMap_reachable
  have := GlideMap.Reachable.index 2 hr
  rw [(wrappedMap_index h h2 heap).1] at this
  exact ⟨_, h, h2, this⟩

/-- C11 (fails on the code). After the counter has wrapped around the key 2 is
present with the position id 0, which `operator[]` takes for the mark of a new
entry: `m[2]` gives the key 2 the position id 1 instead of keeping 0, and stores it at
position 1 over the key 1, so iteration goes from 2, 1, 5 to 2, 2, 5. -/
theorem reassign_keeps_position_counterexample :
    ∃ (m : GlideMap Nat) (heap : Heap Nat) (a : Nat), GlideMap.Reachable m heap ∧
      m.count 2 = 1 ∧ StdMap.find 2 m.keyMap = some (0, a) ∧
      StdMap.find 2 (GlideMap.operatorIndex m heap 2).1.keyMap = some (1, a) ∧
      m.keysInOrder = [2, 1, 5] ∧
      (GlideMap.operatorIndex m heap 2).1.keysInOrder = [2, 2, 5] := by
  obtain ⟨heap, h, h2, hr⟩ := wrappedMap_reachable
  refine ⟨wrappedMap h h2, heap, h2, hr, ?_, ?_, ?_, ?_, ?_⟩
  · simp [GlideMap.count, wrappedMap, StdMap.find]
  · simp [wrappedMap, StdMap.find]
  · rw [(wrappedMap_index h h2 heap).1]
    simp [wrappedMapAgain, StdMap.find]
  · simp [wrappedMap, GlideMap.keysInOrder, GlideMap.iterate]
  · rw [(wrappedMap_index h h2 heap).1]
    simp [wrappedMapAgain, GlideMap.keysInOrder, GlideMap.iterate]

/-- C15 (fails on the code). After the counter has wrapped around and `m[2]` has
given the key 2 a second position, `erase(2)` returns 1 and `count(2)` is 0
afterwards, yet iteration still meets the key 2: only the position that `keyMap`
names is erased, the position 0 keeps its entry. -/
theorem erase_removes_key_counterexample :
    ∃ (m : GlideMap Nat) (heap : Heap Nat), GlideMap.Reachable m heap ∧
      m.count 2 = 1 ∧ (m.erase 2).2 = 1 ∧ (m.erase 2).1.count 2 = 0 ∧
      (m.erase 2).1.keysInOrder = [2, 5] ∧ 2 ∈ (m.erase 2).1.keysInOrder := by
  obtain ⟨heap, h, h2, hr⟩ := wrappedMapAgain_reachable
  have h1 : ¬ SIZE_MODULUS - 1 = 1 := by decide
  have h3 : ¬ 1 = SIZE_MODULUS - 1 := by decide
  have hkeys : ((wrappedMapAgain h h2).erase 2).1.keysInOrder = [2, 5] := by
    simp [wrappedMapAgain, GlideMap.erase, GlideMap.keysInOrder, GlideMap.iterate, StdMap.find,
      StdMap.erase, h1, h3]
  refine ⟨wrappedMapAgain h h2, heap, hr, ?_, ?_, ?_, hkeys, ?_⟩
  · simp [GlideMap.count, wrappedMapAgain, StdMap.find]
  · simp [wrappedMapAgain, GlideMap.erase, StdMap.find]
  · simp [GlideMap.count, wrappedMapAgain, GlideMap.erase, StdMap.find, StdMap.erase]
  · rw [hkeys]
    simp

/-- C16 (fails on the code). After the counter has wrapped around, `operator[]` on
the existing key 2 (position id 0) is not `sort` or `rsort`, and the keys 1 and 5 are
present before and after it; before it iteration meets the key 1 at position 1 ahead
of the key 5, after it the key 1 is not met at all, its position holding the key 2. -/
theorem only_sort_reorders_counterexample :
    ∃ (m : GlideMap Nat) (heap : Heap Nat), GlideMap.Reachable m heap ∧
      m.count 2 = 1 ∧
      (m.count 1 = 1 ∧ m.count 5 = 1) ∧
      ((GlideMap.operatorIndex m heap 2).1.count 1 = 1 ∧
        (GlideMap.operatorIndex m heap 2).1.count 5 = 1) ∧
      m.iterate.filter (fun e => decide (e.2.1 ≠ 2)) ≠
        (GlideMap.operatorIndex m heap 2).1.iterate.filter (fun e => decide (e.2.1 ≠ 2)) ∧
      1 ∈ m.keysInOrder ∧ 1 ∉ (GlideMap.operatorIndex m heap 2).1.keysInOrder := by
  obtain ⟨heap, h, h2, hr⟩ := wrappedMap_reachable
  refine ⟨wrappedMap h h2, heap, hr, ?_, ⟨?_, ?_⟩, ?_, ?_, ?_, ?_⟩
  · simp [GlideMap.count, wrappedMap, StdMap.find]
  · simp [GlideMap.count, wrappedMap, StdMap.find]
  · simp [GlideMap.count, wrappedMap, StdMap.find]
  · rw [(wrappedMap_index h h2 heap).1]
    constructor <;> simp [GlideMap.count, wrappedMapAgain, StdMap.find]
  · rw [(wrappedMap_index h h2 heap).1]
    simp [wrappedMap, wrappedMapAgain, GlideMap.iterate]
  · simp [wrappedMap, GlideMap.keysInOrder, GlideMap.iterate]
  · rw [(wrappedMap_index h h2 heap).1]
    simp [wrappedMapAgain, GlideMap.keysInOrder, GlideMap.iterate]

end GlideJson
